import Mathlib

/-!
webutils: the streaming image compositor of comic-viewer.c and webtoon-viewer.c.

A shallow embedding of `render_image`, `render` and the event loop of `main`
from `comic-viewer.c` and `webtoon-viewer.c`, and theorems about them.

Conventions of the embedding.

* C `int` values are `Int` (signed overflow is undefined behaviour in C and is
  not modelled); the `uint32_t` header fields are `Nat`, and the conversions
  between the two (`heights[img] = height`, `max_width < width`) are written
  out with `% 2^32`.
* Bytes are `Nat` values.
* Floating values are non-negative rational numbers kept as numerator and
  denominator (`float_t`).  The C operations are taken as IEEE 754 operations
  rounded to nearest, ties to even, each in the type of its operands
  (`FLT_EVAL_METHOD` 0): `float_t.round` rounds a fraction to a format of
  `p` significant bits.  The key handlers of `main` are written out with this
  rounding: `offset += size * 0.7` in double (`float_t.add_mul`),
  `scale_factor *= 0.7` and `/= 0.7` in double and then converted to `float`,
  the fit-to-width quotient in binary32.  The largest exponent of the formats
  is not modelled (no overflow to infinity: a `scale_factor` above `2^128`,
  after more than 248 zoom-out keys in a row, stays finite).
* In `render` and `render_image` the quotient by `scale_factor` and the sum
  it is added to (`float_t.add_div`, `float_t.add_div_ge`) are exact: the
  binary32 rounding of these two operations is not part of the embedding of
  `render`.  The same expressions with their binary32 rounding are
  `float_t.add_div_binary32`, `float_t.add_div_ge_binary32` and
  `float_t.div_sub_binary32`, and `render_pass_binary32` is one pass of
  `render` with the layout arithmetic (visibility test, error rectangle,
  `start_height`) rounded in this way; the theorems on numeric bounds (total
  height, fit to width) are stated for them.
* The conversion of a floating value to `int` truncates toward zero
  (`Int.tdiv`).
* The surface buffer `d->buf` is a map from byte offsets to bytes.
* The outside world is explicit: the result of `pipe`, `fork`, `waitpid` and
  of each successive `read` on the pipe is part of a `helper_t` value, one per
  run of the helper program.  The calls into libnsfb made by `render` are
  assumed to succeed and are recorded in a log of plot calls.
-/

namespace Webutils

/-! ## Constants -/

/-- Black (ABGR). -/
def BACKGROUND_COLOUR : Nat := 0xFF000000

/-- Bright red (ABGR). -/
def ERROR_COLOUR : Nat := 0xFF0000FF

/-- Read buffer size. -/
def READ_BUF_SIZE : Nat := 4096

/-- The eight bytes of the string "farbfeld". -/
def FARBFELD_MAGIC : List Nat := [102, 97, 114, 98, 102, 101, 108, 100]

/-! ## libnsfb surface formats and plot calls -/

/-- The surface formats of libnsfb (`enum nsfb_format_e` of `libnsfb.h`). -/
inductive nsfb_format_e
  | NSFB_FMT_ANY
  | NSFB_FMT_XBGR8888
  | NSFB_FMT_XRGB8888
  | NSFB_FMT_ABGR8888
  | NSFB_FMT_ARGB8888
  | NSFB_FMT_RGB888
  | NSFB_FMT_ARGB1555
  | NSFB_FMT_RGB565
  | NSFB_FMT_I8
  | NSFB_FMT_I4
  | NSFB_FMT_I1
  deriving DecidableEq, Repr

open nsfb_format_e

/-- Modelled from the spec: the number of bytes one pixel takes in the surface
buffer, which the source never names: 3 for the "direct RGB tri-byte layout"
RGB888, 4 for the 32-bit layouts.  The other formats are not handled by
`render_image`; they are given their libnsfb depth rounded up to whole bytes. -/
def bytes_per_pixel : nsfb_format_e → Nat
  | NSFB_FMT_RGB888 => 3
  | NSFB_FMT_ARGB1555 => 2
  | NSFB_FMT_RGB565 => 2
  | NSFB_FMT_I8 => 1
  | NSFB_FMT_I4 => 1
  | NSFB_FMT_I1 => 1
  | _ => 4

/-- A rectangle `{x0, y0, x1, y1}` (`nsfb_bbox_t`). -/
structure nsfb_bbox_t where
  x0 : Int
  y0 : Int
  x1 : Int
  y1 : Int
  deriving DecidableEq, Repr

/-- The plot calls `render` makes on the libnsfb context. -/
inductive nsfb_call
  | claim (box : nsfb_bbox_t)
  | plot_clg (colour : Nat)
  | plot_rectangle_fill (rect : nsfb_bbox_t) (colour : Nat)
  | update (box : nsfb_bbox_t)
  deriving DecidableEq, Repr

/-- The messages written to stderr. -/
inductive message
  | pipe_failed
  | fork_failed
  | read_failed
  | bad_header_magic
  | seems_corrupted
  | helper_failed
  | waitpid_failed
  deriving DecidableEq, Repr

/-! ## The helper process as seen through the pipe -/

/-- The result of one `read` call on the pipe. -/
inductive read_t
  /-- The call returned `bytes.length` and stored `bytes` (0 is end of file). -/
  | data (bytes : List Nat)
  /-- The call returned -1 with `errno = EINTR`. -/
  | eintr
  /-- The call returned -1 with another `errno`. -/
  | error
  deriving DecidableEq, Repr

/-- One run of the helper program: whether `pipe` and `fork` succeed, what the
successive `read` calls on the pipe return (calls after the end of the list
return 0, end of file), and how `waitpid` ends. -/
structure helper_t where
  pipe_ok : Bool
  fork_ok : Bool
  reads : List read_t
  waitpid_ok : Bool
  exit_ok : Bool
  deriving DecidableEq, Repr

/-! ## Integer conversions -/

/-- Conversion of a `uint32_t` to `int` (two's complement, 32 bits). -/
def to_int (n : Nat) : Int :=
  if n % 2 ^ 32 < 2 ^ 31 then ((n % 2 ^ 32 : Nat) : Int) else ((n % 2 ^ 32 : Nat) : Int) - 2 ^ 32

/-- Conversion of an `int` to `uint32_t`. -/
def to_uint32 (i : Int) : Nat := (i % 2 ^ 32).toNat

/-- The value `ntohl` gives for the four bytes `b0 b1 b2 b3` in stream order. -/
def ntohl (b0 b1 b2 b3 : Nat) : Nat :=
  ((b0 * 256 + b1) * 256 + b2) * 256 + b3

/-! ## Writing one pixel -/

/-- The store `buf[off] = v`. -/
def store (buf : Int → Nat) (w : Int × Nat) : Int → Nat :=
  fun a => if a = w.1 then w.2 else buf a

/-- The stores the body of `render_image` makes for one visible pixel, in
program order, as (offset, value) pairs. -/
def plot_writes (format : nsfb_format_e) (stride display_x display_y : Int)
    (blue green red : Nat) : List (Int × Nat) :=
  (if format = NSFB_FMT_RGB888 then
    let buf_offset := display_x * 4 + display_y * stride
    [(buf_offset + 0, red), (buf_offset + 1, green), (buf_offset + 2, blue)]
  else []) ++
  (if format = NSFB_FMT_ARGB8888 ∨ format = NSFB_FMT_XRGB8888 then
    let buf_offset := display_x * 4 + display_y * stride
    [(buf_offset + 0, red), (buf_offset + 1, green), (buf_offset + 2, blue)]
  else []) ++
  (if format = NSFB_FMT_ABGR8888 ∨ format = NSFB_FMT_XBGR8888 then
    let buf_offset := display_x * 4 + display_y * stride
    [(buf_offset + 0, blue), (buf_offset + 1, green), (buf_offset + 2, red)]
  else [])

/-- What `render_image` reads of a `display_t` in its pixel loop: the mapping
from image to display coordinates (which is where the two viewers differ), the
visible size, and the surface format and stride. -/
structure view_t where
  display_x : Nat → Int
  display_y : Nat → Int
  width : Int
  height : Int
  format : nsfb_format_e
  stride : Int

/-- The variables the pixel loop carries: the position in the image and the
surface buffer. -/
structure cursor_t where
  x : Nat
  y : Nat
  buf : Int → Nat

/-- The test guarding the plot of the pixel at image position `(x, y)`. -/
def plotted (v : view_t) (height : Nat) (x y : Nat) : Prop :=
  y < height ∧ 0 ≤ v.display_x x ∧ v.display_x x < v.width ∧
    0 ≤ v.display_y y ∧ v.display_y y < v.height

instance (v : view_t) (height x y : Nat) : Decidable (plotted v height x y) := by
  unfold plotted; infer_instance

/-- One iteration of the `for` loop of `render_image`, at index `i` of the read
buffer. -/
def pixel_body (v : view_t) (width height : Nat) (readbuf : List Nat) (i : Nat)
    (st : cursor_t) : cursor_t :=
  let buf :=
    if plotted v height st.x st.y then
      let blue := readbuf.getD (8 * i + 0) 0
      let green := readbuf.getD (8 * i + 2) 0
      let red := readbuf.getD (8 * i + 4) 0
      (plot_writes v.format v.stride (v.display_x st.x) (v.display_y st.y)
        blue green red).foldl store st.buf
    else st.buf
  if st.x + 1 ≥ width then { x := 0, y := st.y + 1, buf := buf }
  else { x := st.x + 1, y := st.y, buf := buf }

/-- The `for` loop of `render_image` over one read of `readbuf.length` bytes:
`i` runs from 0 while `i < count / 8`. -/
def pixel_for (v : view_t) (width height : Nat) (readbuf : List Nat)
    (st : cursor_t) : cursor_t :=
  (List.range (readbuf.length / 8)).foldl
    (fun st i => pixel_body v width height readbuf i st) st

/-- The `while` loop of `render_image`: read, process the whole pixels of the
read, and go on while the read returned data or was interrupted. -/
def pixel_while (v : view_t) (width height : Nat) : List read_t → cursor_t → cursor_t
  | [], st => st
  | read_t.data bytes :: rest, st =>
    if bytes.length = 0 then st
    else pixel_while v width height rest (pixel_for v width height bytes st)
  | read_t.eintr :: rest, st => pixel_while v width height rest st
  | read_t.error :: _, st => st

/-! ## The parts of `render_image` that the two viewers have in common -/

/-- The start of `render_image`, the same in both viewers: `pipe`, `fork`, the
one `read` of the 16 header bytes and the test of the magic.  It gives the
declared `(width, height)`, or the message printed before `return false`. -/
def read_header (h : helper_t) : Except message (Nat × Nat) :=
  if ¬ h.pipe_ok then Except.error message.pipe_failed
  else if ¬ h.fork_ok then Except.error message.fork_failed
  else
    match h.reads.headD (read_t.data []) with
    | read_t.data header =>
      if header.length ≠ 16 then Except.error message.read_failed
      else if header.take 8 ≠ FARBFELD_MAGIC then Except.error message.bad_header_magic
      else
        Except.ok
          (ntohl (header.getD 8 0) (header.getD 9 0) (header.getD 10 0) (header.getD 11 0),
           ntohl (header.getD 12 0) (header.getD 13 0) (header.getD 14 0) (header.getD 15 0))
    | _ => Except.error message.read_failed

/-- The end of `render_image`, the same in both viewers: the messages printed
after the pixel loop, by the corruption test and around `waitpid`. -/
def after_loop (h : helper_t) (st : cursor_t) (height : Nat) : List message :=
  (if st.x ≠ 0 ∧ st.y ≠ height then [message.seems_corrupted] else []) ++
  (if h.waitpid_ok then (if ¬ h.exit_ok then [message.helper_failed] else [])
   else [message.waitpid_failed])

/-! ## comic-viewer.c -/

namespace ComicViewer

/-- Height for images which failed to load. -/
def FALLBACK_HEIGHT : Int := 200

/-- A non-negative floating value, kept as the fraction `num / den`. -/
structure float_t where
  num : Nat
  den : Nat
  deriving DecidableEq, Repr

/-- The number of binary digits of `n`, counted in at most `fuel` steps. -/
def bit_length_fuel : Nat → Nat → Nat
  | 0, _ => 0
  | fuel + 1, n => if n = 0 then 0 else bit_length_fuel fuel (n / 2) + 1

/-- The number of binary digits of `n`: the least `b` with `n < 2^b`. -/
def bit_length (n : Nat) : Nat := bit_length_fuel n n

/-- The power `2^e` as a fraction. -/
def float_t.pow2 (e : Int) : float_t :=
  if 0 ≤ e then ⟨2 ^ e.toNat, 1⟩ else ⟨1, 2 ^ (-e).toNat⟩

/-- The binary exponent of the positive fraction `n / d`: the `k` with
`2^k <= n / d < 2^(k+1)`. -/
def ilog2 (n d : Nat) : Int :=
  let k : Int := (bit_length n : Int) - (bit_length d : Int)
  if d * (float_t.pow2 k).num ≤ n * (float_t.pow2 k).den then k else k - 1

/-- The integer nearest to `n / d`, the even one of the two when `n / d` lies
half way between them. -/
def round_half_even (n d : Nat) : Nat :=
  if 2 * (n % d) < d then n / d
  else if d < 2 * (n % d) then n / d + 1
  else if (n / d) % 2 = 0 then n / d else n / d + 1

/-- The exponent `e` of the last place of `n / d` in a binary floating-point
format with `p` significant bits whose least exponent is `emin`: the values of
the format next to `n / d` are multiples of `2^e`. -/
def float_t.quantum (p : Nat) (emin : Int) (n d : Nat) : Int :=
  max (ilog2 n d - ((p : Int) - 1)) emin

/-- The significand of `n / d` rounded to that format: the integer nearest to
`(n / d) / 2^e`, ties to even. -/
def float_t.significand (p : Nat) (emin : Int) (n d : Nat) : Nat :=
  round_half_even (n * (float_t.pow2 (float_t.quantum p emin n d)).den)
    (d * (float_t.pow2 (float_t.quantum p emin n d)).num)

/-- The fraction `n / d` rounded to the nearest value of a binary
floating-point format with `p` significant bits whose least exponent is `emin`
(the values `m * 2^e` with `m < 2^p` and `e >= emin`), ties to even: IEEE 754
round-to-nearest for binary64 (`p = 53`, `emin = -1074`) and binary32
(`p = 24`, `emin = -149`).  There is no largest exponent.  A fraction with
`d = 0` is left as it is. -/
def float_t.round (p : Nat) (emin : Int) (n d : Nat) : float_t :=
  if d = 0 then ⟨n, 0⟩ else
  ⟨float_t.significand p emin n d * (float_t.pow2 (float_t.quantum p emin n d)).num,
    (float_t.pow2 (float_t.quantum p emin n d)).den⟩

/-- The `double` nearest to a decimal constant such as `0.7`. -/
def float_t.to_double (f : float_t) : float_t := float_t.round 53 (-1074) f.num f.den

/-- The fraction `n / d` of either sign rounded as by `float_t.round`:
numerator and denominator of the result. -/
def round_signed (p : Nat) (emin : Int) (n : Int) (d : Nat) : Int × Nat :=
  (if n < 0 then - ((float_t.round p emin n.natAbs d).num : Int)
    else ((float_t.round p emin n.natAbs d).num : Int),
   (float_t.round p emin n.natAbs d).den)

/-- The value of `(float)n` for an `int` value `n >= 0`. -/
def float_t.of_int (n : Nat) : float_t := float_t.round 24 (-149) n 1

/-- The quotient `x / y` of two `float` values, in binary32. -/
def float_t.div (x y : float_t) : float_t :=
  float_t.round 24 (-149) (x.num * y.den) (x.den * y.num)

/-- The value that `f *= c` stores in the `float` variable `f` for a decimal
constant `c` of type `double`: the product is formed in double and then
converted to `float`. -/
def float_t.mul_double (f c : float_t) : float_t :=
  float_t.round 24 (-149)
    (float_t.round 53 (-1074) (f.num * c.to_double.num) (f.den * c.to_double.den)).num
    (float_t.round 53 (-1074) (f.num * c.to_double.num) (f.den * c.to_double.den)).den

/-- The value that `f /= c` stores in the `float` variable `f` for a decimal
constant `c` of type `double`: the quotient is formed in double and then
converted to `float`. -/
def float_t.div_double (f c : float_t) : float_t :=
  float_t.round 24 (-149)
    (float_t.round 53 (-1074) (f.num * c.to_double.den) (f.den * c.to_double.num)).num
    (float_t.round 53 (-1074) (f.num * c.to_double.den) (f.den * c.to_double.num)).den

/-- The value of `(int)(a + b / f)` for `int` values `a`, `b` and a positive
floating value `f`: the exact sum, truncated toward zero. -/
def float_t.add_div (f : float_t) (a b : Int) : Int :=
  Int.tdiv (a * f.num + b * f.den) f.num

/-- The value of `(int)(a + b / f)` as the program computes it for `int`
values `a`, `b` and a `float` value `f`: `a` and `b` are converted to `float`,
the quotient and the sum are rounded to binary32, and the sum is truncated
toward zero. -/
def float_t.add_div_binary32 (f : float_t) (a b : Int) : Int :=
  let x := round_signed 24 (-149) b 1
  let q := round_signed 24 (-149) (x.1 * f.den) (x.2 * f.num)
  let a1 := round_signed 24 (-149) a 1
  let s := round_signed 24 (-149) (a1.1 * q.2 + q.1 * a1.2) (a1.2 * q.2)
  Int.tdiv s.1 s.2

/-- The value of `(int)(a / f - b)` as the program computes it for `int`
values `a`, `b` and a `float` value `f`, in binary32. -/
def float_t.div_sub_binary32 (f : float_t) (a b : Int) : Int :=
  let x := round_signed 24 (-149) a 1
  let q := round_signed 24 (-149) (x.1 * f.den) (x.2 * f.num)
  let b1 := round_signed 24 (-149) b 1
  let s := round_signed 24 (-149) (q.1 * b1.2 - b1.1 * q.2) (q.2 * b1.2)
  Int.tdiv s.1 s.2

/-- The value of `(int)(a + b * f)` for `int` values `a`, `b` and a decimal
constant `f` of type `double`, as the program computes it: `a` and `b` are
converted to `double` (exactly), the product and the sum are rounded to
binary64, and the sum is truncated toward zero. -/
def float_t.add_mul (f : float_t) (a b : Int) : Int :=
  let x := round_signed 53 (-1074) (b * f.to_double.num) f.to_double.den
  let y := round_signed 53 (-1074) (a * x.2 + x.1) x.2
  Int.tdiv y.1 y.2

/-- The comparison `a + b / f >= c` for `int` values `a`, `b`, `c` and a positive
floating value `f`. -/
def float_t.add_div_ge (f : float_t) (a b c : Int) : Prop :=
  a * f.num + b * f.den ≥ c * f.num

instance (f : float_t) (a b c : Int) : Decidable (f.add_div_ge a b c) := by
  unfold float_t.add_div_ge; infer_instance

/-- The comparison `f <= 1`. -/
def float_t.le_one (f : float_t) : Prop := f.num ≤ f.den

instance (f : float_t) : Decidable f.le_one := by
  unfold float_t.le_one; infer_instance

/-- Fraction of page to move for a PageUp or PageDown: 0.7. -/
def PAGE_MULT : float_t := ⟨7, 10⟩

/-- Fraction of page to move for arrow keys: 0.1. -/
def ARROW_MULT : float_t := ⟨1, 10⟩

/-- Scale factor used for the plus and minus keys: 0.7. -/
def SCALE_FACTOR : float_t := ⟨7, 10⟩

/-- The display: scrolled offsets, scaling factor, visible size, surface
format, buffer and stride, and the calls made on the libnsfb context. -/
structure display_t where
  offset_y : Int
  offset_x : Int
  scale_factor : float_t
  width : Int
  height : Int
  format : nsfb_format_e
  buf : Int → Nat
  stride : Int
  nsfb : List nsfb_call

/-- The content: number of images, their heights and the maximum width.  The
image files themselves are stood for by the `run` argument of `render_image`:
what the helper program does when run on image `img`. -/
structure content_t where
  image_count : Nat
  heights : List Int
  max_width : Int
  deriving DecidableEq, Repr

/-- What a call of `render_image` leaves: its return value, the display and
content structures, and the messages it printed. -/
structure result_t where
  ok : Bool
  d : display_t
  c : content_t
  err : List message

/-- The coordinate mapping and clipping data of the pixel loop:
`display_y = (y / scale_factor) + offset`,
`display_x = (x / scale_factor) - offset_x`. -/
def view (d : display_t) (offset : Int) : view_t :=
  { display_x := fun x => d.scale_factor.add_div (- d.offset_x) x
    display_y := fun y => d.scale_factor.add_div offset y
    width := d.width
    height := d.height
    format := d.format
    stride := d.stride }

/-- The function `render_image`: `h` is the run of the helper on image `img`. -/
def render_image (h : helper_t) (d : display_t) (c : content_t) (img : Nat)
    (offset : Int) : result_t :=
  match read_header h with
  | Except.error m => ⟨false, d, c, [m]⟩
  | Except.ok (width, height) =>
    let c1 : content_t :=
      { c with
        heights := c.heights.set img (to_int height)
        max_width := if to_uint32 c.max_width < width then to_int width else c.max_width }
    let st := pixel_while (view d offset) width height h.reads.tail ⟨0, 0, d.buf⟩
    ⟨true, { d with buf := st.buf }, c1, after_loop h st height⟩

/-- The viewer: display, content and what was printed to stderr. -/
structure viewer_t where
  d : display_t
  c : content_t
  stderr : List message

/-- The variables of the layout loop of `render`. -/
structure pass_t where
  d : display_t
  c : content_t
  stderr : List message
  start_height : Int

/-- The handling of a failed `render_image` in `render`: placeholder height
and error rectangle. -/
def render_fallback (i : Nat) (p : pass_t) : pass_t :=
  let c1 : content_t :=
    if p.c.heights.getD i 0 = 0 then { p.c with heights := p.c.heights.set i FALLBACK_HEIGHT }
    else p.c
  let rect : nsfb_bbox_t :=
    { x0 := 0
      y0 := p.start_height - p.d.offset_y
      x1 := p.d.width
      y1 := p.d.scale_factor.add_div (p.start_height - p.d.offset_y) (c1.heights.getD i 0) }
  { p with
    c := c1
    d := { p.d with nsfb := p.d.nsfb ++ [nsfb_call.plot_rectangle_fill rect ERROR_COLOUR] } }

/-- One iteration of the layout loop of `render`, for image `i`. -/
def render_body (run : Nat → helper_t) (i : Nat) (p : pass_t) : pass_t :=
  let p1 : pass_t :=
    if p.d.scale_factor.add_div_ge p.start_height (p.c.heights.getD i 0) p.d.offset_y ∧
        p.start_height - p.d.height < p.d.offset_y then
      let r := render_image (run i) p.d p.c i (p.start_height - p.d.offset_y)
      let p2 : pass_t := { p with d := r.d, c := r.c, stderr := p.stderr ++ r.err }
      if ¬ r.ok then render_fallback i p2 else p2
    else p
  { p1 with
    start_height := p1.d.scale_factor.add_div p1.start_height (p1.c.heights.getD i 0) }

/-- One pass of `render` up to the end of the layout loop. -/
def render_pass (run : Nat → helper_t) (v : viewer_t) : pass_t :=
  let display_box : nsfb_bbox_t := ⟨0, 0, v.d.width, v.d.height⟩
  let d0 : display_t :=
    { v.d with
      nsfb := v.d.nsfb ++ [nsfb_call.claim display_box, nsfb_call.plot_clg BACKGROUND_COLOUR] }
  (List.range v.c.image_count).foldl (fun p i => render_body run i p) ⟨d0, v.c, v.stderr, 0⟩

/-- The statement `if (m < 0) m = 0;` applied to the value `m`. -/
def not_below_zero (m : Int) : Int := if m < 0 then 0 else m

/-- The function `render`, with the depth of its recursion bounded by `fuel`. -/
def render_fuel (run : Nat → helper_t) : Nat → viewer_t → Option viewer_t
  | 0, _ => none
  | fuel + 1, v =>
    let display_box : nsfb_bbox_t := ⟨0, 0, v.d.width, v.d.height⟩
    let p := render_pass run v
    let max_offset_y : Int := not_below_zero (p.start_height - p.d.height)
    let v1 : Option viewer_t :=
      if p.d.offset_y > max_offset_y then
        render_fuel run fuel ⟨{ p.d with offset_y := max_offset_y }, p.c, p.stderr⟩
      else some ⟨p.d, p.c, p.stderr⟩
    match v1 with
    | none => none
    | some v1 =>
      let max_offset_x : Int :=
        not_below_zero (v1.d.scale_factor.add_div (- v1.d.width) v1.c.max_width)
      let v2 : Option viewer_t :=
        if v1.d.offset_x > max_offset_x then
          render_fuel run fuel { v1 with d := { v1.d with offset_x := max_offset_x } }
        else some v1
      match v2 with
      | none => none
      | some v2 =>
        some { v2 with d := { v2.d with nsfb := v2.d.nsfb ++ [nsfb_call.update display_box] } }

/-- The function `render`.  Each recursive call lowers `offset_y` or `offset_x`
to a value that is still at least 0, so the depth given here is never used up
(`render_fuel_eq_render`). -/
def render (run : Nat → helper_t) (v : viewer_t) : viewer_t :=
  (render_fuel run (v.d.offset_y.toNat + v.d.offset_x.toNat + 1) v).getD v

/-- The value `start_height` has after the layout loop is run over `heights`. -/
def total_height (scale_factor : float_t) (image_count : Nat) (heights : List Int) : Int :=
  (List.range image_count).foldl
    (fun start_height i => scale_factor.add_div start_height (heights.getD i 0)) 0

/-- The events `main` acts on (quit events leave the loop and are left out). -/
inductive event_t
  | key_pagedown
  | key_pageup
  | key_down
  | key_up
  | key_right
  | key_left
  | key_home
  | key_equals
  | key_kp_plus
  | key_minus
  | key_f
  /-- A resize event for which `nsfb_set_geometry` fails. -/
  | resize_failed
  /-- A resize event after which the surface has the given geometry and buffer. -/
  | resize (width height : Int) (format : nsfb_format_e) (buf : Int → Nat) (stride : Int)

/-- What `main` does to the display for an event before it calls `render`. -/
def handle_event (e : event_t) (v : viewer_t) : viewer_t :=
  match e with
  | event_t.key_pagedown =>
    { v with d := { v.d with offset_y := PAGE_MULT.add_mul v.d.offset_y v.d.height } }
  | event_t.key_pageup =>
    let offset_y := PAGE_MULT.add_mul v.d.offset_y (- v.d.height)
    { v with d := { v.d with offset_y := if offset_y < 0 then 0 else offset_y } }
  | event_t.key_down =>
    { v with d := { v.d with offset_y := ARROW_MULT.add_mul v.d.offset_y v.d.height } }
  | event_t.key_up =>
    let offset_y := ARROW_MULT.add_mul v.d.offset_y (- v.d.height)
    { v with d := { v.d with offset_y := if offset_y < 0 then 0 else offset_y } }
  | event_t.key_right =>
    { v with d := { v.d with offset_x := ARROW_MULT.add_mul v.d.offset_x v.d.width } }
  | event_t.key_left =>
    let offset_x := ARROW_MULT.add_mul v.d.offset_x (- v.d.width)
    { v with d := { v.d with offset_x := if offset_x < 0 then 0 else offset_x } }
  | event_t.key_home => { v with d := { v.d with offset_y := 0 } }
  | event_t.key_equals | event_t.key_kp_plus =>
    let s : float_t := v.d.scale_factor.mul_double SCALE_FACTOR
    { v with d := { v.d with scale_factor := if s.le_one then ⟨1, 1⟩ else s } }
  | event_t.key_minus =>
    let s : float_t := v.d.scale_factor.div_double SCALE_FACTOR
    { v with d := { v.d with scale_factor := s } }
  | event_t.key_f =>
    let s : float_t :=
      (float_t.of_int v.c.max_width.toNat).div (float_t.of_int v.d.width.toNat)
    { v with d := { v.d with scale_factor := if s.le_one then ⟨1, 1⟩ else s } }
  | event_t.resize_failed => v
  | event_t.resize width height format buf stride =>
    { v with
      d := { v.d with width := width, height := height, format := format, buf := buf,
                      stride := stride } }

/-- The state `main` starts the first `render` from: `initialise_content` and
`initialise_display`, for a surface of the given geometry and buffer. -/
def initial (image_count : Nat) (width height : Int) (format : nsfb_format_e)
    (buf : Int → Nat) (stride : Int) : viewer_t :=
  { d :=
      { offset_y := 0, offset_x := 0, scale_factor := ⟨1, 1⟩, width := width, height := height,
        format := format, buf := buf, stride := stride, nsfb := [] }
    c := { image_count := image_count, heights := List.replicate image_count 0, max_width := 0 }
    stderr := [] }

/-- The states `main` is in after a call of `render` returns: after the first
call, and after the call that follows each event.  The surface always has a
positive width and a height that is not negative. -/
inductive Reachable (run : Nat → helper_t) (image_count : Nat) : viewer_t → Prop
  | start (width height : Int) (format : nsfb_format_e) (buf : Int → Nat) (stride : Int) :
      0 < width → 0 ≤ height →
      Reachable run image_count (render run (initial image_count width height format buf stride))
  | event (v : viewer_t) (e : event_t) :
      Reachable run image_count v →
      0 < (handle_event e v).d.width → 0 ≤ (handle_event e v).d.height →
      Reachable run image_count (render run (handle_event e v))

/-- The fields of the display that `render_image` and the layout loop leave
alone, and the heights of the other images. -/
def same_frame (d d1 : display_t) (c c1 : content_t) (i : Nat) : Prop :=
  d1.offset_y = d.offset_y ∧ d1.offset_x = d.offset_x ∧ d1.scale_factor = d.scale_factor ∧
    d1.width = d.width ∧ d1.height = d.height ∧ d1.format = d.format ∧ d1.stride = d.stride ∧
    c1.image_count = c.image_count ∧ ∀ j, j ≠ i → c1.heights.getD j 0 = c.heights.getD j 0

/-- The layout loop run over the first `n` images, from the variables `p0`. -/
def render_loop (run : Nat → helper_t) (p0 : pass_t) (n : Nat) : pass_t :=
  (List.range n).foldl (fun p i => render_body run i p) p0

/-- The bounds on `offset_y` that the clamping of `render` establishes. -/
def offset_y_clamped (v : viewer_t) : Prop :=
  0 ≤ v.d.offset_y ∧
    v.d.offset_y ≤ max 0 (total_height v.d.scale_factor v.c.image_count v.c.heights - v.d.height)

/-- A helper run that sends the header of a 100 x 300 image and then ends. -/
def header_only : helper_t :=
  { pipe_ok := true
    fork_ok := true
    reads := [read_t.data (FARBFELD_MAGIC ++ [0, 0, 0, 100, 0, 0, 1, 44])]
    waitpid_ok := true
    exit_ok := true }

/-- The viewer of one such image in a 200 x 150 window after the first `render`
and a PageDown key. -/
def after_pagedown : viewer_t :=
  render (fun _ => header_only) (handle_event event_t.key_pagedown
    (render (fun _ => header_only)
      (initial 1 200 150 nsfb_format_e.NSFB_FMT_XRGB8888 (fun _ => 0) 800)))

/-- A surface of the given format, width, height and stride, at scale 1 and not
scrolled, with every byte of the buffer 0. -/
def blank (format : nsfb_format_e) (width height stride : Int) : display_t :=
  { offset_y := 0, offset_x := 0, scale_factor := ⟨1, 1⟩, width := width, height := height,
    format := format, buf := fun _ => 0, stride := stride, nsfb := [] }

/-- The content of one image that was not loaded yet. -/
def one_image : content_t := { image_count := 1, heights := [0], max_width := 0 }

/-- The rational number a floating value stands for. -/
def float_t.value (f : float_t) : ℚ := (f.num : ℚ) / (f.den : ℚ)

/-- The exact value of `x / scale_factor - offset_x`, before the conversion to
`int`. -/
def exact_display_x (d : display_t) (x : Nat) : ℚ :=
  (x : ℚ) / d.scale_factor.value - (d.offset_x : ℚ)

/-- The exact value of `y / scale_factor + offset`, before the conversion to
`int`. -/
def exact_display_y (d : display_t) (offset : Int) (y : Nat) : ℚ :=
  (y : ℚ) / d.scale_factor.value + (offset : ℚ)

/-- A 10 x 10 XRGB8888 surface with `scale_factor = 2` and `offset_x = 1`. -/
def zoomed_out : display_t :=
  { blank nsfb_format_e.NSFB_FMT_XRGB8888 10 10 40 with scale_factor := ⟨2, 1⟩, offset_x := 1 }

end ComicViewer

/-! ## webtoon-viewer.c -/

namespace WebtoonViewer

/-- The display: scrolled offsets, visible size, surface format, buffer and
stride, and the calls made on the libnsfb context. -/
structure display_t where
  offset_y : Int
  offset_x : Int
  width : Int
  height : Int
  format : nsfb_format_e
  buf : Int → Nat
  stride : Int
  nsfb : List nsfb_call

/-- The content: number of images and their heights.  The helper and the image
handles are stood for by the `run` argument of `render_image`: what the helper
program does when run on image `img`. -/
structure content_t where
  image_count : Nat
  heights : List Int
  deriving DecidableEq, Repr

/-- What a call of `render_image` leaves: its return value, the display and
content structures, and the messages it printed. -/
structure result_t where
  ok : Bool
  d : display_t
  c : content_t
  err : List message

/-- The coordinate mapping and clipping data of the pixel loop:
`display_y = y + offset`, `display_x = x - offset_x`. -/
def view (d : display_t) (offset : Int) : view_t :=
  { display_x := fun x => (x : Int) - d.offset_x
    display_y := fun y => (y : Int) + offset
    width := d.width
    height := d.height
    format := d.format
    stride := d.stride }

/-- The function `render_image`: `h` is the run of the helper on image `img`. -/
def render_image (h : helper_t) (d : display_t) (c : content_t) (img : Nat)
    (offset : Int) : result_t :=
  match read_header h with
  | Except.error m => ⟨false, d, c, [m]⟩
  | Except.ok (width, height) =>
    let c1 : content_t := { c with heights := c.heights.set img (to_int height) }
    let st := pixel_while (view d offset) width height h.reads.tail ⟨0, 0, d.buf⟩
    ⟨true, { d with buf := st.buf }, c1, after_loop h st height⟩

/-- The viewer: display, content and what was printed to stderr. -/
structure viewer_t where
  d : display_t
  c : content_t
  stderr : List message

/-- The variables of the layout loop of `render`. -/
structure pass_t where
  d : display_t
  c : content_t
  stderr : List message
  start_height : Int

/-- The handling of a failed `render_image` in `render`: placeholder height
and error rectangle. -/
def render_fallback (i : Nat) (p : pass_t) : pass_t :=
  let c1 : content_t :=
    if p.c.heights.getD i 0 = 0 then { p.c with heights := p.c.heights.set i 500 }
    else p.c
  let rect : nsfb_bbox_t :=
    { x0 := 0
      y0 := p.start_height - p.d.offset_y
      x1 := p.d.width
      y1 := p.start_height - p.d.offset_y + c1.heights.getD i 0 }
  { p with
    c := c1
    d := { p.d with nsfb := p.d.nsfb ++ [nsfb_call.plot_rectangle_fill rect ERROR_COLOUR] } }

/-- One iteration of the layout loop of `render`, for image `i`. -/
def render_body (run : Nat → helper_t) (i : Nat) (p : pass_t) : pass_t :=
  let p1 : pass_t :=
    if p.start_height + p.c.heights.getD i 0 ≥ p.d.offset_y ∧
        p.start_height - p.d.height < p.d.offset_y then
      let r := render_image (run i) p.d p.c i (p.start_height - p.d.offset_y)
      let p2 : pass_t := { p with d := r.d, c := r.c, stderr := p.stderr ++ r.err }
      if ¬ r.ok then render_fallback i p2 else p2
    else p
  { p1 with start_height := p1.start_height + p1.c.heights.getD i 0 }

/-- One pass of `render` up to the end of the layout loop. -/
def render_pass (run : Nat → helper_t) (v : viewer_t) : pass_t :=
  let display_box : nsfb_bbox_t := ⟨0, 0, v.d.width, v.d.height⟩
  let d0 : display_t :=
    { v.d with
      nsfb := v.d.nsfb ++ [nsfb_call.claim display_box, nsfb_call.plot_clg BACKGROUND_COLOUR] }
  (List.range v.c.image_count).foldl (fun p i => render_body run i p) ⟨d0, v.c, v.stderr, 0⟩

/-- The function `render`, with the depth of its recursion bounded by `fuel`;
`none` when the bound is reached. -/
def render_fuel (run : Nat → helper_t) : Nat → viewer_t → Option viewer_t
  | 0, _ => none
  | fuel + 1, v =>
    let display_box : nsfb_bbox_t := ⟨0, 0, v.d.width, v.d.height⟩
    let p := render_pass run v
    let v1 : Option viewer_t :=
      if p.d.offset_y > p.start_height - p.d.height then
        render_fuel run fuel ⟨{ p.d with offset_y := p.start_height - p.d.height }, p.c, p.stderr⟩
      else some ⟨p.d, p.c, p.stderr⟩
    match v1 with
    | none => none
    | some v1 =>
      some { v1 with d := { v1.d with nsfb := v1.d.nsfb ++ [nsfb_call.update display_box] } }

/-- The value `start_height` has after the layout loop is run over `heights`. -/
def total_height (image_count : Nat) (heights : List Int) : Int :=
  (List.range image_count).foldl (fun start_height i => start_height + heights.getD i 0) 0

/-- The state `main` starts the first `render` from: `initialise_content` and
`initialise_display`, for a surface of the given geometry and buffer.
`initialise_display` leaves `offset_x` unset; it is taken as 0. -/
def initial (image_count : Nat) (width height : Int) (format : nsfb_format_e)
    (buf : Int → Nat) (stride : Int) : viewer_t :=
  { d :=
      { offset_y := 0, offset_x := 0, width := width, height := height,
        format := format, buf := buf, stride := stride, nsfb := [] }
    c := { image_count := image_count, heights := List.replicate image_count 0 }
    stderr := [] }

/-- A helper run that sends the header of a 100 x 100 image and then ends. -/
def short_image : helper_t :=
  { pipe_ok := true
    fork_ok := true
    reads := [read_t.data (FARBFELD_MAGIC ++ [0, 0, 0, 100, 0, 0, 0, 100])]
    waitpid_ok := true
    exit_ok := true }

/-- A surface of the given format, width, height and stride, not scrolled, with
every byte of the buffer 0. -/
def blank (format : nsfb_format_e) (width height stride : Int) : display_t :=
  { offset_y := 0, offset_x := 0, width := width, height := height,
    format := format, buf := fun _ => 0, stride := stride, nsfb := [] }

/-- The content of one image that was not loaded yet. -/
def one_image : content_t := { image_count := 1, heights := [0] }

end WebtoonViewer

/-! ## Notions the statements use -/

/-- The big-endian value of a sequence of bytes. -/
def big_endian (bytes : List Nat) : Nat := bytes.foldl (fun acc b => acc * 256 + b) 0

/-- A read that is part of a well-formed stream of pixels of one colour: an
interrupted read, or a read of at most `READ_BUF_SIZE` bytes that holds whole
pixels only, each with `blue` at byte 0, `green` at byte 2 and `red` at
byte 4. -/
def solid_read (blue green red : Nat) : read_t → Prop
  | read_t.data bytes =>
    bytes.length ≠ 0 ∧ bytes.length % 8 = 0 ∧ bytes.length ≤ READ_BUF_SIZE ∧
      ∀ i, i < bytes.length / 8 →
        bytes.getD (8 * i + 0) 0 = blue ∧ bytes.getD (8 * i + 2) 0 = green ∧
          bytes.getD (8 * i + 4) 0 = red
  | read_t.eintr => True
  | read_t.error => False

instance (blue green red : Nat) : DecidablePred (solid_read blue green red) := fun r => by
  cases r <;> unfold solid_read <;> infer_instance

/-- The number of whole pixels in a sequence of reads. -/
def pixels_sent : List read_t → Nat
  | [] => 0
  | read_t.data bytes :: rest => bytes.length / 8 + pixels_sent rest
  | _ :: rest => pixels_sent rest

/-- The four 32-bit surface formats that `render_image` handles. -/
def is_32bit (format : nsfb_format_e) : Prop :=
  format = NSFB_FMT_ARGB8888 ∨ format = NSFB_FMT_XRGB8888 ∨ format = NSFB_FMT_ABGR8888 ∨
    format = NSFB_FMT_XBGR8888

/-- The colour byte a plotted pixel has at byte `k` (0, 1 or 2): red, green,
blue for ARGB8888 and XRGB8888; blue, green, red for ABGR8888 and XBGR8888. -/
def channel (format : nsfb_format_e) (blue green red : Nat) (k : Nat) : Nat :=
  if format = NSFB_FMT_ARGB8888 ∨ format = NSFB_FMT_XRGB8888 then
    (if k = 0 then red else if k = 1 then green else blue)
  else
    (if k = 0 then blue else if k = 1 then green else red)

/-- The surface buffer `after` is the buffer `before` with the image of a
`width` x `height` picture of one colour painted in: the three colour bytes of
every display pixel in the viewport that some source pixel maps to have that
colour, and every other byte is as before. -/
def painted (v : view_t) (width height blue green red : Nat) (before after : Int → Nat) : Prop :=
  (∀ x y k : Nat, x < width → y < height → k < 3 →
    0 ≤ v.display_x x → v.display_x x < v.width → 0 ≤ v.display_y y → v.display_y y < v.height →
    after (v.display_x x * 4 + v.display_y y * v.stride + (k : Int)) =
      channel v.format blue green red k) ∧
  (∀ a : Int,
    (∀ x y k : Nat, x < width → y < height → k < 3 →
      0 ≤ v.display_x x → v.display_x x < v.width → 0 ≤ v.display_y y →
      v.display_y y < v.height →
      a ≠ v.display_x x * 4 + v.display_y y * v.stride + (k : Int)) →
    after a = before a)

/-- The state of the pixel loop after `n` pixels of one colour, as far as the
proof of `painted` needs it: the cursor is at pixel `n` of the stream, the
pixels before it that passed the test are in the buffer, and every other byte
is as before. -/
def painting (v : view_t) (width height blue green red : Nat) (before : Int → Nat) (n : Nat)
    (st : cursor_t) : Prop :=
  st.y * width + st.x = n ∧ st.x < width ∧
  (∀ x y k : Nat, x < width → y * width + x < n → k < 3 → plotted v height x y →
    st.buf (v.display_x x * 4 + v.display_y y * v.stride + (k : Int)) =
      channel v.format blue green red k) ∧
  (∀ a : Int,
    (∀ x y k : Nat, x < width → y * width + x < n → k < 3 → plotted v height x y →
      a ≠ v.display_x x * 4 + v.display_y y * v.stride + (k : Int)) →
    st.buf a = before a)

/-- The read buffer holding one pixel of the given colour. -/
def one_pixel (blue green red : Nat) : List Nat := [blue, 0, green, 0, red, 0, 0, 0]

/-! ## Helper runs used as concrete inputs -/

/-- The 16 header bytes declaring `width` and `height` (both below 256). -/
def header_bytes (width height : Nat) : List Nat :=
  FARBFELD_MAGIC ++ [0, 0, 0, width, 0, 0, 0, height]

/-- A helper run that starts, whose `read` calls return `reads`, and that exits
with status 0. -/
def helper_sending (reads : List read_t) : helper_t :=
  { pipe_ok := true, fork_ok := true, reads := reads, waitpid_ok := true, exit_ok := true }

/-- A helper run in which `fork` fails. -/
def helper_not_started : helper_t :=
  { pipe_ok := true, fork_ok := false, reads := [], waitpid_ok := false, exit_ok := false }

/-- The variables of comic-viewer's layout loop at its start, for one image
that was not loaded yet in a 200 x 150 window. -/
def comic_first_pass : ComicViewer.pass_t :=
  { d := ComicViewer.blank NSFB_FMT_XRGB8888 200 150 800
    c := ComicViewer.one_image
    stderr := []
    start_height := 0 }

/-- The variables of webtoon-viewer's layout loop at its start, for one image
that was not loaded yet in a 200 x 150 window. -/
def webtoon_first_pass : WebtoonViewer.pass_t :=
  { d := WebtoonViewer.blank NSFB_FMT_XRGB8888 200 150 800
    c := WebtoonViewer.one_image
    stderr := []
    start_height := 0 }

/-- A helper run that sends a 2 x 1 image whose two pixels have blue 7, green 8
and red 9, in one read. -/
def two_pixels : helper_t :=
  helper_sending [read_t.data (header_bytes 2 1), read_t.data (one_pixel 7 8 9 ++ one_pixel 7 8 9)]

/-- The bytes `1, 2, ..., n`. -/
def counting (n : Nat) : List Nat := (List.range n).map (fun k => k + 1)

/-! ## The layout loop: which images are handed to `render_image` -/

/-- The test of the layout loop of comic-viewer's `render` that guards the call
of `render_image` for image `i`:
`start_height + (heights[i] / scale_factor) >= offset_y &&
start_height - height < offset_y`. -/
def ComicViewer.handed_over (p : ComicViewer.pass_t) (i : Nat) : Prop :=
  p.d.scale_factor.add_div_ge p.start_height (p.c.heights.getD i 0) p.d.offset_y ∧
    p.start_height - p.d.height < p.d.offset_y

instance (p : ComicViewer.pass_t) (i : Nat) : Decidable (ComicViewer.handed_over p i) := by
  unfold ComicViewer.handed_over; infer_instance

/-- The images for which the layout loop of comic-viewer's `render`, run over
the first `n` images from the variables `p0`, calls `render_image`, in the order
of the calls. -/
def ComicViewer.render_calls (run : Nat → helper_t) (p0 : ComicViewer.pass_t) : Nat → List Nat
  | 0 => []
  | n + 1 =>
    ComicViewer.render_calls run p0 n ++
      (if ComicViewer.handed_over (ComicViewer.render_loop run p0 n) n then [n] else [])

/-- The layout loop of webtoon-viewer's `render` run over the first `n` images,
from the variables `p0`. -/
def WebtoonViewer.render_loop (run : Nat → helper_t) (p0 : WebtoonViewer.pass_t) (n : Nat) :
    WebtoonViewer.pass_t :=
  (List.range n).foldl (fun p i => WebtoonViewer.render_body run i p) p0

/-- The test of the layout loop of webtoon-viewer's `render` that guards the
call of `render_image` for image `i`:
`start_height + heights[i] >= offset_y && start_height - height < offset_y`. -/
def WebtoonViewer.handed_over (p : WebtoonViewer.pass_t) (i : Nat) : Prop :=
  p.start_height + p.c.heights.getD i 0 ≥ p.d.offset_y ∧
    p.start_height - p.d.height < p.d.offset_y

instance (p : WebtoonViewer.pass_t) (i : Nat) : Decidable (WebtoonViewer.handed_over p i) := by
  unfold WebtoonViewer.handed_over; infer_instance

/-- The images for which the layout loop of webtoon-viewer's `render`, run over
the first `n` images from the variables `p0`, calls `render_image`, in the order
of the calls. -/
def WebtoonViewer.render_calls (run : Nat → helper_t) (p0 : WebtoonViewer.pass_t) :
    Nat → List Nat
  | 0 => []
  | n + 1 =>
    WebtoonViewer.render_calls run p0 n ++
      (if WebtoonViewer.handed_over (WebtoonViewer.render_loop run p0 n) n then [n] else [])

/-- The half-open intervals `[a, b)` and `[o, e)` have a point in common. -/
def intersects (a b o e : ℚ) : Prop := ∃ t : ℚ, a ≤ t ∧ t < b ∧ o ≤ t ∧ t < e

/-- In comic-viewer, the vertical extent of image `i`,
`[start_height, start_height + heights[i] / scale_factor)`, meets the visible
range `[offset_y, offset_y + height)`. -/
def ComicViewer.extent_visible (p : ComicViewer.pass_t) (i : Nat) : Prop :=
  intersects (p.start_height : ℚ)
    ((p.start_height : ℚ) + ((p.c.heights.getD i 0 : Int) : ℚ) / p.d.scale_factor.value)
    (p.d.offset_y : ℚ) ((p.d.offset_y : ℚ) + (p.d.height : ℚ))

/-- In webtoon-viewer, the vertical extent of image `i`,
`[start_height, start_height + heights[i])`, meets the visible range
`[offset_y, offset_y + height)`. -/
def WebtoonViewer.extent_visible (p : WebtoonViewer.pass_t) (i : Nat) : Prop :=
  intersects (p.start_height : ℚ)
    ((p.start_height : ℚ) + ((p.c.heights.getD i 0 : Int) : ℚ))
    (p.d.offset_y : ℚ) ((p.d.offset_y : ℚ) + (p.d.height : ℚ))

/-- The variables of comic-viewer's layout loop at its start, for one image of
height 100 in a 200 x 150 window scrolled to `offset_y = 100`. -/
def comic_scrolled_past : ComicViewer.pass_t :=
  { d := { ComicViewer.blank NSFB_FMT_XRGB8888 200 150 800 with offset_y := 100 }
    c := { image_count := 1, heights := [100], max_width := 100 }
    stderr := []
    start_height := 0 }

/-- The variables of webtoon-viewer's layout loop at its start, for one image of
height 100 in a 200 x 150 window scrolled to `offset_y = 100`. -/
def webtoon_scrolled_past : WebtoonViewer.pass_t :=
  { d := { WebtoonViewer.blank NSFB_FMT_XRGB8888 200 150 800 with offset_y := 100 }
    c := { image_count := 1, heights := [100] }
    stderr := []
    start_height := 0 }

/-- Comic-viewer with two images of height 1 and width 1 in a 200 x 150 window,
at `scale_factor = 2`. -/
def two_thin_images : ComicViewer.viewer_t :=
  { d := { ComicViewer.blank NSFB_FMT_XRGB8888 200 150 800 with scale_factor := ⟨2, 1⟩ }
    c := { image_count := 2, heights := [1, 1], max_width := 1 }
    stderr := [] }

/-- Comic-viewer with one image that declares 100 x 300 in a 200 x 150 window,
after the first `render`, a zoom-out key and a zoom-in key. -/
def after_zoom_out_and_in : ComicViewer.viewer_t :=
  ComicViewer.render (fun _ => ComicViewer.header_only)
    (ComicViewer.handle_event ComicViewer.event_t.key_equals
      (ComicViewer.render (fun _ => ComicViewer.header_only)
        (ComicViewer.handle_event ComicViewer.event_t.key_minus
          (ComicViewer.render (fun _ => ComicViewer.header_only)
            (ComicViewer.initial 1 200 150 NSFB_FMT_XRGB8888 (fun _ => 0) 800)))))

/-- Comic-viewer with one image 100 wide and 300 high in a window 50 wide and
150 high, scrolled to `offset_x = 80`. -/
def scrolled_right : ComicViewer.viewer_t :=
  { d := { ComicViewer.blank NSFB_FMT_XRGB8888 50 150 200 with offset_x := 80 }
    c := { image_count := 1, heights := [300], max_width := 100 }
    stderr := [] }

/-- The images decoded one after the other by `render_image` of comic-viewer:
each step is a run of the helper, the index of the image and the offset. -/
def ComicViewer.decode_all :
    List (helper_t × Nat × Int) → ComicViewer.display_t × ComicViewer.content_t →
      ComicViewer.display_t × ComicViewer.content_t
  | [], dc => dc
  | (h, img, offset) :: rest, dc =>
    ComicViewer.decode_all rest
      ((ComicViewer.render_image h dc.1 dc.2 img offset).d,
        (ComicViewer.render_image h dc.1 dc.2 img offset).c)

/-- The width and height that the header of a helper run declares, if it is
valid, are below `2^31`, so they are values of the type `int`. -/
def header_fits_int (h : helper_t) : Prop :=
  ∀ width height, read_header h = Except.ok (width, height) → width < 2 ^ 31 ∧ height < 2 ^ 31

/-- A helper run that sends a header declaring the width `2^31` and the height
`2^32 - 1`. -/
def huge_header : helper_t :=
  helper_sending [read_t.data (FARBFELD_MAGIC ++ [128, 0, 0, 0, 255, 255, 255, 255])]

/-! ## html-extract.c -/

namespace HtmlExtract

/-- A `hubbub_string`: the `len` bytes at `ptr` (not NUL-terminated). -/
structure hubbub_string where
  ptr : List Nat
  deriving DecidableEq, Repr

/-- The length `len` of a `hubbub_string`. -/
def hubbub_string.len (h : hubbub_string) : Nat := h.ptr.length

/-- An attribute of a tag (`hubbub_attribute`, without the namespace field,
which the program does not read). -/
structure hubbub_attribute where
  name : hubbub_string
  value : hubbub_string
  deriving DecidableEq, Repr

/-- The token types of hubbub (`hubbub_token_type` of `hubbub/types.h`). -/
inductive hubbub_token_type
  | HUBBUB_TOKEN_DOCTYPE
  | HUBBUB_TOKEN_START_TAG
  | HUBBUB_TOKEN_END_TAG
  | HUBBUB_TOKEN_COMMENT
  | HUBBUB_TOKEN_CHARACTER
  | HUBBUB_TOKEN_EOF
  deriving DecidableEq, Repr

/-- A token: its type and, for a tag, the attributes `data.tag.attributes`
(`n_attributes` is the length of the list). -/
structure hubbub_token where
  type : hubbub_token_type
  attributes : List hubbub_attribute
  deriving DecidableEq, Repr

/-- The error codes of hubbub (`hubbub_error` of `hubbub/errors.h`). -/
inductive hubbub_error
  | HUBBUB_OK
  | HUBBUB_REPROCESS
  | HUBBUB_ENCODINGCHANGE
  | HUBBUB_PAUSED
  | HUBBUB_NOMEM
  | HUBBUB_BADPARM
  | HUBBUB_INVALID
  | HUBBUB_FILENOTFOUND
  | HUBBUB_NEEDDATA
  | HUBBUB_BADENCODING
  | HUBBUB_UNKNOWN
  deriving DecidableEq, Repr

/-- The C function `strlen` on a string given by its bytes (the bytes past the
end of the list are NUL): the number of bytes before the first NUL. -/
def strlen (s : List Nat) : Nat := (s.takeWhile (fun c => c != 0)).length

/-- The C function `strncmp` on two strings given by their bytes (the bytes
past the end of a list are NUL): at most `n` bytes are compared, and the
comparison stops at the first difference or at a NUL. -/
def strncmp : List Nat → List Nat → Nat → Int
  | _, _, 0 => 0
  | a, b, n + 1 =>
    if a.headD 0 ≠ b.headD 0 then (a.headD 0 : Int) - (b.headD 0 : Int)
    else if a.headD 0 = 0 then 0
    else strncmp a.tail b.tail n

/-- The C function `isspace` in the "C" locale, on the value of a byte: space,
`\t`, `\n`, `\v`, `\f`, `\r`. -/
def isspace (c : Nat) : Bool := c == 32 || (9 ≤ c && c ≤ 13)

/-- The function `string_equal`. -/
def string_equal (h : hubbub_string) (s : List Nat) : Bool :=
  decide (strlen s = h.len) && decide (strncmp h.ptr s h.len = 0)

/-- The function `print_link`; `stdout` is what was written to stdout so far. -/
def print_link (h : hubbub_string) (stdout : List Nat) : List Nat :=
  (h.ptr.foldl (fun out c => if isspace c then out else out ++ [c]) stdout) ++ [10]

/-- The bytes of the string "href". -/
def HREF : List Nat := [104, 114, 101, 102]

/-- The function `process_token`: its return value and what stdout holds after
it. -/
def process_token (token : hubbub_token) (stdout : List Nat) : hubbub_error × List Nat :=
  let out :=
    if token.type = hubbub_token_type.HUBBUB_TOKEN_START_TAG then
      token.attributes.foldl
        (fun out a => if string_equal a.name HREF then print_link a.value out else out) stdout
    else stdout
  (hubbub_error.HUBBUB_OK, out)

/-- What the claim says `process_token` prints for the attributes of a start
tag: for each attribute named "href", in order, its value without the
whitespace characters, followed by a newline. -/
def links (attributes : List hubbub_attribute) : List Nat :=
  attributes.flatMap (fun a =>
    if a.name.ptr = HREF then a.value.ptr.filter (fun c => !isspace c) ++ [10] else [])

/-- A start tag with the attributes `class="x"`, `href=" a\tb "` and an
attribute whose name is `hre` followed by a NUL byte. -/
def anchor : hubbub_token :=
  { type := hubbub_token_type.HUBBUB_TOKEN_START_TAG
    attributes :=
      [⟨⟨[99, 108, 97, 115, 115]⟩, ⟨[120]⟩⟩, ⟨⟨HREF⟩, ⟨[32, 97, 9, 98, 32]⟩⟩,
        ⟨⟨[104, 114, 101, 0]⟩, ⟨[122]⟩⟩] }

end HtmlExtract

/-! ## The passes of `render` under a fixed decoder -/

/-- The number of passes of comic-viewer's `render` recorded in the log of a
display: every pass starts with one `nsfb_claim`. -/
def ComicViewer.passes (d : ComicViewer.display_t) : Nat :=
  d.nsfb.countP (fun c => match c with
    | nsfb_call.claim _ => true
    | _ => false)

/-- The height image `i` ends up with when the helper run for it is always
`run i`: the declared height when the header is valid, the fallback height
when `render_image` fails. -/
def ComicViewer.settled_height (run : Nat → helper_t) (i : Nat) : Int :=
  match read_header (run i) with
  | Except.ok (_, height) => to_int height
  | Except.error _ => ComicViewer.FALLBACK_HEIGHT

/-- The content of a viewer is what decoding with the helper runs `run` has
left so far: every height is still 0 or is the settled height of its image,
`max_width` is a value of the type `int` that is not negative, and the scale
factor is positive. -/
def ComicViewer.decoded_by (run : Nat → helper_t) (v : ComicViewer.viewer_t) : Prop :=
  (∀ i, v.c.heights.getD i 0 = 0 ∨ v.c.heights.getD i 0 = ComicViewer.settled_height run i) ∧
    0 ≤ v.c.max_width ∧ v.c.max_width < 2 ^ 31 ∧
      0 < v.d.scale_factor.num ∧ v.d.scale_factor.den ≤ v.d.scale_factor.num

/-- The value `max_offset_y` that `render` computes from the heights of a
viewer. -/
def ComicViewer.max_offset_y (v : ComicViewer.viewer_t) : Int :=
  ComicViewer.not_below_zero
    (ComicViewer.total_height v.d.scale_factor v.c.image_count v.c.heights - v.d.height)

/-- The value `max_offset_x` that `render` computes from the `max_width` of a
viewer. -/
def ComicViewer.max_offset_x (v : ComicViewer.viewer_t) : Int :=
  ComicViewer.not_below_zero (v.d.scale_factor.add_div (- v.d.width) v.c.max_width)

/-- The viewer after the layout loop of one pass of `render`. -/
def ComicViewer.pass_viewer (run : Nat → helper_t) (v : ComicViewer.viewer_t) :
    ComicViewer.viewer_t :=
  ⟨(ComicViewer.render_pass run v).d, (ComicViewer.render_pass run v).c,
    (ComicViewer.render_pass run v).stderr⟩

/-- Both offsets of a viewer are within the bounds that `render` computes from
its content. -/
def ComicViewer.settled (run : Nat → helper_t) (v : ComicViewer.viewer_t) : Prop :=
  ComicViewer.decoded_by run v ∧ v.d.offset_y ≤ ComicViewer.max_offset_y v ∧
    v.d.offset_x ≤ ComicViewer.max_offset_x v

/-- The states on which `main` of comic-viewer calls `render`: the initial one,
and the one an event leaves of the state that the call before returned. -/
inductive ComicViewer.render_called_on (run : Nat → helper_t) (image_count : Nat) :
    ComicViewer.viewer_t → Prop
  | first (width height : Int) (format : nsfb_format_e) (buf : Int → Nat) (stride : Int) :
      ComicViewer.render_called_on run image_count
        (ComicViewer.initial image_count width height format buf stride)
  | next (v : ComicViewer.viewer_t) (e : ComicViewer.event_t) :
      ComicViewer.render_called_on run image_count v →
      ComicViewer.render_called_on run image_count
        (ComicViewer.handle_event e (ComicViewer.render run v))

/-- One image that declares 100 x 300 in a window 50 wide and 150 high, after
the first `render`, a Right key with its `render`, and a PageDown key. -/
def ComicViewer.scrolled_both : ComicViewer.viewer_t :=
  ComicViewer.handle_event ComicViewer.event_t.key_pagedown
    (ComicViewer.render (fun _ => ComicViewer.header_only)
      (ComicViewer.handle_event ComicViewer.event_t.key_right
        (ComicViewer.render (fun _ => ComicViewer.header_only)
          (ComicViewer.initial 1 50 150 nsfb_format_e.NSFB_FMT_XRGB8888 (fun _ => 0) 200))))

/-- The state after the `render` that follows, once the window is resized to
200 x 400, so that the whole image fits it. -/
def ComicViewer.resized_larger : ComicViewer.viewer_t :=
  ComicViewer.handle_event
    (ComicViewer.event_t.resize 200 400 nsfb_format_e.NSFB_FMT_XRGB8888 (fun _ => 0) 800)
    (ComicViewer.render (fun _ => ComicViewer.header_only) ComicViewer.scrolled_both)

/-- One image that declares 100 x 300 in a window 200 wide and 150 high, at
scale 1 and not scrolled, after the first `render`. -/
def ComicViewer.first_page : ComicViewer.viewer_t :=
  ComicViewer.render (fun _ => ComicViewer.header_only)
    (ComicViewer.initial 1 200 150 nsfb_format_e.NSFB_FMT_XRGB8888 (fun _ => 0) 800)

/-- The number of passes of webtoon-viewer's `render` recorded in the log of
libnsfb calls: each pass starts with one `nsfb_claim`. -/
def WebtoonViewer.passes (d : WebtoonViewer.display_t) : Nat :=
  d.nsfb.countP (fun c => match c with
    | nsfb_call.claim _ => true
    | _ => false)

/-- The height webtoon-viewer holds for image `i` once the fixed decoder `run`
was tried on it: the declared height, or the placeholder 500 when the header is
not read. -/
def WebtoonViewer.settled_height (run : Nat → helper_t) (i : Nat) : Int :=
  match read_header (run i) with
  | Except.ok (_, height) => to_int height
  | Except.error _ => 500

/-- Every height held is 0 (image not tried yet) or the one the fixed decoder
`run` gives. -/
def WebtoonViewer.decoded_by (run : Nat → helper_t) (v : WebtoonViewer.viewer_t) : Prop :=
  ∀ i, v.c.heights.getD i 0 = 0 ∨ v.c.heights.getD i 0 = WebtoonViewer.settled_height run i

/-- The events `main` of webtoon-viewer acts on (quit events leave the loop and
are left out). -/
inductive WebtoonViewer.event_t
  | key_pagedown
  | key_pageup
  | key_down
  | key_up
  | key_right
  | key_left
  | key_home
  /-- A resize event for which `nsfb_set_geometry` fails. -/
  | resize_failed
  /-- A resize event after which the surface has the given geometry and buffer. -/
  | resize (width height : Int) (format : nsfb_format_e) (buf : Int → Nat) (stride : Int)

/-- What `main` of webtoon-viewer does to the display for an event before it
calls `render`. -/
def WebtoonViewer.handle_event (e : WebtoonViewer.event_t) (v : WebtoonViewer.viewer_t) :
    WebtoonViewer.viewer_t :=
  match e with
  | WebtoonViewer.event_t.key_pagedown =>
    { v with d := { v.d with
        offset_y := ComicViewer.PAGE_MULT.add_mul v.d.offset_y v.d.height } }
  | WebtoonViewer.event_t.key_pageup =>
    let offset_y := ComicViewer.PAGE_MULT.add_mul v.d.offset_y (- v.d.height)
    { v with d := { v.d with offset_y := if offset_y < 0 then 0 else offset_y } }
  | WebtoonViewer.event_t.key_down =>
    { v with d := { v.d with
        offset_y := ComicViewer.ARROW_MULT.add_mul v.d.offset_y v.d.height } }
  | WebtoonViewer.event_t.key_up =>
    let offset_y := ComicViewer.ARROW_MULT.add_mul v.d.offset_y (- v.d.height)
    { v with d := { v.d with offset_y := if offset_y < 0 then 0 else offset_y } }
  | WebtoonViewer.event_t.key_right =>
    { v with d := { v.d with
        offset_x := ComicViewer.ARROW_MULT.add_mul v.d.offset_x v.d.width } }
  | WebtoonViewer.event_t.key_left =>
    let offset_x := ComicViewer.ARROW_MULT.add_mul v.d.offset_x (- v.d.width)
    { v with d := { v.d with offset_x := if offset_x < 0 then 0 else offset_x } }
  | WebtoonViewer.event_t.key_home => { v with d := { v.d with offset_y := 0 } }
  | WebtoonViewer.event_t.resize_failed => v
  | WebtoonViewer.event_t.resize width height format buf stride =>
    { v with
      d := { v.d with width := width, height := height, format := format, buf := buf,
                      stride := stride } }

/-- The states on which `main` of webtoon-viewer calls `render`: the initial
one, and the one an event leaves of the state `r` that the call before returned
(at some depth `fuel` of its recursion). -/
inductive WebtoonViewer.render_called_on (run : Nat → helper_t) (image_count : Nat) :
    WebtoonViewer.viewer_t → Prop
  | first (width height : Int) (format : nsfb_format_e) (buf : Int → Nat) (stride : Int) :
      WebtoonViewer.render_called_on run image_count
        (WebtoonViewer.initial image_count width height format buf stride)
  | next (v r : WebtoonViewer.viewer_t) (e : WebtoonViewer.event_t) (fuel : Nat) :
      WebtoonViewer.render_called_on run image_count v →
      WebtoonViewer.render_fuel run fuel v = some r →
      WebtoonViewer.render_called_on run image_count (WebtoonViewer.handle_event e r)

/-- One image that declares 100 x 300 in a window 200 wide and 90 high, at
scale 1 and not scrolled, after the first `render`. -/
def ComicViewer.low_window : ComicViewer.viewer_t :=
  ComicViewer.render (fun _ => ComicViewer.header_only)
    (ComicViewer.initial 1 200 90 nsfb_format_e.NSFB_FMT_XRGB8888 (fun _ => 0) 800)

/-- Comic-viewer with one image 105 wide and 300 high in a window 100 wide and
150 high, scrolled to `offset_x = 3`. -/
def ComicViewer.slightly_wide : ComicViewer.viewer_t :=
  { d := { ComicViewer.blank nsfb_format_e.NSFB_FMT_XRGB8888 100 150 400 with offset_x := 3 }
    c := { image_count := 1, heights := [300], max_width := 105 }
    stderr := [] }

namespace ComicViewer

/-- The value of `a + b / f` as the program computes it for `int` values `a`,
`b` and a `float` value `f`, before any conversion to `int`: `a` and `b` are
converted to `float`, the quotient and the sum are rounded to binary32.
Numerator and denominator of the sum. -/
def float_t.add_div_sum_binary32 (f : float_t) (a b : Int) : Int × Nat :=
  let x := round_signed 24 (-149) b 1
  let q := round_signed 24 (-149) (x.1 * f.den) (x.2 * f.num)
  let a1 := round_signed 24 (-149) a 1
  round_signed 24 (-149) (a1.1 * q.2 + q.1 * a1.2) (a1.2 * q.2)

/-- The comparison `a + b / f >= c` as the program evaluates it for `int`
values `a`, `b`, `c` and a `float` value `f`: the left side is the binary32 sum,
the right side is `c` converted to `float`. -/
def float_t.add_div_ge_binary32 (f : float_t) (a b c : Int) : Prop :=
  (f.add_div_sum_binary32 a b).1 * ((round_signed 24 (-149) c 1).2 : Int) ≥
    (round_signed 24 (-149) c 1).1 * ((f.add_div_sum_binary32 a b).2 : Int)

instance (f : float_t) (a b c : Int) : Decidable (f.add_div_ge_binary32 a b c) := by
  unfold float_t.add_div_ge_binary32; infer_instance

/-- The handling of a failed `render_image` in `render`, with the lower edge of
the error rectangle computed in binary32. -/
def render_fallback_binary32 (i : Nat) (p : pass_t) : pass_t :=
  let c1 : content_t :=
    if p.c.heights.getD i 0 = 0 then { p.c with heights := p.c.heights.set i FALLBACK_HEIGHT }
    else p.c
  let rect : nsfb_bbox_t :=
    { x0 := 0
      y0 := p.start_height - p.d.offset_y
      x1 := p.d.width
      y1 := p.d.scale_factor.add_div_binary32 (p.start_height - p.d.offset_y)
        (c1.heights.getD i 0) }
  { p with
    c := c1
    d := { p.d with nsfb := p.d.nsfb ++ [nsfb_call.plot_rectangle_fill rect ERROR_COLOUR] } }

/-- One iteration of the layout loop of `render`, for image `i`, with the
visibility test and the step `start_height += heights[i] / scale_factor`
computed in binary32 as the program computes them. -/
def render_body_binary32 (run : Nat → helper_t) (i : Nat) (p : pass_t) : pass_t :=
  let p1 : pass_t :=
    if p.d.scale_factor.add_div_ge_binary32 p.start_height (p.c.heights.getD i 0)
          p.d.offset_y ∧
        p.start_height - p.d.height < p.d.offset_y then
      let r := render_image (run i) p.d p.c i (p.start_height - p.d.offset_y)
      let p2 : pass_t := { p with d := r.d, c := r.c, stderr := p.stderr ++ r.err }
      if ¬ r.ok then render_fallback_binary32 i p2 else p2
    else p
  { p1 with
    start_height :=
      p1.d.scale_factor.add_div_binary32 p1.start_height (p1.c.heights.getD i 0) }

/-- The layout loop in binary32 run over the first `n` images, from the
variables `p0`. -/
def render_loop_binary32 (run : Nat → helper_t) (p0 : pass_t) (n : Nat) : pass_t :=
  (List.range n).foldl (fun p i => render_body_binary32 run i p) p0

/-- One pass of `render` up to the end of the layout loop, with the layout
arithmetic in binary32: which images are handed to `render_image`, the heights
and `max_width` recorded, the error rectangles and `start_height` are those of
the program. -/
def render_pass_binary32 (run : Nat → helper_t) (v : viewer_t) : pass_t :=
  let display_box : nsfb_bbox_t := ⟨0, 0, v.d.width, v.d.height⟩
  let d0 : display_t :=
    { v.d with
      nsfb := v.d.nsfb ++ [nsfb_call.claim display_box, nsfb_call.plot_clg BACKGROUND_COLOUR] }
  render_loop_binary32 run ⟨d0, v.c, v.stderr, 0⟩ v.c.image_count

/-- The value `start_height` has after the layout loop of `render` is run over
`heights`, with every step `start_height += heights[i] / scale_factor` evaluated
as the program evaluates it: in binary32, and converted back to `int`. -/
def total_height_binary32 (scale_factor : float_t) (image_count : Nat)
    (heights : List Int) : Int :=
  (List.range image_count).foldl
    (fun start_height i => scale_factor.add_div_binary32 start_height (heights.getD i 0)) 0

end ComicViewer

/-- Comic-viewer with two images, of height `2^24` and 1, in a 200 x 150 window
at scale 1, not scrolled. -/
def tall_and_thin_image : ComicViewer.viewer_t :=
  { d := ComicViewer.blank NSFB_FMT_XRGB8888 200 150 800
    c := { image_count := 2, heights := [16777216, 1], max_width := 1 }
    stderr := [] }

/-- Comic-viewer with two images of heights 800 and 700 in a 200 x 150 window,
at the `float` scale factor nearest to 8/5, which is `13421773 / 2^23`. -/
def two_pages_zoomed_out : ComicViewer.viewer_t :=
  { d := { ComicViewer.blank NSFB_FMT_XRGB8888 200 150 800 with
            scale_factor := ⟨13421773, 8388608⟩ }
    c := { image_count := 2, heights := [800, 700], max_width := 320 }
    stderr := [] }

/-! # Theorems -/

/-! ## Rounding to a binary floating-point format -/

theorem bit_length_fuel_zero (fuel : Nat) : ComicViewer.bit_length_fuel fuel 0 = 0 := by
  cases fuel <;> simp [ComicViewer.bit_length_fuel]

theorem bit_length_fuel_spec : ∀ (fuel n : Nat), n ≤ fuel →
    n < 2 ^ ComicViewer.bit_length_fuel fuel n ∧
      (n ≠ 0 → 2 ^ (ComicViewer.bit_length_fuel fuel n - 1) ≤ n ∧
        0 < ComicViewer.bit_length_fuel fuel n) := by
  intro fuel
  induction fuel with
  | zero =>
    intro n hn
    have : n = 0 := by omega
    subst this
    simp [ComicViewer.bit_length_fuel]
  | succ fuel ih =>
    intro n hn
    by_cases h0 : n = 0
    · subst h0
      simp [ComicViewer.bit_length_fuel]
    · have e : ComicViewer.bit_length_fuel (fuel + 1) n =
          ComicViewer.bit_length_fuel fuel (n / 2) + 1 := by
        rw [ComicViewer.bit_length_fuel, if_neg h0]
      rw [e]
      obtain ⟨i1, i2⟩ := ih (n / 2) (by omega)
      refine ⟨?_, fun _ => ⟨?_, Nat.succ_pos _⟩⟩
      · rw [pow_succ]
        omega
      · rw [Nat.add_sub_cancel]
        by_cases h2 : n / 2 = 0
        · rw [h2, bit_length_fuel_zero]
          simp
          omega
        · obtain ⟨j1, j2⟩ := i2 h2
          have e2 : 2 ^ ComicViewer.bit_length_fuel fuel (n / 2) =
              2 * 2 ^ (ComicViewer.bit_length_fuel fuel (n / 2) - 1) := by
            rw [← pow_succ']
            congr 1
            omega
          rw [e2]
          omega

/-- The number of binary digits: `2^(b-1) <= n < 2^b`. -/
theorem bit_length_spec (n : Nat) (hn : 0 < n) :
    n < 2 ^ ComicViewer.bit_length n ∧ 2 ^ (ComicViewer.bit_length n - 1) ≤ n ∧
      0 < ComicViewer.bit_length n := by
  obtain ⟨a, b⟩ := bit_length_fuel_spec n n (le_refl _)
  exact ⟨a, (b (by omega)).1, (b (by omega)).2⟩

theorem pow2_pos (e : Int) :
    0 < (ComicViewer.float_t.pow2 e).num ∧ 0 < (ComicViewer.float_t.pow2 e).den := by
  unfold ComicViewer.float_t.pow2
  split_ifs
  · exact ⟨pow_pos (by decide) _, Nat.one_pos⟩
  · exact ⟨Nat.one_pos, pow_pos (by decide) _⟩

theorem pow2_value (e : Int) :
    ((ComicViewer.float_t.pow2 e).num : ℚ) / ((ComicViewer.float_t.pow2 e).den : ℚ) =
      (2 : ℚ) ^ e := by
  unfold ComicViewer.float_t.pow2
  split_ifs with h
  · simp only [Nat.cast_pow, Nat.cast_ofNat, Nat.cast_one, div_one]
    rw [← zpow_natCast, Int.toNat_of_nonneg h]
  · simp only [Nat.cast_pow, Nat.cast_ofNat, Nat.cast_one]
    rw [← zpow_natCast, Int.toNat_of_nonneg (by omega), one_div, ← zpow_neg, neg_neg]

/-- The binary exponent: `2^k <= n / d < 2^(k+1)`. -/
theorem ilog2_spec (n d : Nat) (hn : 0 < n) (hd : 0 < d) :
    (2 : ℚ) ^ (ComicViewer.ilog2 n d) ≤ (n : ℚ) / (d : ℚ) ∧
      (n : ℚ) / (d : ℚ) < (2 : ℚ) ^ (ComicViewer.ilog2 n d + 1) := by
  obtain ⟨n1, n2, n3⟩ := bit_length_spec n hn
  obtain ⟨d1, d2, d3⟩ := bit_length_spec d hd
  have hd0 : (0 : ℚ) < (d : ℚ) := by exact_mod_cast hd
  have hn0 : (0 : ℚ) < (n : ℚ) := by exact_mod_cast hn
  have two : (2 : ℚ) ≠ 0 := by norm_num
  have N1 : (n : ℚ) < (2 : ℚ) ^ ((ComicViewer.bit_length n : Nat) : Int) := by
    rw [zpow_natCast]; exact_mod_cast n1
  have N2 : (2 : ℚ) ^ (((ComicViewer.bit_length n : Nat) : Int) - 1) ≤ (n : ℚ) := by
    have : (((ComicViewer.bit_length n : Nat) : Int) - 1) =
        ((ComicViewer.bit_length n - 1 : Nat) : Int) := by omega
    rw [this, zpow_natCast]; exact_mod_cast n2
  have D1 : (d : ℚ) < (2 : ℚ) ^ ((ComicViewer.bit_length d : Nat) : Int) := by
    rw [zpow_natCast]; exact_mod_cast d1
  have D2 : (2 : ℚ) ^ (((ComicViewer.bit_length d : Nat) : Int) - 1) ≤ (d : ℚ) := by
    have : (((ComicViewer.bit_length d : Nat) : Int) - 1) =
        ((ComicViewer.bit_length d - 1 : Nat) : Int) := by omega
    rw [this, zpow_natCast]; exact_mod_cast d2
  -- the two candidates
  have lo : (2 : ℚ) ^ (((ComicViewer.bit_length n : Nat) : Int) -
      ((ComicViewer.bit_length d : Nat) : Int) - 1) ≤ (n : ℚ) / (d : ℚ) := by
    rw [le_div_iff₀ hd0]
    have e : ((ComicViewer.bit_length n : Nat) : Int) - ((ComicViewer.bit_length d : Nat) : Int) - 1
        = (((ComicViewer.bit_length n : Nat) : Int) - 1) -
          ((ComicViewer.bit_length d : Nat) : Int) := by ring
    rw [e, zpow_sub₀ two, div_mul_eq_mul_div, div_le_iff₀ (zpow_pos (by norm_num) _)]
    have p1 : (0 : ℚ) < (2 : ℚ) ^ (((ComicViewer.bit_length n : Nat) : Int) - 1) :=
      zpow_pos (by norm_num) _
    nlinarith
  have hi : (n : ℚ) / (d : ℚ) < (2 : ℚ) ^ (((ComicViewer.bit_length n : Nat) : Int) -
      ((ComicViewer.bit_length d : Nat) : Int) + 1) := by
    rw [div_lt_iff₀ hd0]
    have e : ((ComicViewer.bit_length n : Nat) : Int) - ((ComicViewer.bit_length d : Nat) : Int) + 1
        = ((ComicViewer.bit_length n : Nat) : Int) -
          (((ComicViewer.bit_length d : Nat) : Int) - 1) := by ring
    rw [e, zpow_sub₀ two, div_mul_eq_mul_div, lt_div_iff₀ (zpow_pos (by norm_num) _)]
    have p1 : (0 : ℚ) < (2 : ℚ) ^ (((ComicViewer.bit_length d : Nat) : Int) - 1) :=
      zpow_pos (by norm_num) _
    nlinarith
  unfold ComicViewer.ilog2
  simp only
  obtain ⟨pn, pd⟩ := pow2_pos (((ComicViewer.bit_length n : Nat) : Int) -
    ((ComicViewer.bit_length d : Nat) : Int))
  have pv := pow2_value (((ComicViewer.bit_length n : Nat) : Int) -
    ((ComicViewer.bit_length d : Nat) : Int))
  have pn0 : (0 : ℚ) < ((ComicViewer.float_t.pow2 (((ComicViewer.bit_length n : Nat) : Int) -
    ((ComicViewer.bit_length d : Nat) : Int))).num : ℚ) := by exact_mod_cast pn
  have pd0 : (0 : ℚ) < ((ComicViewer.float_t.pow2 (((ComicViewer.bit_length n : Nat) : Int) -
    ((ComicViewer.bit_length d : Nat) : Int))).den : ℚ) := by exact_mod_cast pd
  split_ifs with h
  · refine ⟨?_, hi⟩
    rw [← pv, div_le_div_iff pd0 hd0]
    have : ((d * (ComicViewer.float_t.pow2 (((ComicViewer.bit_length n : Nat) : Int) -
        ((ComicViewer.bit_length d : Nat) : Int))).num : Nat) : ℚ) ≤
        ((n * (ComicViewer.float_t.pow2 (((ComicViewer.bit_length n : Nat) : Int) -
        ((ComicViewer.bit_length d : Nat) : Int))).den : Nat) : ℚ) := by exact_mod_cast h
    push_cast at this
    linarith
  · refine ⟨lo, ?_⟩
    have e : ((ComicViewer.bit_length n : Nat) : Int) - ((ComicViewer.bit_length d : Nat) : Int) - 1 + 1
        = ((ComicViewer.bit_length n : Nat) : Int) - ((ComicViewer.bit_length d : Nat) : Int) := by
      ring
    rw [e, ← pv, div_lt_div_iff hd0 pd0]
    have h2 : n * (ComicViewer.float_t.pow2 (((ComicViewer.bit_length n : Nat) : Int) -
        ((ComicViewer.bit_length d : Nat) : Int))).den <
        d * (ComicViewer.float_t.pow2 (((ComicViewer.bit_length n : Nat) : Int) -
        ((ComicViewer.bit_length d : Nat) : Int))).num := not_le.mp h
    have : ((n * (ComicViewer.float_t.pow2 (((ComicViewer.bit_length n : Nat) : Int) -
        ((ComicViewer.bit_length d : Nat) : Int))).den : Nat) : ℚ) <
        ((d * (ComicViewer.float_t.pow2 (((ComicViewer.bit_length n : Nat) : Int) -
        ((ComicViewer.bit_length d : Nat) : Int))).num : Nat) : ℚ) := by exact_mod_cast h2
    push_cast at this
    linarith

/-- The integer chosen by `round_half_even` is within one half of `n / d`. -/
theorem round_half_even_spec (n d : Nat) (hd : 0 < d) :
    |(n : ℚ) / (d : ℚ) - (ComicViewer.round_half_even n d : ℚ)| ≤ 1 / 2 := by
  have hd0 : (0 : ℚ) < (d : ℚ) := by exact_mod_cast hd
  have h1 := Nat.div_add_mod n d
  have h2 := Nat.mod_lt n hd
  have e : (n : ℚ) = (d : ℚ) * ((n / d : Nat) : ℚ) + ((n % d : Nat) : ℚ) := by
    exact_mod_cast h1.symm
  have r0 : (0 : ℚ) ≤ ((n % d : Nat) : ℚ) := by positivity
  have r1 : ((n % d : Nat) : ℚ) < (d : ℚ) := by exact_mod_cast h2
  have key : ∀ m : ℚ, -(d : ℚ) ≤ 2 * ((n : ℚ) - m * (d : ℚ)) →
      2 * ((n : ℚ) - m * (d : ℚ)) ≤ (d : ℚ) → |(n : ℚ) / (d : ℚ) - m| ≤ 1 / 2 := by
    intro m a b
    rw [abs_le]
    have e2 : (n : ℚ) / (d : ℚ) - m = ((n : ℚ) - m * (d : ℚ)) / (d : ℚ) := by
      field_simp
      ring
    rw [e2]
    constructor
    · rw [le_div_iff₀ hd0]; linarith
    · rw [div_le_iff₀ hd0]; linarith
  unfold ComicViewer.round_half_even
  split_ifs with c1 c2 c3
  · have c : (2 : ℚ) * ((n % d : Nat) : ℚ) < (d : ℚ) := by exact_mod_cast c1
    apply key <;> nlinarith
  · have c : (d : ℚ) < (2 : ℚ) * ((n % d : Nat) : ℚ) := by exact_mod_cast c2
    push_cast
    apply key <;> nlinarith
  · have c : (2 : ℚ) * ((n % d : Nat) : ℚ) = (d : ℚ) := by
      have : 2 * (n % d) = d := by omega
      exact_mod_cast this
    apply key <;> nlinarith
  · have c : (2 : ℚ) * ((n % d : Nat) : ℚ) = (d : ℚ) := by
      have : 2 * (n % d) = d := by omega
      exact_mod_cast this
    push_cast
    apply key <;> nlinarith

/-- The rounded value is the significand times `2^e`, `e` the exponent of the
last place, and the significand is within one half of `(n / d) / 2^e`. -/
theorem round_spec (p : Nat) (emin : Int) (n d : Nat) (hd : 0 < d) :
    0 < (ComicViewer.float_t.round p emin n d).den ∧
    (ComicViewer.float_t.round p emin n d).value =
      (ComicViewer.float_t.significand p emin n d : ℚ) *
        (2 : ℚ) ^ (ComicViewer.float_t.quantum p emin n d) ∧
    |(n : ℚ) / (d : ℚ) / (2 : ℚ) ^ (ComicViewer.float_t.quantum p emin n d) -
      (ComicViewer.float_t.significand p emin n d : ℚ)| ≤ 1 / 2 := by
  obtain ⟨pn, pd⟩ := pow2_pos (ComicViewer.float_t.quantum p emin n d)
  have pv := pow2_value (ComicViewer.float_t.quantum p emin n d)
  have pn0 : (0 : ℚ) < ((ComicViewer.float_t.pow2 (ComicViewer.float_t.quantum p emin n d)).num : ℚ) := by
    exact_mod_cast pn
  have pd0 : (0 : ℚ) < ((ComicViewer.float_t.pow2 (ComicViewer.float_t.quantum p emin n d)).den : ℚ) := by
    exact_mod_cast pd
  have hd0 : (0 : ℚ) < (d : ℚ) := by exact_mod_cast hd
  have er : ComicViewer.float_t.round p emin n d =
      ⟨ComicViewer.float_t.significand p emin n d *
          (ComicViewer.float_t.pow2 (ComicViewer.float_t.quantum p emin n d)).num,
        (ComicViewer.float_t.pow2 (ComicViewer.float_t.quantum p emin n d)).den⟩ := by
    unfold ComicViewer.float_t.round
    rw [if_neg (by omega)]
  refine ⟨?_, ?_, ?_⟩
  · rw [er]; exact pd
  · rw [er]
    unfold ComicViewer.float_t.value
    simp only
    rw [← pv]
    push_cast
    ring
  · have h := round_half_even_spec
      (n * (ComicViewer.float_t.pow2 (ComicViewer.float_t.quantum p emin n d)).den)
      (d * (ComicViewer.float_t.pow2 (ComicViewer.float_t.quantum p emin n d)).num)
      (Nat.mul_pos hd pn)
    have e : (n : ℚ) / (d : ℚ) / (2 : ℚ) ^ (ComicViewer.float_t.quantum p emin n d) =
        ((n * (ComicViewer.float_t.pow2 (ComicViewer.float_t.quantum p emin n d)).den : Nat) : ℚ) /
          ((d * (ComicViewer.float_t.pow2 (ComicViewer.float_t.quantum p emin n d)).num : Nat) : ℚ) := by
      rw [← pv]
      push_cast
      field_simp
    rw [e]
    exact h

/-- The rounded value is within half a unit in the last place of `n / d`. -/
theorem round_near (p : Nat) (emin : Int) (n d : Nat) (hd : 0 < d) :
    |(n : ℚ) / (d : ℚ) - (ComicViewer.float_t.round p emin n d).value| ≤
      (2 : ℚ) ^ (ComicViewer.float_t.quantum p emin n d) / 2 := by
  obtain ⟨_, hv, hm⟩ := round_spec p emin n d hd
  have q0 : (0 : ℚ) < (2 : ℚ) ^ (ComicViewer.float_t.quantum p emin n d) :=
    zpow_pos (by norm_num) _
  rw [hv]
  have e : (n : ℚ) / (d : ℚ) - (ComicViewer.float_t.significand p emin n d : ℚ) *
        (2 : ℚ) ^ (ComicViewer.float_t.quantum p emin n d) =
      ((n : ℚ) / (d : ℚ) / (2 : ℚ) ^ (ComicViewer.float_t.quantum p emin n d) -
        (ComicViewer.float_t.significand p emin n d : ℚ)) *
        (2 : ℚ) ^ (ComicViewer.float_t.quantum p emin n d) := by
    field_simp
    ring
  rw [e, abs_mul, abs_of_pos q0]
  have := mul_le_mul_of_nonneg_right hm (le_of_lt q0)
  linarith

/-- The unit in the last place is at most `(n / d) * 2^(1 - p)`, or is
`2^emin`. -/
theorem quantum_le (p : Nat) (emin : Int) (n d : Nat) (hn : 0 < n) (hd : 0 < d) :
    (2 : ℚ) ^ (ComicViewer.float_t.quantum p emin n d) ≤
        (n : ℚ) / (d : ℚ) * (2 : ℚ) ^ (1 - (p : Int)) ∨
      ComicViewer.float_t.quantum p emin n d = emin := by
  obtain ⟨lo, _⟩ := ilog2_spec n d hn hd
  have two : (2 : ℚ) ≠ 0 := by norm_num
  unfold ComicViewer.float_t.quantum
  by_cases h : emin ≤ ComicViewer.ilog2 n d - ((p : Int) - 1)
  · left
    rw [max_eq_left h]
    have e : ComicViewer.ilog2 n d - ((p : Int) - 1) = ComicViewer.ilog2 n d + (1 - (p : Int)) := by
      ring
    rw [e, zpow_add₀ two]
    exact mul_le_mul_of_nonneg_right lo (le_of_lt (zpow_pos (by norm_num) _))
  · right
    exact max_eq_right (by omega)

/-- The error of rounding is at most `(n / d) * 2^(-p) + 2^(emin - 1)`. -/
theorem round_error (p : Nat) (emin : Int) (n d : Nat) (hd : 0 < d) :
    |(n : ℚ) / (d : ℚ) - (ComicViewer.float_t.round p emin n d).value| ≤
      (n : ℚ) / (d : ℚ) * (2 : ℚ) ^ (- (p : Int)) + (2 : ℚ) ^ (emin - 1) := by
  have two : (2 : ℚ) ≠ 0 := by norm_num
  have hd0 : (0 : ℚ) < (d : ℚ) := by exact_mod_cast hd
  have h := round_near p emin n d hd
  have e1 : (2 : ℚ) ^ (1 - (p : Int)) = 2 * (2 : ℚ) ^ (- (p : Int)) := by
    rw [sub_eq_add_neg, zpow_add₀ two, zpow_one]
  have e2 : (2 : ℚ) ^ emin = 2 * (2 : ℚ) ^ (emin - 1) := by
    rw [zpow_sub_one₀ two]
    field_simp
  have p1 : (0 : ℚ) < (2 : ℚ) ^ (- (p : Int)) := zpow_pos (by norm_num) _
  have p2 : (0 : ℚ) < (2 : ℚ) ^ (emin - 1) := zpow_pos (by norm_num) _
  by_cases hn : 0 < n
  · have x0 : (0 : ℚ) < (n : ℚ) / (d : ℚ) := div_pos (by exact_mod_cast hn) hd0
    rcases quantum_le p emin n d hn hd with q | q
    · rw [e1] at q
      have : (0 : ℚ) ≤ (n : ℚ) / (d : ℚ) * (2 : ℚ) ^ (- (p : Int)) := by positivity
      linarith
    · rw [q, e2] at h
      have : (0 : ℚ) ≤ (n : ℚ) / (d : ℚ) * (2 : ℚ) ^ (- (p : Int)) := by positivity
      linarith
  · have n0 : n = 0 := by omega
    subst n0
    obtain ⟨_, hv, _⟩ := round_spec p emin 0 d hd
    have hs : ComicViewer.float_t.significand p emin 0 d = 0 := by
      unfold ComicViewer.float_t.significand ComicViewer.round_half_even
      obtain ⟨pn, _⟩ := pow2_pos (ComicViewer.float_t.quantum p emin 0 d)
      have : 0 < d * (ComicViewer.float_t.pow2 (ComicViewer.float_t.quantum p emin 0 d)).num :=
        Nat.mul_pos hd pn
      simp [this]
    rw [hv, hs]
    simp
    positivity

/-- In the normal range, `2^(emin + p - 1) <= n / d`, the relative error of
rounding is at most `2^(-p)`. -/
theorem round_error_normal (p : Nat) (emin : Int) (n d : Nat) (hd : 0 < d)
    (hx : (2 : ℚ) ^ (emin + (p : Int) - 1) ≤ (n : ℚ) / (d : ℚ)) :
    |(n : ℚ) / (d : ℚ) - (ComicViewer.float_t.round p emin n d).value| ≤
      (n : ℚ) / (d : ℚ) * (2 : ℚ) ^ (- (p : Int)) := by
  have two : (2 : ℚ) ≠ 0 := by norm_num
  have hd0 : (0 : ℚ) < (d : ℚ) := by exact_mod_cast hd
  have x0 : (0 : ℚ) < (n : ℚ) / (d : ℚ) := lt_of_lt_of_le (zpow_pos (by norm_num) _) hx
  have hn : 0 < n := by
    by_contra h0
    have : n = 0 := by omega
    subst this
    simp at x0
  obtain ⟨lo, hi⟩ := ilog2_spec n d hn hd
  have hk : emin + (p : Int) - 1 < ComicViewer.ilog2 n d + 1 := by
    have := lt_of_le_of_lt hx hi
    exact (zpow_lt_zpow_iff_right₀ (by norm_num : (1 : ℚ) < 2)).mp this
  have h := round_near p emin n d hd
  have e1 : (2 : ℚ) ^ (1 - (p : Int)) = 2 * (2 : ℚ) ^ (- (p : Int)) := by
    rw [sub_eq_add_neg, zpow_add₀ two, zpow_one]
  have q : (2 : ℚ) ^ (ComicViewer.float_t.quantum p emin n d) ≤
      (n : ℚ) / (d : ℚ) * (2 : ℚ) ^ (1 - (p : Int)) := by
    unfold ComicViewer.float_t.quantum
    rw [max_eq_left (by omega)]
    have e : ComicViewer.ilog2 n d - ((p : Int) - 1) = ComicViewer.ilog2 n d + (1 - (p : Int)) := by
      ring
    rw [e, zpow_add₀ two]
    exact mul_le_mul_of_nonneg_right lo (le_of_lt (zpow_pos (by norm_num) _))
  rw [e1] at q
  linarith

theorem round_zero (p : Nat) (emin : Int) (d : Nat) (hd : 0 < d) :
    (ComicViewer.float_t.round p emin 0 d).value = 0 := by
  obtain ⟨_, hv, _⟩ := round_spec p emin 0 d hd
  have hs : ComicViewer.float_t.significand p emin 0 d = 0 := by
    unfold ComicViewer.float_t.significand ComicViewer.round_half_even
    obtain ⟨pn, _⟩ := pow2_pos (ComicViewer.float_t.quantum p emin 0 d)
    have : 0 < d * (ComicViewer.float_t.pow2 (ComicViewer.float_t.quantum p emin 0 d)).num :=
      Nat.mul_pos hd pn
    simp [this]
  rw [hv, hs]
  simp

theorem int_of_near (k m : Int) (h : |(k : ℚ) - (m : ℚ)| ≤ 1 / 2) : k = m := by
  rw [abs_le] at h
  have h1 : ((k - m : Int) : ℚ) < ((1 : Int) : ℚ) := by push_cast; linarith
  have h2 : (((-1 : Int)) : ℚ) < ((k - m : Int) : ℚ) := by push_cast; linarith
  have h3 := Int.cast_lt.mp h1
  have h4 := Int.cast_lt.mp h2
  omega

theorem zpow_nonpos_eq (e : Int) (he : e ≤ 0) :
    (2 : ℚ) ^ e = 1 / (((2 ^ (-e).toNat : Nat) : ℚ)) ∧ 0 < 2 ^ (-e).toNat := by
  refine ⟨?_, pow_pos (by decide) _⟩
  obtain ⟨k, hk⟩ : ∃ k : Nat, -e = (k : Int) :=
    ⟨(-e).toNat, (Int.toNat_of_nonneg (by omega)).symm⟩
  have he2 : e = -(k : Int) := by omega
  subst he2
  rw [zpow_neg, zpow_natCast, neg_neg, Int.toNat_natCast]
  simp

/-- An integer below `2^p` is a value of the format: rounding leaves it as it
is. -/
theorem round_of_int (p : Nat) (emin : Int) (n : Nat) (hn : n < 2 ^ p) (he : emin ≤ 0) :
    (ComicViewer.float_t.round p emin n 1).value = (n : ℚ) := by
  by_cases h0 : n = 0
  · subst h0
    rw [round_zero p emin 1 Nat.one_pos]
    simp
  have hn0 : 0 < n := by omega
  obtain ⟨_, hv, hm⟩ := round_spec p emin n 1 Nat.one_pos
  obtain ⟨lo, _⟩ := ilog2_spec n 1 hn0 Nat.one_pos
  have hq : ComicViewer.float_t.quantum p emin n 1 ≤ 0 := by
    have h1 : (2 : ℚ) ^ (ComicViewer.ilog2 n 1) < (2 : ℚ) ^ ((p : Nat) : Int) := by
      rw [zpow_natCast]
      have : ((n : Nat) : ℚ) < (2 : ℚ) ^ p := by exact_mod_cast hn
      simp only [Nat.cast_one, div_one] at lo
      linarith
    have h2 := (zpow_lt_zpow_iff_right₀ (by norm_num : (1 : ℚ) < 2)).mp h1
    unfold ComicViewer.float_t.quantum
    exact max_le (by omega) he
  obtain ⟨ek, kpos⟩ := zpow_nonpos_eq _ hq
  have kp : (0 : ℚ) < ((2 ^ (-(ComicViewer.float_t.quantum p emin n 1)).toNat : Nat) : ℚ) := by
    exact_mod_cast kpos
  rw [ek] at hm hv
  have e : ((n : Nat) : ℚ) / ((1 : Nat) : ℚ) /
      (1 / ((2 ^ (-(ComicViewer.float_t.quantum p emin n 1)).toNat : Nat) : ℚ)) =
      (((n * 2 ^ (-(ComicViewer.float_t.quantum p emin n 1)).toNat : Nat) : Int) : ℚ) := by
    push_cast
    field_simp
  rw [e] at hm
  have hm2 : |(((n * 2 ^ (-(ComicViewer.float_t.quantum p emin n 1)).toNat : Nat) : Int) : ℚ) -
      (((ComicViewer.float_t.significand p emin n 1 : Nat) : Int) : ℚ)| ≤ 1 / 2 := by
    exact_mod_cast hm
  have h := int_of_near _ _ hm2
  have h3 : ComicViewer.float_t.significand p emin n 1 =
      n * 2 ^ (-(ComicViewer.float_t.quantum p emin n 1)).toNat := by
    exact_mod_cast h.symm
  rw [hv, h3]
  push_cast
  field_simp

/-- A fraction of at least 1 is rounded to a value of at least 1. -/
theorem round_ge_one (p : Nat) (emin : Int) (n d : Nat) (hd : 0 < d) (hn : d ≤ n)
    (hp : 1 ≤ p) (he : emin ≤ 0) :
    1 ≤ (ComicViewer.float_t.round p emin n d).value := by
  have hn0 : 0 < n := by omega
  have hd0 : (0 : ℚ) < (d : ℚ) := by exact_mod_cast hd
  have x1 : (1 : ℚ) ≤ (n : ℚ) / (d : ℚ) := by
    rw [le_div_iff₀ hd0]
    have : ((d : Nat) : ℚ) ≤ (n : ℚ) := by exact_mod_cast hn
    linarith
  obtain ⟨_, hv, hm⟩ := round_spec p emin n d hd
  obtain ⟨lo, hi⟩ := ilog2_spec n d hn0 hd
  have two : (2 : ℚ) ≠ 0 := by norm_num
  rw [hv]
  rw [abs_le] at hm
  by_cases hq : ComicViewer.float_t.quantum p emin n d ≤ 0
  · obtain ⟨ek, kpos⟩ := zpow_nonpos_eq _ hq
    have kp : (0 : ℚ) < ((2 ^ (-(ComicViewer.float_t.quantum p emin n d)).toNat : Nat) : ℚ) := by
      exact_mod_cast kpos
    rw [ek] at hm ⊢
    have hmk : 2 ^ (-(ComicViewer.float_t.quantum p emin n d)).toNat ≤
        ComicViewer.float_t.significand p emin n d := by
      by_contra hc
      have hc1 : ComicViewer.float_t.significand p emin n d + 1 ≤
          2 ^ (-(ComicViewer.float_t.quantum p emin n d)).toNat := by omega
      have hc2 : ((ComicViewer.float_t.significand p emin n d : Nat) : ℚ) + 1 ≤
          ((2 ^ (-(ComicViewer.float_t.quantum p emin n d)).toNat : Nat) : ℚ) := by
        exact_mod_cast hc1
      have e : (n : ℚ) / (d : ℚ) /
          (1 / ((2 ^ (-(ComicViewer.float_t.quantum p emin n d)).toNat : Nat) : ℚ)) =
          (n : ℚ) / (d : ℚ) * ((2 ^ (-(ComicViewer.float_t.quantum p emin n d)).toNat : Nat) : ℚ) := by
        field_simp
      rw [e] at hm
      nlinarith [hm.1, hm.2]
    have hmk2 : ((2 ^ (-(ComicViewer.float_t.quantum p emin n d)).toNat : Nat) : ℚ) ≤
        ((ComicViewer.float_t.significand p emin n d : Nat) : ℚ) := by exact_mod_cast hmk
    rw [mul_one_div, le_div_iff₀ kp]
    linarith
  · have hq0 : 0 < ComicViewer.float_t.quantum p emin n d := by omega
    have hqe : ComicViewer.float_t.quantum p emin n d = ComicViewer.ilog2 n d - ((p : Int) - 1) := by
      unfold ComicViewer.float_t.quantum at hq0 ⊢
      rcases max_cases (ComicViewer.ilog2 n d - ((p : Int) - 1)) emin with ⟨h1, _⟩ | ⟨h1, _⟩
      · exact h1
      · rw [h1] at hq0; omega
    have q1 : (1 : ℚ) ≤ (2 : ℚ) ^ (ComicViewer.float_t.quantum p emin n d) :=
      one_le_zpow₀ (by norm_num) (le_of_lt hq0)
    have q0 : (0 : ℚ) < (2 : ℚ) ^ (ComicViewer.float_t.quantum p emin n d) := by linarith
    have hx : (1 : ℚ) ≤ (n : ℚ) / (d : ℚ) / (2 : ℚ) ^ (ComicViewer.float_t.quantum p emin n d) := by
      rw [le_div_iff₀ q0, one_mul]
      refine le_trans ?_ lo
      apply zpow_le_zpow_right₀ (by norm_num)
      rw [hqe]
      have : (0 : Int) ≤ (p : Int) - 1 := by omega
      omega
    have hm1 : 1 ≤ ComicViewer.float_t.significand p emin n d := by
      by_contra hc
      have : ComicViewer.float_t.significand p emin n d = 0 := by omega
      rw [this] at hm
      simp only [Nat.cast_zero, sub_zero] at hm
      linarith [hm.2]
    have hm2 : (1 : ℚ) ≤ ((ComicViewer.float_t.significand p emin n d : Nat) : ℚ) := by
      exact_mod_cast hm1
    nlinarith

/-- A fraction of at most 1 is rounded to a value of at most 1. -/
theorem round_le_one (p : Nat) (emin : Int) (n d : Nat) (hd : 0 < d) (hn : n ≤ d)
    (hp : 1 ≤ p) (he : emin ≤ 0) :
    (ComicViewer.float_t.round p emin n d).value ≤ 1 := by
  by_cases h0 : n = 0
  · subst h0
    rw [round_zero p emin d hd]
    norm_num
  have hn0 : 0 < n := by omega
  have hd0 : (0 : ℚ) < (d : ℚ) := by exact_mod_cast hd
  have x1 : (n : ℚ) / (d : ℚ) ≤ 1 := by
    rw [div_le_iff₀ hd0]
    have : ((n : Nat) : ℚ) ≤ (d : ℚ) := by exact_mod_cast hn
    linarith
  obtain ⟨_, hv, hm⟩ := round_spec p emin n d hd
  obtain ⟨lo, hi⟩ := ilog2_spec n d hn0 hd
  rw [hv]
  rw [abs_le] at hm
  have hq : ComicViewer.float_t.quantum p emin n d ≤ 0 := by
    have h1 : (2 : ℚ) ^ (ComicViewer.ilog2 n d) ≤ (2 : ℚ) ^ (0 : Int) := by
      rw [zpow_zero]; linarith
    have h2 := (zpow_le_zpow_iff_right₀ (by norm_num : (1 : ℚ) < 2)).mp h1
    unfold ComicViewer.float_t.quantum
    exact max_le (by omega) he
  obtain ⟨ek, kpos⟩ := zpow_nonpos_eq _ hq
  have kp : (0 : ℚ) < ((2 ^ (-(ComicViewer.float_t.quantum p emin n d)).toNat : Nat) : ℚ) := by
    exact_mod_cast kpos
  rw [ek] at hm ⊢
  have hmk : ComicViewer.float_t.significand p emin n d ≤
      2 ^ (-(ComicViewer.float_t.quantum p emin n d)).toNat := by
    by_contra hc
    have hc1 : 2 ^ (-(ComicViewer.float_t.quantum p emin n d)).toNat + 1 ≤
        ComicViewer.float_t.significand p emin n d := by omega
    have hc2 : ((2 ^ (-(ComicViewer.float_t.quantum p emin n d)).toNat : Nat) : ℚ) + 1 ≤
        ((ComicViewer.float_t.significand p emin n d : Nat) : ℚ) := by
      exact_mod_cast hc1
    have e : (n : ℚ) / (d : ℚ) /
        (1 / ((2 ^ (-(ComicViewer.float_t.quantum p emin n d)).toNat : Nat) : ℚ)) =
        (n : ℚ) / (d : ℚ) * ((2 ^ (-(ComicViewer.float_t.quantum p emin n d)).toNat : Nat) : ℚ) := by
      field_simp
    rw [e] at hm
    nlinarith [hm.1, hm.2]
  have hmk2 : ((ComicViewer.float_t.significand p emin n d : Nat) : ℚ) ≤
      ((2 ^ (-(ComicViewer.float_t.quantum p emin n d)).toNat : Nat) : ℚ) := by exact_mod_cast hmk
  rw [mul_one_div, div_le_iff₀ kp]
  linarith

/-- The fraction form of the two lemmas before: `den <= num` is kept. -/
theorem round_den_le_num (p : Nat) (emin : Int) (n d : Nat) (hd : 0 < d) (hn : d ≤ n)
    (hp : 1 ≤ p) (he : emin ≤ 0) :
    0 < (ComicViewer.float_t.round p emin n d).den ∧
      (ComicViewer.float_t.round p emin n d).den ≤ (ComicViewer.float_t.round p emin n d).num := by
  obtain ⟨hden, _, _⟩ := round_spec p emin n d hd
  have h := round_ge_one p emin n d hd hn hp he
  refine ⟨hden, ?_⟩
  unfold ComicViewer.float_t.value at h
  rw [one_le_div (by exact_mod_cast hden)] at h
  exact_mod_cast h

theorem round_signed_nonneg (p : Nat) (emin : Int) (n : Int) (d : Nat) (hn : 0 ≤ n) :
    0 ≤ (ComicViewer.round_signed p emin n d).1 := by
  unfold ComicViewer.round_signed
  simp only
  rw [if_neg (by omega)]
  positivity

theorem round_of_zero_den (p : Nat) (emin : Int) (n : Nat) :
    ComicViewer.float_t.round p emin n 0 = ⟨n, 0⟩ := by
  unfold ComicViewer.float_t.round
  rw [if_pos rfl]

/-- The `double` constant 0.7 of the zoom keys. -/
theorem scale_factor_to_double :
    ComicViewer.SCALE_FACTOR.to_double = ⟨6305039478318694, 9007199254740992⟩ := by
  decide

/-- The result of `if (scale_factor <= 1) scale_factor = 1` is at least 1. -/
theorem clamp_scale (s : ComicViewer.float_t) :
    0 < (if s.le_one then (⟨1, 1⟩ : ComicViewer.float_t) else s).num ∧
      (if s.le_one then (⟨1, 1⟩ : ComicViewer.float_t) else s).den ≤
        (if s.le_one then (⟨1, 1⟩ : ComicViewer.float_t) else s).num := by
  by_cases h : s.le_one
  · rw [if_pos h]
    exact ⟨Nat.one_pos, le_refl _⟩
  · rw [if_neg h]
    unfold ComicViewer.float_t.le_one at h
    omega

/-- The zoom-out key keeps a scale factor of at least 1 at least 1. -/
theorem div_double_scale (f : ComicViewer.float_t) (h1 : 0 < f.num) (h2 : f.den ≤ f.num) :
    0 < (f.div_double ComicViewer.SCALE_FACTOR).num ∧
      (f.div_double ComicViewer.SCALE_FACTOR).den ≤ (f.div_double ComicViewer.SCALE_FACTOR).num ∧
      (0 < f.den → 0 < (f.div_double ComicViewer.SCALE_FACTOR).den) := by
  unfold ComicViewer.float_t.div_double
  rw [scale_factor_to_double]
  simp only
  by_cases hd : f.den = 0
  · rw [hd, Nat.zero_mul, round_of_zero_den]
    simp only
    rw [round_of_zero_den]
    simp only
    refine ⟨?_, Nat.zero_le _, fun h => absurd h (lt_irrefl _)⟩
    omega
  · have hd0 : 0 < f.den * 6305039478318694 := by omega
    obtain ⟨a1, a2⟩ := round_den_le_num 53 (-1074) (f.num * 9007199254740992)
      (f.den * 6305039478318694) hd0 (by omega) (by decide) (by decide)
    obtain ⟨b1, b2⟩ := round_den_le_num 24 (-149)
      (ComicViewer.float_t.round 53 (-1074) (f.num * 9007199254740992)
        (f.den * 6305039478318694)).num
      (ComicViewer.float_t.round 53 (-1074) (f.num * 9007199254740992)
        (f.den * 6305039478318694)).den a1 a2 (by decide) (by decide)
    exact ⟨lt_of_lt_of_le b1 b2, b2, fun _ => b1⟩

theorem mul_double_den_pos (f : ComicViewer.float_t) (hf : 0 < f.den) :
    0 < (f.mul_double ComicViewer.SCALE_FACTOR).den := by
  unfold ComicViewer.float_t.mul_double
  rw [scale_factor_to_double]
  simp only
  have hd0 : 0 < f.den * 9007199254740992 := by omega
  exact (round_spec 24 (-149) _ _ (round_spec 53 (-1074) _ _ hd0).1).1

theorem fit_den_pos (mw w : Nat) (hw : 0 < w) :
    0 < ((ComicViewer.float_t.of_int mw).div (ComicViewer.float_t.of_int w)).den := by
  unfold ComicViewer.float_t.div ComicViewer.float_t.of_int
  obtain ⟨a1, a2⟩ := round_den_le_num 24 (-149) w 1 Nat.one_pos hw (by decide) (by decide)
  have x1 := (round_spec 24 (-149) mw 1 Nat.one_pos).1
  exact (round_spec 24 (-149) _ _ (Nat.mul_pos x1 (lt_of_lt_of_le a1 a2))).1

/-- The value of a rounded fraction that is not negative. -/
theorem round_signed_value (p : Nat) (emin : Int) (n : Int) (d : Nat) (hn : 0 ≤ n) :
    (ComicViewer.round_signed p emin n d).1 =
        ((ComicViewer.float_t.round p emin n.natAbs d).num : Int) ∧
      (ComicViewer.round_signed p emin n d).2 = (ComicViewer.float_t.round p emin n.natAbs d).den ∧
      ((n.natAbs : Nat) : ℚ) = (n : ℚ) := by
  unfold ComicViewer.round_signed
  simp only
  rw [if_neg (by omega)]
  refine ⟨?_, ?_, ?_⟩
  · trivial
  · trivial
  · rw [← Int.cast_natCast, Int.natAbs_of_nonneg hn]

/-- The conversion to `int` of a fraction that is not negative is its integer
part. -/
theorem tdiv_floor (a : Int) (b : Nat) (ha : 0 ≤ a) (hb : 0 < b) :
    ((Int.tdiv a (b : Int) : Int) : ℚ) ≤ (a : ℚ) / (b : ℚ) ∧
      (a : ℚ) / (b : ℚ) < ((Int.tdiv a (b : Int) : Int) : ℚ) + 1 ∧ 0 ≤ Int.tdiv a (b : Int) := by
  have hb0 : (0 : Int) < (b : Int) := by exact_mod_cast hb
  have hb1 : (0 : ℚ) < (b : ℚ) := by exact_mod_cast hb
  have h1 := Int.lt_tdiv_add_one_mul_self a hb0
  have h2 := Int.tdiv_add_tmod a (b : Int)
  have h3 := Int.tmod_nonneg (b : Int) ha
  have h4 : Int.tdiv a (b : Int) * (b : Int) ≤ a := by
    rw [mul_comm]; omega
  refine ⟨?_, ?_, Int.tdiv_nonneg ha (le_of_lt hb0)⟩
  · rw [le_div_iff₀ hb1]
    exact_mod_cast h4
  · rw [div_lt_iff₀ hb1]
    exact_mod_cast h1

/-- The `double` constant 0.7 of the PageUp and PageDown keys. -/
theorem page_mult_to_double :
    ComicViewer.PAGE_MULT.to_double = ⟨6305039478318694, 9007199254740992⟩ := by
  decide

theorem tiny_le (e : Int) (he : e ≤ -53) : (2 : ℚ) ^ e ≤ 1 / 9007199254740992 := by
  have h := zpow_le_zpow_right₀ (by norm_num : (1 : ℚ) ≤ 2) he
  have e2 : (2 : ℚ) ^ (-53 : Int) = 1 / 9007199254740992 := by norm_num
  rw [e2] at h
  exact h

/-- The value `(int)(a + b * 0.7)` that the PageDown key computes in double, for
`int` values that are not negative: with `Y` the rounded sum, the value is the
integer part of `Y`, and `Y` is within `1/20` of `a + 7 b / 10`. -/
theorem page_mult_add_mul_sum (a b : Int) (ha : 0 ≤ a) (hb : 0 ≤ b) (ha2 : a < 2 ^ 31)
    (hb2 : b < 2 ^ 31) :
    ∃ Y : ℚ, ((ComicViewer.PAGE_MULT.add_mul a b : Int) : ℚ) ≤ Y ∧
      Y < ((ComicViewer.PAGE_MULT.add_mul a b : Int) : ℚ) + 1 ∧
      (a : ℚ) + 7 * (b : ℚ) / 10 - 1 / 20 < Y ∧ Y < (a : ℚ) + 7 * (b : ℚ) / 10 + 1 / 20 := by
  unfold ComicViewer.float_t.add_mul
  rw [page_mult_to_double]
  simp only
  have hn1 : (0 : Int) ≤ b * ((6305039478318694 : Nat) : Int) := by positivity
  obtain ⟨x1, x2, x3⟩ := round_signed_value 53 (-1074) (b * ((6305039478318694 : Nat) : Int))
    9007199254740992 hn1
  rw [x1, x2]
  obtain ⟨xd, _, _⟩ := round_spec 53 (-1074) (b * ((6305039478318694 : Nat) : Int)).natAbs
    9007199254740992 (by decide)
  have xe := round_error 53 (-1074) (b * ((6305039478318694 : Nat) : Int)).natAbs
    9007199254740992 (by decide)
  rw [x3] at xe
  generalize ComicViewer.float_t.round 53 (-1074) (b * ((6305039478318694 : Nat) : Int)).natAbs
    9007199254740992 = X at xd xe ⊢
  have hn2 : (0 : Int) ≤ a * (X.den : Int) + (X.num : Int) := by positivity
  obtain ⟨y1, y2, y3⟩ := round_signed_value 53 (-1074) (a * (X.den : Int) + (X.num : Int))
    X.den hn2
  rw [y1, y2]
  obtain ⟨yd, _, _⟩ := round_spec 53 (-1074) (a * (X.den : Int) + (X.num : Int)).natAbs X.den xd
  have ye := round_error 53 (-1074) (a * (X.den : Int) + (X.num : Int)).natAbs X.den xd
  rw [y3] at ye
  generalize ComicViewer.float_t.round 53 (-1074) (a * (X.den : Int) + (X.num : Int)).natAbs
    X.den = Y at yd ye ⊢
  obtain ⟨f1, f2, _⟩ := tdiv_floor (Y.num : Int) Y.den (by positivity) yd
  rw [Int.cast_natCast] at f1 f2
  refine ⟨Y.value, f1, f2, ?_, ?_⟩
  all_goals
    have xd0 : (0 : ℚ) < (X.den : ℚ) := by exact_mod_cast xd
    have t1 := tiny_le (-1074 - 1) (by norm_num)
    have u1 : (2 : ℚ) ^ (-((53 : Nat) : Int)) = 1 / 9007199254740992 := by norm_num
    rw [u1] at xe ye
    have e1 : (((a * (X.den : Int) + (X.num : Int) : Int)) : ℚ) / (X.den : ℚ) =
        (a : ℚ) + X.value := by
      unfold ComicViewer.float_t.value
      push_cast
      field_simp
    rw [e1] at ye
    have e2 : (((b * ((6305039478318694 : Nat) : Int) : Int)) : ℚ) /
        ((9007199254740992 : Nat) : ℚ) = (b : ℚ) * (6305039478318694 / 9007199254740992) := by
      push_cast
      ring
    rw [e2] at xe
    rw [abs_le] at xe ye
    have a0 : (0 : ℚ) ≤ (a : ℚ) := by exact_mod_cast ha
    have b0 : (0 : ℚ) ≤ (b : ℚ) := by exact_mod_cast hb
    have a1 : (a : ℚ) ≤ 2147483648 := by
      have : a ≤ 2147483648 := by omega
      exact_mod_cast this
    have b1 : (b : ℚ) ≤ 2147483648 := by
      have : b ≤ 2147483648 := by omega
      exact_mod_cast this
    linarith [xe.1, xe.2, ye.1, ye.2]

/-- The value the PageDown key computes is the integer part of `a + 7 b / 10`
or one less, and is that integer part when `b` is not a multiple of 10. -/
theorem page_mult_add_mul_near (a b : Int) (ha : 0 ≤ a) (hb : 0 ≤ b) (ha2 : a < 2 ^ 31)
    (hb2 : b < 2 ^ 31) :
    a + (7 * b) / 10 - 1 ≤ ComicViewer.PAGE_MULT.add_mul a b ∧
      ComicViewer.PAGE_MULT.add_mul a b ≤ a + (7 * b) / 10 ∧
      (¬ (10 : Int) ∣ b → ComicViewer.PAGE_MULT.add_mul a b = a + (7 * b) / 10) := by
  obtain ⟨Y, f1, f2, l, u⟩ := page_mult_add_mul_sum a b ha hb ha2 hb2
  generalize ComicViewer.PAGE_MULT.add_mul a b = P at f1 f2 ⊢
  have hk : (7 * b) = 10 * ((7 * b) / 10) + (7 * b) % 10 := (Int.ediv_add_emod (7 * b) 10).symm
  have hr0 : 0 ≤ (7 * b) % 10 := Int.emod_nonneg _ (by norm_num)
  have hr1 : (7 * b) % 10 < 10 := Int.emod_lt_of_pos _ (by norm_num)
  have hkq : 7 * (b : ℚ) = 10 * (((7 * b) / 10 : Int) : ℚ) + (((7 * b) % 10 : Int) : ℚ) := by
    exact_mod_cast hk
  have r0 : (0 : ℚ) ≤ (((7 * b) % 10 : Int) : ℚ) := by exact_mod_cast hr0
  have r1 : (((7 * b) % 10 : Int) : ℚ) ≤ 9 := by
    have : (7 * b) % 10 ≤ 9 := by omega
    exact_mod_cast this
  refine ⟨?_, ?_, ?_⟩
  · have : ((a + (7 * b) / 10 - 1 : Int) : ℚ) < (P : ℚ) + 1 := by
      push_cast; linarith
    have := Int.cast_lt.mp (by exact_mod_cast this : ((a + (7 * b) / 10 - 1 : Int) : ℚ) <
      ((P + 1 : Int) : ℚ))
    omega
  · have : (P : ℚ) < ((a + (7 * b) / 10 + 1 : Int) : ℚ) := by
      push_cast; linarith
    have := Int.cast_lt.mp this
    omega
  · intro hdiv
    have hr2 : 1 ≤ (7 * b) % 10 := by omega
    have r2 : (1 : ℚ) ≤ (((7 * b) % 10 : Int) : ℚ) := by exact_mod_cast hr2
    have h1 : ((a + (7 * b) / 10 : Int) : ℚ) < (P : ℚ) + 1 := by
      push_cast; linarith
    have h1' := Int.cast_lt.mp (by exact_mod_cast h1 : ((a + (7 * b) / 10 : Int) : ℚ) <
      ((P + 1 : Int) : ℚ))
    have h2 : (P : ℚ) < ((a + (7 * b) / 10 + 1 : Int) : ℚ) := by
      push_cast; linarith
    have h2' := Int.cast_lt.mp h2
    omega

theorem value_pos_num (f : ComicViewer.float_t) (hv : 0 < f.value) :
    0 < f.num := by
  unfold ComicViewer.float_t.value at hv
  by_contra h
  have : f.num = 0 := by omega
  rw [this] at hv
  simp at hv

/-- The scale factor that the fit-to-width key stores, for a width and a
`max_width` below `2^24`: it is at least 1, and `max_width / scale_factor` is
at most `width / (1 - 2^-24)`. -/
theorem fit_scale_bound (mw w : Nat) (hw : 0 < w) (hw2 : w < 2 ^ 24) (hm : mw < 2 ^ 24) :
    0 < (if ((ComicViewer.float_t.of_int mw).div (ComicViewer.float_t.of_int w)).le_one
        then (⟨1, 1⟩ : ComicViewer.float_t)
        else (ComicViewer.float_t.of_int mw).div (ComicViewer.float_t.of_int w)).den ∧
    (mw : ℚ) / (if ((ComicViewer.float_t.of_int mw).div (ComicViewer.float_t.of_int w)).le_one
        then (⟨1, 1⟩ : ComicViewer.float_t)
        else (ComicViewer.float_t.of_int mw).div (ComicViewer.float_t.of_int w)).value ≤
      (w : ℚ) * (16777216 / 16777215) := by
  have hw0 : (0 : ℚ) < (w : ℚ) := by exact_mod_cast hw
  have hm0 : (0 : ℚ) ≤ (mw : ℚ) := by positivity
  have hA := round_of_int 24 (-149) mw hm (by decide)
  have hAd := (round_spec 24 (-149) mw 1 Nat.one_pos).1
  have hB := round_of_int 24 (-149) w hw2 (by decide)
  have hBd := (round_spec 24 (-149) w 1 Nat.one_pos).1
  have hBn : 0 < (ComicViewer.float_t.round 24 (-149) w 1).num :=
    value_pos_num _ (by rw [hB]; exact hw0)
  unfold ComicViewer.float_t.div ComicViewer.float_t.of_int
  generalize ComicViewer.float_t.round 24 (-149) mw 1 = A at hA hAd ⊢
  generalize ComicViewer.float_t.round 24 (-149) w 1 = B at hB hBd hBn ⊢
  have hd : 0 < A.den * B.num := Nat.mul_pos hAd hBn
  have Ad0 : (0 : ℚ) < (A.den : ℚ) := by exact_mod_cast hAd
  have Bd0 : (0 : ℚ) < (B.den : ℚ) := by exact_mod_cast hBd
  have Bn0 : (0 : ℚ) < (B.num : ℚ) := by exact_mod_cast hBn
  have ex : ((A.num * B.den : Nat) : ℚ) / ((A.den * B.num : Nat) : ℚ) = (mw : ℚ) / (w : ℚ) := by
    rw [← hA, ← hB]
    unfold ComicViewer.float_t.value
    push_cast
    field_simp
  obtain ⟨fd, _, _⟩ := round_spec 24 (-149) (A.num * B.den) (A.den * B.num) hd
  by_cases h0 : mw = 0
  · subst h0
    have hz : A.num = 0 := by
      unfold ComicViewer.float_t.value at hA
      simp only [Nat.cast_zero] at hA
      rw [div_eq_zero_iff] at hA
      rcases hA with h | h
      · exact_mod_cast h
      · have : A.den = 0 := by exact_mod_cast h
        omega
    have hv := round_zero 24 (-149) (A.den * B.num) hd
    rw [hz, Nat.zero_mul]
    have hle : (ComicViewer.float_t.round 24 (-149) 0 (A.den * B.num)).le_one := by
      unfold ComicViewer.float_t.le_one
      unfold ComicViewer.float_t.value at hv
      rw [div_eq_zero_iff] at hv
      rcases hv with h | h
      · have : (ComicViewer.float_t.round 24 (-149) 0 (A.den * B.num)).num = 0 := by
          exact_mod_cast h
        omega
      · have h2 := (round_spec 24 (-149) 0 (A.den * B.num) hd).1
        have : (ComicViewer.float_t.round 24 (-149) 0 (A.den * B.num)).den = 0 := by
          exact_mod_cast h
        omega
    rw [if_pos hle]
    refine ⟨Nat.one_pos, ?_⟩
    simp only [Nat.cast_zero, zero_div]
    positivity
  · have hm1 : (1 : ℚ) ≤ (mw : ℚ) := by
      have : 1 ≤ mw := by omega
      exact_mod_cast this
    have hx : (2 : ℚ) ^ ((-149 : Int) + ((24 : Nat) : Int) - 1) ≤
        ((A.num * B.den : Nat) : ℚ) / ((A.den * B.num : Nat) : ℚ) := by
      rw [ex]
      have e1 : (2 : ℚ) ^ ((-149 : Int) + ((24 : Nat) : Int) - 1) ≤ (2 : ℚ) ^ (-24 : Int) :=
        zpow_le_zpow_right₀ (by norm_num) (by norm_num)
      have e2 : (2 : ℚ) ^ (-24 : Int) = 1 / 16777216 := by norm_num
      have w2 : (w : ℚ) ≤ 16777216 := by
        have : w ≤ 16777216 := by
          have : (2 : Nat) ^ 24 = 16777216 := by norm_num
          omega
        exact_mod_cast this
      rw [e2] at e1
      refine le_trans e1 ?_
      rw [div_le_div_iff (by norm_num) hw0]
      nlinarith
    have he := round_error_normal 24 (-149) (A.num * B.den) (A.den * B.num) hd hx
    rw [ex] at he
    have u1 : (2 : ℚ) ^ (-((24 : Nat) : Int)) = 1 / 16777216 := by norm_num
    rw [u1, abs_le] at he
    generalize ComicViewer.float_t.round 24 (-149) (A.num * B.den) (A.den * B.num) = F at fd he ⊢
    have x0 : (0 : ℚ) < (mw : ℚ) / (w : ℚ) := by positivity
    have fv : (mw : ℚ) / (w : ℚ) * (16777215 / 16777216) ≤ F.value := by linarith [he.1, he.2]
    have fv0 : (0 : ℚ) < F.value := lt_of_lt_of_le (by positivity) fv
    by_cases hle : F.le_one
    · rw [if_pos hle]
      refine ⟨Nat.one_pos, ?_⟩
      have f1 : F.value ≤ 1 := by
        unfold ComicViewer.float_t.value
        unfold ComicViewer.float_t.le_one at hle
        rw [div_le_one (by exact_mod_cast fd)]
        exact_mod_cast hle
      simp only [ComicViewer.float_t.value, Nat.cast_one, div_one]
      have : (mw : ℚ) / (w : ℚ) * (16777215 / 16777216) ≤ 1 := le_trans fv f1
      rw [div_mul_eq_mul_div, div_le_one hw0] at this
      linarith
    · rw [if_neg hle]
      refine ⟨fd, ?_⟩
      rw [div_le_iff₀ fv0]
      have : (w : ℚ) * (16777216 / 16777215) * ((mw : ℚ) / (w : ℚ) * (16777215 / 16777216)) =
          (mw : ℚ) := by
        field_simp
        ring
      have h2 := mul_le_mul_of_nonneg_left fv
        (by positivity : (0 : ℚ) ≤ (w : ℚ) * (16777216 / 16777215))
      linarith

theorem tdiv_le_zero_of_nonpos (a : Int) (b : Nat) (ha : a ≤ 0) : Int.tdiv a (b : Int) ≤ 0 := by
  have h : Int.tdiv (-a) (b : Int) = - Int.tdiv a (b : Int) := Int.neg_tdiv a _
  have h2 : 0 ≤ Int.tdiv (-a) (b : Int) := Int.tdiv_nonneg (by omega) (by positivity)
  omega

/-- The value `max_offset_x = (int)(max_width / scale_factor - width)` that the
program computes in binary32 is not above 0 when `max_width / scale_factor` is
at most `width / (1 - 2^-24)`, for a width below `2^22`. -/
theorem div_sub_binary32_fit (s : ComicViewer.float_t) (mw w : Nat) (hsd : 0 < s.den)
    (hsn : 0 < s.num) (hw2 : w < 2 ^ 22) (hm : mw < 2 ^ 24)
    (hb : (mw : ℚ) / s.value ≤ (w : ℚ) * (16777216 / 16777215)) :
    s.div_sub_binary32 (mw : Int) (w : Int) ≤ 0 := by
  unfold ComicViewer.float_t.div_sub_binary32
  simp only
  -- the conversions of `max_width` and `width`
  obtain ⟨x1, x2, _⟩ := round_signed_value 24 (-149) (mw : Int) 1 (by positivity)
  obtain ⟨w1, w2, _⟩ := round_signed_value 24 (-149) (w : Int) 1 (by positivity)
  rw [x1, x2, w1, w2]
  simp only [Int.natAbs_ofNat]
  have hA := round_of_int 24 (-149) mw hm (by decide)
  have hAd := (round_spec 24 (-149) mw 1 Nat.one_pos).1
  have hB := round_of_int 24 (-149) w (lt_trans hw2 (by norm_num)) (by decide)
  have hBd := (round_spec 24 (-149) w 1 Nat.one_pos).1
  generalize ComicViewer.float_t.round 24 (-149) mw 1 = A at hA hAd ⊢
  generalize ComicViewer.float_t.round 24 (-149) w 1 = B at hB hBd ⊢
  -- the quotient
  have hn1 : (0 : Int) ≤ (A.num : Int) * (s.den : Int) := by positivity
  obtain ⟨q1, q2, q3⟩ := round_signed_value 24 (-149) ((A.num : Int) * (s.den : Int))
    (A.den * s.num) hn1
  rw [q1, q2]
  have hd1 : 0 < A.den * s.num := Nat.mul_pos hAd hsn
  have qd := (round_spec 24 (-149) ((A.num : Int) * (s.den : Int)).natAbs (A.den * s.num) hd1).1
  have qe := round_error 24 (-149) ((A.num : Int) * (s.den : Int)).natAbs (A.den * s.num) hd1
  rw [q3] at qe
  have sd0 : (0 : ℚ) < (s.den : ℚ) := by exact_mod_cast hsd
  have sn0 : (0 : ℚ) < (s.num : ℚ) := by exact_mod_cast hsn
  have Ad0 : (0 : ℚ) < (A.den : ℚ) := by exact_mod_cast hAd
  have Bd0 : (0 : ℚ) < (B.den : ℚ) := by exact_mod_cast hBd
  have ey : ((((A.num : Int) * (s.den : Int) : Int)) : ℚ) / ((A.den * s.num : Nat) : ℚ) =
      (mw : ℚ) / s.value := by
    rw [← hA]
    unfold ComicViewer.float_t.value
    push_cast
    field_simp
  rw [ey] at qe
  generalize ComicViewer.float_t.round 24 (-149) ((A.num : Int) * (s.den : Int)).natAbs
    (A.den * s.num) = Q at qd qe ⊢
  have Qd0 : (0 : ℚ) < (Q.den : ℚ) := by exact_mod_cast qd
  by_cases hneg : (Q.num : Int) * (B.den : Int) - (B.num : Int) * (Q.den : Int) < 0
  · apply tdiv_le_zero_of_nonpos
    unfold ComicViewer.round_signed
    simp only
    rw [if_pos hneg]
    have : (0 : Int) ≤ ((ComicViewer.float_t.round 24 (-149)
        ((Q.num : Int) * (B.den : Int) - (B.num : Int) * (Q.den : Int)).natAbs
        (Q.den * B.den)).num : Int) := by positivity
    omega
  · have hn2 : (0 : Int) ≤ (Q.num : Int) * (B.den : Int) - (B.num : Int) * (Q.den : Int) := by
      omega
    obtain ⟨z1, z2, z3⟩ := round_signed_value 24 (-149)
      ((Q.num : Int) * (B.den : Int) - (B.num : Int) * (Q.den : Int)) (Q.den * B.den) hn2
    rw [z1, z2]
    have hd2 : 0 < Q.den * B.den := Nat.mul_pos qd hBd
    have zd := (round_spec 24 (-149)
      ((Q.num : Int) * (B.den : Int) - (B.num : Int) * (Q.den : Int)).natAbs (Q.den * B.den) hd2).1
    have ze := round_error 24 (-149)
      ((Q.num : Int) * (B.den : Int) - (B.num : Int) * (Q.den : Int)).natAbs (Q.den * B.den) hd2
    rw [z3] at ze
    have ez : ((((Q.num : Int) * (B.den : Int) - (B.num : Int) * (Q.den : Int) : Int)) : ℚ) /
        ((Q.den * B.den : Nat) : ℚ) = Q.value - (w : ℚ) := by
      rw [← hB]
      unfold ComicViewer.float_t.value
      push_cast
      field_simp
      ring
    rw [ez] at ze
    have ez0 : (0 : ℚ) ≤ Q.value - (w : ℚ) := by
      rw [← ez]
      apply div_nonneg
      · exact_mod_cast hn2
      · positivity
    generalize ComicViewer.float_t.round 24 (-149)
      ((Q.num : Int) * (B.den : Int) - (B.num : Int) * (Q.den : Int)).natAbs (Q.den * B.den) = Z
      at zd ze ⊢
    obtain ⟨f1, _, _⟩ := tdiv_floor (Z.num : Int) Z.den (by positivity) zd
    rw [Int.cast_natCast] at f1
    have t1 := tiny_le (-149 - 1) (by norm_num)
    have u1 : (2 : ℚ) ^ (-((24 : Nat) : Int)) = 1 / 16777216 := by norm_num
    rw [u1, abs_le] at qe ze
    have w0 : (0 : ℚ) ≤ (w : ℚ) := by positivity
    have w3 : (w : ℚ) ≤ 4194304 := by
      have : w ≤ 4194304 := by
        have : (2 : Nat) ^ 22 = 4194304 := by norm_num
        omega
      exact_mod_cast this
    have y0 : (0 : ℚ) ≤ (mw : ℚ) / s.value := by
      unfold ComicViewer.float_t.value
      positivity
    have hq : Q.value ≤ (mw : ℚ) / s.value + (mw : ℚ) / s.value * (1 / 16777216) +
        1 / 9007199254740992 := by linarith [qe.1]
    have hz1 : Z.value ≤ (Q.value - (w : ℚ)) + (Q.value - (w : ℚ)) * (1 / 16777216) +
        1 / 9007199254740992 := by linarith [ze.1]
    have hz : Z.value < 1 := by linarith
    have hlt : ((Int.tdiv (Z.num : Int) (Z.den : Int) : Int) : ℚ) < ((1 : Int) : ℚ) := by
      have zv : Z.value = (Z.num : ℚ) / (Z.den : ℚ) := rfl
      push_cast
      linarith
    have := Int.cast_lt.mp hlt
    omega


/-! ## Lemmas on lists and loops -/

theorem getD_set_ne (l : List Int) (i j : Nat) (a : Int) (h : j ≠ i) :
    (l.set i a).getD j 0 = l.getD j 0 := by
  simp [List.getD_eq_getElem?_getD, List.getElem?_set_ne (Ne.symm h)]

theorem foldl_range_succ {α : Type} (f : α → Nat → α) (a : α) (n : Nat) :
    (List.range (n + 1)).foldl f a = f ((List.range n).foldl f a) n := by
  rw [List.range_succ, List.foldl_append]
  rfl

/-! ## comic-viewer.c: the layout loop and the clamping of `render` -/

namespace ComicViewer

theorem render_image_frame (h : helper_t) (d : display_t) (c : content_t) (img : Nat)
    (offset : Int) :
    same_frame d (render_image h d c img offset).d c (render_image h d c img offset).c img := by
  unfold render_image same_frame
  split
  · simp
  · simp only [true_and]
    intro j hj
    exact getD_set_ne _ _ _ _ hj

theorem render_fallback_frame (i : Nat) (p : pass_t) :
    same_frame p.d (render_fallback i p).d p.c (render_fallback i p).c i ∧
      (render_fallback i p).start_height = p.start_height := by
  unfold render_fallback same_frame
  simp only [true_and, and_true]
  split_ifs
  · refine ⟨rfl, ?_⟩
    intro j hj
    exact getD_set_ne _ _ _ _ hj
  · simp

theorem render_body_frame (run : Nat → helper_t) (i : Nat) (p : pass_t) :
    same_frame p.d (render_body run i p).d p.c (render_body run i p).c i ∧
      (render_body run i p).start_height =
        p.d.scale_factor.add_div p.start_height ((render_body run i p).c.heights.getD i 0) := by
  unfold render_body
  have hr := render_image_frame (run i) p.d p.c i (p.start_height - p.d.offset_y)
  simp only
  split_ifs with hvis hok
  · obtain ⟨r1, r2, r3, r4, r5, r6, r7, r8, r9⟩ := hr
    exact ⟨⟨r1, r2, r3, r4, r5, r6, r7, r8, r9⟩, by simp only [r3]⟩
  · have hf := render_fallback_frame i
      { p with d := (render_image (run i) p.d p.c i (p.start_height - p.d.offset_y)).d,
               c := (render_image (run i) p.d p.c i (p.start_height - p.d.offset_y)).c,
               stderr := p.stderr ++ (render_image (run i) p.d p.c i
                  (p.start_height - p.d.offset_y)).err }
    obtain ⟨⟨f1, f2, f3, f4, f5, f6, f7, f8, f9⟩, fs⟩ := hf
    obtain ⟨r1, r2, r3, r4, r5, r6, r7, r8, r9⟩ := hr
    simp only at f1 f2 f3 f4 f5 f6 f7 f8 f9 fs
    refine ⟨⟨f1.trans r1, f2.trans r2, f3.trans r3, f4.trans r4, f5.trans r5, f6.trans r6,
      f7.trans r7, f8.trans r8, fun j hj => (f9 j hj).trans (r9 j hj)⟩, ?_⟩
    simp only [fs, f3, r3]
  · exact ⟨⟨rfl, rfl, rfl, rfl, rfl, rfl, rfl, rfl, fun _ _ => rfl⟩, rfl⟩

theorem total_height_congr (s : float_t) (n : Nat) (hs hs1 : List Int)
    (h : ∀ j, j < n → hs1.getD j 0 = hs.getD j 0) :
    total_height s n hs1 = total_height s n hs := by
  unfold total_height
  apply List.foldl_ext
  intro a i hi
  rw [h i (List.mem_range.mp hi)]

theorem total_height_succ (s : float_t) (n : Nat) (hs : List Int) :
    total_height s (n + 1) hs = s.add_div (total_height s n hs) (hs.getD n 0) := by
  unfold total_height
  rw [foldl_range_succ]

theorem render_loop_succ (run : Nat → helper_t) (p0 : pass_t) (n : Nat) :
    render_loop run p0 (n + 1) = render_body run n (render_loop run p0 n) := by
  unfold render_loop
  rw [foldl_range_succ]

/-- After the layout loop has run over the first `n` images from
`start_height = 0`, the display fields other than the buffer and the plot log
are as before, and `start_height` is the total height of the first `n` images
for the heights as the loop leaves them. -/
theorem render_loop_spec (run : Nat → helper_t) (p0 : pass_t) (h0 : p0.start_height = 0)
    (n : Nat) :
    (render_loop run p0 n).d.offset_y = p0.d.offset_y ∧
    (render_loop run p0 n).d.offset_x = p0.d.offset_x ∧
    (render_loop run p0 n).d.scale_factor = p0.d.scale_factor ∧
    (render_loop run p0 n).d.width = p0.d.width ∧
    (render_loop run p0 n).d.height = p0.d.height ∧
    (render_loop run p0 n).c.image_count = p0.c.image_count ∧
    (render_loop run p0 n).start_height =
      total_height p0.d.scale_factor n (render_loop run p0 n).c.heights := by
  induction n with
  | zero => exact ⟨rfl, rfl, rfl, rfl, rfl, rfl, by simp [render_loop, total_height, h0]⟩
  | succ n ih =>
    obtain ⟨i1, i2, i3, i4, i5, i6, i7⟩ := ih
    obtain ⟨⟨b1, b2, b3, b4, b5, _, _, b8, b9⟩, bs⟩ :=
      render_body_frame run n (render_loop run p0 n)
    rw [render_loop_succ]
    refine ⟨b1.trans i1, b2.trans i2, b3.trans i3, b4.trans i4, b5.trans i5, b8.trans i6, ?_⟩
    rw [bs, total_height_succ, i3, i7]
    congr 1
    apply (total_height_congr _ _ _ _ _).symm
    intro j hj
    exact b9 j (Nat.ne_of_lt hj)

theorem render_pass_spec (run : Nat → helper_t) (v : viewer_t) :
    (render_pass run v).d.offset_y = v.d.offset_y ∧
    (render_pass run v).d.offset_x = v.d.offset_x ∧
    (render_pass run v).d.scale_factor = v.d.scale_factor ∧
    (render_pass run v).d.width = v.d.width ∧
    (render_pass run v).d.height = v.d.height ∧
    (render_pass run v).c.image_count = v.c.image_count ∧
    (render_pass run v).start_height =
      total_height v.d.scale_factor v.c.image_count (render_pass run v).c.heights :=
  render_loop_spec run _ rfl v.c.image_count

/-- Whenever `render` returns, from a state with `offset_y >= 0`, it leaves
`offset_y` clamped against the total height of the heights it leaves. -/
theorem render_fuel_clamped (run : Nat → helper_t) (fuel : Nat) :
    ∀ v v1 : viewer_t, 0 ≤ v.d.offset_y → render_fuel run fuel v = some v1 →
      offset_y_clamped v1 := by
  induction fuel with
  | zero => intro v v1 _ h; simp [render_fuel] at h
  | succ fuel ih =>
    intro v v1 hy h
    obtain ⟨p1, _, p3, _, p5, p6, p7⟩ := render_pass_spec run v
    simp only [render_fuel] at h
    have hmax : not_below_zero ((render_pass run v).start_height - (render_pass run v).d.height)
        = max 0 (total_height v.d.scale_factor v.c.image_count (render_pass run v).c.heights
            - v.d.height) := by
      rw [← p7, ← p5]; unfold not_below_zero; split_ifs <;> omega
    rw [hmax] at h
    -- the state after the clamping of `offset_y`
    split at h
    · exact absurd h (by simp)
    · rename_i w hw
      have hwc : offset_y_clamped w := by
        by_cases hc : (render_pass run v).d.offset_y >
            max 0 (total_height v.d.scale_factor v.c.image_count (render_pass run v).c.heights
              - v.d.height)
        · rw [if_pos hc] at hw
          exact ih _ w (le_max_left _ _) hw
        · rw [if_neg hc] at hw
          injection hw with hw
          subst hw
          refine ⟨by simp only; omega, ?_⟩
          simp only [p3, p5, p6]
          exact not_lt.mp hc
      -- the state after the clamping of `offset_x`
      split at h
      · exact absurd h (by simp)
      · rename_i w2 hw2
        injection h with h
        subst h
        by_cases hx : w.d.offset_x >
            not_below_zero (w.d.scale_factor.add_div (- w.d.width) w.c.max_width)
        · rw [if_pos hx] at hw2
          refine ih _ w2 ?_ hw2
          exact hwc.1
        · rw [if_neg hx] at hw2
          injection hw2 with hw2
          subst hw2
          exact hwc

/-- More fuel does not change what `render` returns. -/
theorem render_fuel_succ (run : Nat → helper_t) (fuel : Nat) :
    ∀ v v1 : viewer_t, render_fuel run fuel v = some v1 →
      render_fuel run (fuel + 1) v = some v1 := by
  induction fuel with
  | zero => intro v v1 h; simp [render_fuel] at h
  | succ fuel ih =>
    intro v v1 h
    rw [render_fuel] at h ⊢
    simp only at h ⊢
    by_cases hc : (render_pass run v).d.offset_y >
        not_below_zero ((render_pass run v).start_height - (render_pass run v).d.height)
    · rw [if_pos hc] at h ⊢
      cases hA : render_fuel run fuel
          ⟨{ (render_pass run v).d with
              offset_y := not_below_zero
                ((render_pass run v).start_height - (render_pass run v).d.height) },
            (render_pass run v).c, (render_pass run v).stderr⟩ with
      | none => rw [hA] at h; simp at h
      | some w =>
        rw [hA] at h
        rw [ih _ _ hA]
        simp only at h ⊢
        by_cases hx : w.d.offset_x >
            not_below_zero (w.d.scale_factor.add_div (- w.d.width) w.c.max_width)
        · rw [if_pos hx] at h ⊢
          cases hB : render_fuel run fuel
              { w with d := { w.d with offset_x := (not_below_zero
                (w.d.scale_factor.add_div (- w.d.width) w.c.max_width)) } } with
          | none => rw [hB] at h; simp at h
          | some w2 => rw [hB] at h; rw [ih _ _ hB]; exact h
        · rw [if_neg hx] at h ⊢
          exact h
    · rw [if_neg hc] at h ⊢
      simp only at h ⊢
      by_cases hx : (render_pass run v).d.offset_x >
          not_below_zero ((render_pass run v).d.scale_factor.add_div
            (- (render_pass run v).d.width) (render_pass run v).c.max_width)
      · rw [if_pos hx] at h ⊢
        cases hB : render_fuel run fuel
            { d := { (render_pass run v).d with offset_x := (not_below_zero
                ((render_pass run v).d.scale_factor.add_div
                  (- (render_pass run v).d.width) (render_pass run v).c.max_width)) },
              c := (render_pass run v).c, stderr := (render_pass run v).stderr } with
        | none => rw [hB] at h; simp at h
        | some w2 => rw [hB] at h; rw [ih _ _ hB]; exact h
      · rw [if_neg hx] at h ⊢
        exact h

theorem render_fuel_mono (run : Nat → helper_t) (fuel k : Nat) (v v1 : viewer_t)
    (h : render_fuel run fuel v = some v1) : render_fuel run (fuel + k) v = some v1 := by
  induction k with
  | zero => exact h
  | succ k ih => exact render_fuel_succ run _ _ _ ih

theorem not_below_zero_nonneg (m : Int) : 0 ≤ not_below_zero m := by
  unfold not_below_zero; split_ifs <;> omega

/-- The function `render` returns: a recursion depth above
`offset_y + offset_x` is enough.  It leaves neither offset larger, and it
leaves the visible size, the scaling factor and the image count as they are. -/
theorem render_fuel_returns (run : Nat → helper_t) (fuel : Nat) :
    ∀ v : viewer_t, v.d.offset_y.toNat + v.d.offset_x.toNat < fuel →
      ∃ v1, render_fuel run fuel v = some v1 ∧ v1.d.offset_y ≤ v.d.offset_y ∧
        v1.d.offset_x ≤ v.d.offset_x ∧ v1.d.width = v.d.width ∧ v1.d.height = v.d.height ∧
        v1.d.scale_factor = v.d.scale_factor ∧ v1.c.image_count = v.c.image_count := by
  induction fuel with
  | zero => intro v h; omega
  | succ fuel ih =>
    intro v hm
    obtain ⟨p1, p2, p3, p4, p5, p6, _⟩ := render_pass_spec run v
    rw [render_fuel]
    simp only
    have hy0 := not_below_zero_nonneg
      ((render_pass run v).start_height - (render_pass run v).d.height)
    -- the clamping of `offset_y`
    have hA : ∃ w, (if (render_pass run v).d.offset_y >
          not_below_zero ((render_pass run v).start_height - (render_pass run v).d.height) then
          render_fuel run fuel
            ⟨{ (render_pass run v).d with
                offset_y := not_below_zero
                  ((render_pass run v).start_height - (render_pass run v).d.height) },
              (render_pass run v).c, (render_pass run v).stderr⟩
        else some ⟨(render_pass run v).d, (render_pass run v).c, (render_pass run v).stderr⟩)
        = some w ∧ w.d.offset_y ≤ v.d.offset_y ∧ w.d.offset_x ≤ v.d.offset_x ∧
          w.d.width = v.d.width ∧ w.d.height = v.d.height ∧
          w.d.scale_factor = v.d.scale_factor ∧ w.c.image_count = v.c.image_count := by
      by_cases hc : (render_pass run v).d.offset_y >
          not_below_zero ((render_pass run v).start_height - (render_pass run v).d.height)
      · rw [if_pos hc]
        obtain ⟨w, hw, hwy, hwx, hww, hwh, hws, hwc⟩ := ih
          ⟨{ (render_pass run v).d with
              offset_y := not_below_zero
                ((render_pass run v).start_height - (render_pass run v).d.height) },
            (render_pass run v).c, (render_pass run v).stderr⟩
          (by simp only; omega)
        simp only at hwy hwx hww hwh hws hwc
        exact ⟨w, hw, by omega, by omega, hww.trans p4, hwh.trans p5, hws.trans p3,
          hwc.trans p6⟩
      · rw [if_neg hc]
        exact ⟨_, rfl, by simp only; omega, by simp only; omega, p4, p5, p3, p6⟩
    obtain ⟨w, hw, hwy, hwx, hww, hwh, hws, hwc⟩ := hA
    rw [hw]
    simp only
    have hx0 := not_below_zero_nonneg (w.d.scale_factor.add_div (- w.d.width) w.c.max_width)
    -- the clamping of `offset_x`
    by_cases hx : w.d.offset_x >
        not_below_zero (w.d.scale_factor.add_div (- w.d.width) w.c.max_width)
    · rw [if_pos hx]
      obtain ⟨w2, hw2, hw2y, hw2x, hw2w, hw2h, hw2s, hw2c⟩ := ih
        { w with d := { w.d with offset_x := (not_below_zero
          (w.d.scale_factor.add_div (- w.d.width) w.c.max_width)) } }
        (by simp only; omega)
      simp only at hw2y hw2x hw2w hw2h hw2s hw2c
      rw [hw2]
      exact ⟨_, rfl, by simp only; omega, by simp only; omega, hw2w.trans hww, hw2h.trans hwh,
        hw2s.trans hws, hw2c.trans hwc⟩
    · rw [if_neg hx]
      exact ⟨_, rfl, by simp only; omega, by simp only; omega, hww, hwh, hws, hwc⟩

/-- The total function `render` is what the recursion returns, for every depth
bound above `offset_y + offset_x`. -/
theorem render_fuel_eq_render (run : Nat → helper_t) (fuel : Nat) (v : viewer_t)
    (h : v.d.offset_y.toNat + v.d.offset_x.toNat < fuel) :
    render_fuel run fuel v = some (render run v) := by
  obtain ⟨v1, h1, _⟩ :=
    render_fuel_returns run (v.d.offset_y.toNat + v.d.offset_x.toNat + 1) v (Nat.lt_succ_self _)
  have h2 := render_fuel_mono run _ (fuel - (v.d.offset_y.toNat + v.d.offset_x.toNat + 1)) v v1 h1
  have e : v.d.offset_y.toNat + v.d.offset_x.toNat + 1 +
      (fuel - (v.d.offset_y.toNat + v.d.offset_x.toNat + 1)) = fuel := by omega
  rw [e] at h2
  rw [h2]
  unfold render
  rw [h1]
  rfl

theorem render_clamped (run : Nat → helper_t) (v : viewer_t) (h : 0 ≤ v.d.offset_y) :
    offset_y_clamped (render run v) :=
  render_fuel_clamped run _ v _ h (render_fuel_eq_render run _ v (Nat.lt_succ_self _))

theorem add_mul_nonneg (f : float_t) (a b : Int) (ha : 0 ≤ a) (hb : 0 ≤ b) :
    0 ≤ f.add_mul a b := by
  unfold float_t.add_mul
  simp only
  have h1 := round_signed_nonneg 53 (-1074) (b * (f.to_double.num : Int)) f.to_double.den
    (by positivity)
  apply Int.tdiv_nonneg
  · apply round_signed_nonneg
    positivity
  · positivity

theorem handle_event_offset_y_nonneg (e : event_t) (v : viewer_t) (hy : 0 ≤ v.d.offset_y)
    (hh : 0 ≤ (handle_event e v).d.height) : 0 ≤ (handle_event e v).d.offset_y := by
  cases e <;> simp only [handle_event] at hh ⊢
  case key_pagedown => exact add_mul_nonneg _ _ _ hy hh
  case key_down => exact add_mul_nonneg _ _ _ hy hh
  case key_pageup => split_ifs <;> omega
  case key_up => split_ifs <;> omega
  all_goals first | exact hy | exact le_refl _

end ComicViewer

/-! ## webtoon-viewer.c: the clamping of `render` -/

namespace WebtoonViewer

/-- C2 (webtoon-viewer), the code at the failing input.  One image of height
100 in a window of height 150, `offset_y = 0`: `render` returns (two passes)
and leaves `offset_y = -50`, for every bound on the recursion depth of at least
2.  The total height it leaves is 100, so the interval of the claim is
`[0, 0]`. -/
theorem webtoon_render_leaves_negative_offset_y (fuel : Nat) :
    (render_fuel (fun _ => short_image) (fuel + 2)
        (initial 1 200 150 nsfb_format_e.NSFB_FMT_XRGB8888 (fun _ => 0) 800)).map
      (fun v => (v.d.offset_y, total_height v.c.image_count v.c.heights, v.d.height)) =
      some (-50, 100, 150) := by
  rfl

end WebtoonViewer

/-! ## `render_image`: reads, formats and return value at concrete inputs -/

/-- C3, the code at the failing input.  A 4 x 1 image whose pixel data are
the 24 bytes `1 .. 24` (three pixels), on a 4 x 1 XRGB8888 surface, in both
viewers.  Sent in one read of 24 bytes, the three pixels are plotted from the
bytes at 0, 8 and 16.  Sent in two reads of 12 bytes, only two pixels are
plotted, the second from the bytes at 12 .. 19 of the stream: the last 4 bytes
of each read are dropped, and nothing is carried over to the next read. -/
theorem render_image_drops_the_rest_of_a_read :
    (List.map
        (ComicViewer.render_image
          (helper_sending [read_t.data (header_bytes 4 1), read_t.data (counting 24)])
          (ComicViewer.blank NSFB_FMT_XRGB8888 4 1 16) ComicViewer.one_image 0 0).d.buf
        [0, 1, 2, 4, 5, 6, 8, 9, 10] = [5, 3, 1, 13, 11, 9, 21, 19, 17] ∧
      (List.map
        (ComicViewer.render_image
          (helper_sending [read_t.data (header_bytes 4 1), read_t.data ((counting 24).take 12),
            read_t.data ((counting 24).drop 12)])
          (ComicViewer.blank NSFB_FMT_XRGB8888 4 1 16) ComicViewer.one_image 0 0).d.buf
        [0, 1, 2, 4, 5, 6, 8, 9, 10] = [5, 3, 1, 17, 15, 13, 0, 0, 0])) ∧
    (List.map
        (WebtoonViewer.render_image
          (helper_sending [read_t.data (header_bytes 4 1), read_t.data (counting 24)])
          (WebtoonViewer.blank NSFB_FMT_XRGB8888 4 1 16) WebtoonViewer.one_image 0 0).d.buf
        [0, 1, 2, 4, 5, 6, 8, 9, 10] = [5, 3, 1, 13, 11, 9, 21, 19, 17] ∧
      (List.map
        (WebtoonViewer.render_image
          (helper_sending [read_t.data (header_bytes 4 1), read_t.data ((counting 24).take 12),
            read_t.data ((counting 24).drop 12)])
          (WebtoonViewer.blank NSFB_FMT_XRGB8888 4 1 16) WebtoonViewer.one_image 0 0).d.buf
        [0, 1, 2, 4, 5, 6, 8, 9, 10] = [5, 3, 1, 17, 15, 13, 0, 0, 0])) := by
  decide

/-- C4, the code at the failing input.  On an RGB888 surface 4 pixels wide and
1 pixel high, with 3 bytes per pixel and a stride of 12 bytes, the pixel at
display position (3, 0) is stored at the offsets 12, 13 and 14, which are
outside the 12 bytes of the buffer; the offsets of the claim are 9, 10, 11.
Both viewers do so for the last pixel of a 4 x 1 image, and leave byte 11, the
last byte of the row, as it was. -/
theorem render_image_rgb888_writes_past_the_row :
    bytes_per_pixel NSFB_FMT_RGB888 = 3 ∧
    plot_writes NSFB_FMT_RGB888 12 3 0 7 8 9 = [(12, 9), (13, 8), (14, 7)] ∧
    List.map
        (ComicViewer.render_image
          (helper_sending [read_t.data (header_bytes 4 1), read_t.data (counting 32)])
          (ComicViewer.blank NSFB_FMT_RGB888 4 1 12) ComicViewer.one_image 0 0).d.buf
        [11, 12, 13, 14] = [0, 29, 27, 25] ∧
    List.map
        (WebtoonViewer.render_image
          (helper_sending [read_t.data (header_bytes 4 1), read_t.data (counting 32)])
          (WebtoonViewer.blank NSFB_FMT_RGB888 4 1 12) WebtoonViewer.one_image 0 0).d.buf
        [11, 12, 13, 14] = [0, 29, 27, 25] := by
  decide

/-- C8, the code at the failing inputs.  For a declared 2 x 2 image,
a stream that ends after one whole row (2 pixels) and a stream with no pixel
at all are not reported as corrupted, in both viewers; a stream that ends
inside the second row (3 pixels) is.  For a declared 2 x 1 image a stream of 5
pixels, which carries more than the 2 declared pixels, is reported as
corrupted. -/
theorem render_image_corruption_test_misses_whole_rows :
    ((ComicViewer.render_image
        (helper_sending [read_t.data (header_bytes 2 2), read_t.data (counting 16)])
        (ComicViewer.blank NSFB_FMT_XRGB8888 4 4 16) ComicViewer.one_image 0 0).err = [] ∧
      (ComicViewer.render_image
        (helper_sending [read_t.data (header_bytes 2 2)])
        (ComicViewer.blank NSFB_FMT_XRGB8888 4 4 16) ComicViewer.one_image 0 0).err = [] ∧
      (ComicViewer.render_image
        (helper_sending [read_t.data (header_bytes 2 2), read_t.data (counting 24)])
        (ComicViewer.blank NSFB_FMT_XRGB8888 4 4 16) ComicViewer.one_image 0 0).err =
          [message.seems_corrupted] ∧
      (ComicViewer.render_image
        (helper_sending [read_t.data (header_bytes 2 1), read_t.data (counting 40)])
        (ComicViewer.blank NSFB_FMT_XRGB8888 4 4 16) ComicViewer.one_image 0 0).err =
          [message.seems_corrupted]) ∧
    ((WebtoonViewer.render_image
        (helper_sending [read_t.data (header_bytes 2 2), read_t.data (counting 16)])
        (WebtoonViewer.blank NSFB_FMT_XRGB8888 4 4 16) WebtoonViewer.one_image 0 0).err = [] ∧
      (WebtoonViewer.render_image
        (helper_sending [read_t.data (header_bytes 2 2)])
        (WebtoonViewer.blank NSFB_FMT_XRGB8888 4 4 16) WebtoonViewer.one_image 0 0).err = [] ∧
      (WebtoonViewer.render_image
        (helper_sending [read_t.data (header_bytes 2 2), read_t.data (counting 24)])
        (WebtoonViewer.blank NSFB_FMT_XRGB8888 4 4 16) WebtoonViewer.one_image 0 0).err =
          [message.seems_corrupted] ∧
      (WebtoonViewer.render_image
        (helper_sending [read_t.data (header_bytes 2 1), read_t.data (counting 40)])
        (WebtoonViewer.blank NSFB_FMT_XRGB8888 4 4 16) WebtoonViewer.one_image 0 0).err =
          [message.seems_corrupted]) := by
  decide

/-- C9, the code at the failing input.  After a valid header of a 2 x 2
image and one pixel, the next `read` returns -1 with an `errno` other than
`EINTR`: `render_image` returns true in both viewers, the height is recorded
and the pixel stays plotted. -/
theorem render_image_returns_true_after_a_read_error :
    ((ComicViewer.render_image
        (helper_sending [read_t.data (header_bytes 2 2), read_t.data (counting 8),
          read_t.error])
        (ComicViewer.blank NSFB_FMT_XRGB8888 4 4 16) ComicViewer.one_image 0 0).ok = true ∧
      (ComicViewer.render_image
        (helper_sending [read_t.data (header_bytes 2 2), read_t.data (counting 8),
          read_t.error])
        (ComicViewer.blank NSFB_FMT_XRGB8888 4 4 16) ComicViewer.one_image 0 0).c.heights = [2]) ∧
    ((WebtoonViewer.render_image
        (helper_sending [read_t.data (header_bytes 2 2), read_t.data (counting 8),
          read_t.error])
        (WebtoonViewer.blank NSFB_FMT_XRGB8888 4 4 16) WebtoonViewer.one_image 0 0).ok = true ∧
      (WebtoonViewer.render_image
        (helper_sending [read_t.data (header_bytes 2 2), read_t.data (counting 8),
          read_t.error])
        (WebtoonViewer.blank NSFB_FMT_XRGB8888 4 4 16) WebtoonViewer.one_image 0 0).c.heights
          = [2]) := by
  decide

/-! ## `render_image`: the header -/

theorem take_four_drop (l : List Nat) (k : Nat) (h : k + 4 ≤ l.length) :
    (l.drop k).take 4 = [l.getD k 0, l.getD (k + 1) 0, l.getD (k + 2) 0, l.getD (k + 3) 0] := by
  simp only [List.getD_eq_getElem?_getD, List.getElem?_eq_getElem, show k < l.length by omega,
    show k + 1 < l.length by omega, show k + 2 < l.length by omega,
    show k + 3 < l.length by omega, Option.getD_some]
  rw [List.drop_eq_getElem_cons (show k < l.length by omega),
    List.drop_eq_getElem_cons (show k + 1 < l.length by omega),
    List.drop_eq_getElem_cons (show k + 1 + 1 < l.length by omega),
    List.drop_eq_getElem_cons (show k + 1 + 1 + 1 < l.length by omega)]
  rfl

theorem ntohl_eq_big_endian (l : List Nat) (k : Nat) (h : k + 4 ≤ l.length) :
    ntohl (l.getD k 0) (l.getD (k + 1) 0) (l.getD (k + 2) 0) (l.getD (k + 3) 0) =
      big_endian ((l.drop k).take 4) := by
  rw [take_four_drop l k h]
  simp [big_endian, ntohl]

/-- What `read_header` accepts. -/
theorem read_header_ok_iff (h : helper_t) (width height : Nat) :
    read_header h = Except.ok (width, height) ↔
      (h.pipe_ok = true ∧ h.fork_ok = true ∧
        ∃ header, h.reads.headD (read_t.data []) = read_t.data header ∧ header.length = 16 ∧
          header.take 8 = FARBFELD_MAGIC ∧ width = big_endian ((header.drop 8).take 4) ∧
          height = big_endian ((header.drop 12).take 4)) := by
  unfold read_header
  by_cases hp : h.pipe_ok = true
  swap
  · simp [hp]
  by_cases hf : h.fork_ok = true
  swap
  · simp [hp, hf]
  simp only [hp, hf, not_true_eq_false, if_false, true_and]
  cases hr : h.reads.headD (read_t.data []) with
  | eintr => simp
  | error => simp
  | data header =>
    simp only [read_t.data.injEq, exists_eq_left']
    by_cases hl : header.length = 16
    swap
    · simp [hl]
    by_cases hm : header.take 8 = FARBFELD_MAGIC
    swap
    · simp [hl, hm]
    have e1 := ntohl_eq_big_endian header 8 (by omega)
    have e2 := ntohl_eq_big_endian header 12 (by omega)
    simp only [hl, hm, not_true_eq_false, if_false, true_and, Except.ok.injEq, Prod.mk.injEq,
      ne_eq]
    simp only [Nat.reduceAdd] at e1 e2
    rw [e1, e2]
    constructor
    · rintro ⟨a, b⟩; exact ⟨a.symm, b.symm⟩
    · rintro ⟨a, b⟩; exact ⟨a.symm, b.symm⟩

theorem comic_render_image_of_error (h : helper_t) (m : message) (hm : read_header h = Except.error m)
    (d : ComicViewer.display_t) (c : ComicViewer.content_t) (img : Nat) (offset : Int) :
    ComicViewer.render_image h d c img offset = ⟨false, d, c, [m]⟩ := by
  unfold ComicViewer.render_image
  rw [hm]

theorem comic_render_image_of_ok (h : helper_t) (width height : Nat)
    (hm : read_header h = Except.ok (width, height))
    (d : ComicViewer.display_t) (c : ComicViewer.content_t) (img : Nat) (offset : Int) :
    ComicViewer.render_image h d c img offset =
      ⟨true,
        { d with buf := (pixel_while (ComicViewer.view d offset) width height h.reads.tail
            ⟨0, 0, d.buf⟩).buf },
        { c with
          heights := c.heights.set img (to_int height)
          max_width := if to_uint32 c.max_width < width then to_int width else c.max_width },
        after_loop h (pixel_while (ComicViewer.view d offset) width height h.reads.tail
            ⟨0, 0, d.buf⟩) height⟩ := by
  unfold ComicViewer.render_image
  rw [hm]

theorem webtoon_render_image_of_error (h : helper_t) (m : message)
    (hm : read_header h = Except.error m)
    (d : WebtoonViewer.display_t) (c : WebtoonViewer.content_t) (img : Nat) (offset : Int) :
    WebtoonViewer.render_image h d c img offset = ⟨false, d, c, [m]⟩ := by
  unfold WebtoonViewer.render_image
  rw [hm]

theorem webtoon_render_image_of_ok (h : helper_t) (width height : Nat)
    (hm : read_header h = Except.ok (width, height))
    (d : WebtoonViewer.display_t) (c : WebtoonViewer.content_t) (img : Nat) (offset : Int) :
    WebtoonViewer.render_image h d c img offset =
      ⟨true,
        { d with buf := (pixel_while (WebtoonViewer.view d offset) width height h.reads.tail
            ⟨0, 0, d.buf⟩).buf },
        { c with heights := c.heights.set img (to_int height) },
        after_loop h (pixel_while (WebtoonViewer.view d offset) width height h.reads.tail
            ⟨0, 0, d.buf⟩) height⟩ := by
  unfold WebtoonViewer.render_image
  rw [hm]

theorem getD_set_self (l : List Int) (i : Nat) (a : Int) (h : i < l.length) :
    (l.set i a).getD i 0 = a := by
  simp [List.getD_eq_getElem?_getD, List.getElem?_set_self, h]

theorem tdiv_in_range (a n w : Int) (hn : 0 < n) (h0 : 0 ≤ Int.tdiv a n)
    (h1 : Int.tdiv a n < w) : -n < a ∧ a < w * n := by
  constructor
  · by_cases ha : 0 ≤ a
    · omega
    · have h2 : Int.tdiv (-a) n = -Int.tdiv a n := Int.neg_tdiv a n
      have h3 : 0 ≤ Int.tdiv (-a) n := Int.tdiv_nonneg (by omega) (le_of_lt hn)
      have h4 := Int.lt_tdiv_add_one_mul_self (-a) hn
      have h5 : Int.tdiv (-a) n = 0 := by omega
      rw [h5] at h4
      omega
  · have h4 := Int.lt_tdiv_add_one_mul_self a hn
    have h5 : (Int.tdiv a n + 1) * n ≤ w * n := by
      apply mul_le_mul_of_nonneg_right _ (le_of_lt hn)
      omega
    omega

/-- The exact value of `a + b / f` lies strictly between -1 and `w` when its
conversion to `int` lies in `[0, w)`. -/
theorem exact_in_range (f : ComicViewer.float_t) (a b w : Int) (hd : 0 < f.den)
    (hn : 0 < f.num) (h0 : 0 ≤ f.add_div a b) (h1 : f.add_div a b < w) :
    (-1 : ℚ) < (b : ℚ) / f.value + (a : ℚ) ∧ (b : ℚ) / f.value + (a : ℚ) < (w : ℚ) := by
  unfold ComicViewer.float_t.add_div at h0 h1
  obtain ⟨l, u⟩ := tdiv_in_range _ _ w (by exact_mod_cast hn) h0 h1
  have hn1 : (0 : ℚ) < (f.num : ℚ) := by exact_mod_cast hn
  have hd1 : (0 : ℚ) < (f.den : ℚ) := by exact_mod_cast hd
  have e : (b : ℚ) / f.value + (a : ℚ) =
      ((a * (f.num : Int) + b * (f.den : Int) : Int) : ℚ) / (f.num : ℚ) := by
    unfold ComicViewer.float_t.value
    push_cast
    field_simp
    ring
  have l1 : ((-(f.num : Int) : Int) : ℚ) < ((a * (f.num : Int) + b * (f.den : Int) : Int) : ℚ) := by
    exact_mod_cast l
  have u1 : ((a * (f.num : Int) + b * (f.den : Int) : Int) : ℚ) < ((w * (f.num : Int) : Int) : ℚ) := by
    exact_mod_cast u
  rw [e, lt_div_iff₀ hn1, div_lt_iff₀ hn1]
  push_cast at l1 u1 ⊢
  constructor <;> linarith

/-- In a read of pixels of one colour, every iteration of the `for` loop does
what it does for a read buffer holding one such pixel. -/
theorem pixel_body_solid (v : view_t) (width height blue green red : Nat) (bytes : List Nat)
    (i : Nat) (st : cursor_t)
    (h : bytes.getD (8 * i + 0) 0 = blue ∧ bytes.getD (8 * i + 2) 0 = green ∧
      bytes.getD (8 * i + 4) 0 = red) :
    pixel_body v width height bytes i st =
      pixel_body v width height (one_pixel blue green red) 0 st := by
  unfold pixel_body
  obtain ⟨h1, h2, h3⟩ := h
  simp only [h1, h2, h3, one_pixel, Nat.mul_zero, Nat.zero_add, List.getD_cons_zero,
    List.getD_cons_succ]

theorem foldl_range_eq_iterate {α : Type} (f : α → Nat → α) (g : α → α) (n : Nat)
    (h : ∀ a i, i < n → f a i = g a) (a : α) :
    (List.range n).foldl f a = g^[n] a := by
  induction n with
  | zero => rfl
  | succ n ih =>
    rw [foldl_range_succ, Function.iterate_succ_apply', h _ n (Nat.lt_succ_self n),
      ih (fun a i hi => h a i (Nat.lt_succ_of_lt hi))]

theorem pixel_while_solid (v : view_t) (width height blue green red : Nat) :
    ∀ (reads : List read_t) (st : cursor_t), (∀ r ∈ reads, solid_read blue green red r) →
      pixel_while v width height reads st =
        (pixel_body v width height (one_pixel blue green red) 0)^[pixels_sent reads] st := by
  intro reads
  induction reads with
  | nil => intro st _; rfl
  | cons r rest ih =>
    intro st h
    have hrest : ∀ r ∈ rest, solid_read blue green red r :=
      fun r hr => h r (List.mem_cons_of_mem _ hr)
    have hr := h r (List.mem_cons_self _ _)
    cases r with
    | eintr => simp only [pixel_while, pixels_sent]; exact ih st hrest
    | error => exact absurd hr (by simp [solid_read])
    | data bytes =>
      obtain ⟨h0, _, _, hc⟩ := hr
      simp only [pixel_while, pixels_sent, h0, if_false]
      rw [ih _ hrest, Nat.add_comm, Function.iterate_add_apply]
      congr 1
      unfold pixel_for
      exact foldl_range_eq_iterate _ _ _
        (fun a i hi => pixel_body_solid v width height blue green red bytes i a (hc i hi)) st

theorem plot_writes_buf (format : nsfb_format_e) (h32 : is_32bit format) (buf : Int → Nat)
    (stride dx dy : Int) (blue green red : Nat) (a : Int) :
    ((plot_writes format stride dx dy blue green red).foldl store buf) a =
      if a = dx * 4 + dy * stride + 2 then channel format blue green red 2
      else if a = dx * 4 + dy * stride + 1 then channel format blue green red 1
      else if a = dx * 4 + dy * stride + 0 then channel format blue green red 0
      else buf a := by
  rcases h32 with h | h | h | h <;> subst h <;> simp [plot_writes, store, channel]

theorem plot_hits (format : nsfb_format_e) (h32 : is_32bit format) (buf : Int → Nat)
    (stride dx dy : Int) (blue green red : Nat) (k : Nat) (hk : k < 3) :
    ((plot_writes format stride dx dy blue green red).foldl store buf)
      (dx * 4 + dy * stride + (k : Int)) = channel format blue green red k := by
  rw [plot_writes_buf format h32]
  have : k = 0 ∨ k = 1 ∨ k = 2 := by omega
  rcases this with h | h | h <;> subst h <;> simp

theorem plot_misses (format : nsfb_format_e) (h32 : is_32bit format) (buf : Int → Nat)
    (stride dx dy : Int) (blue green red : Nat) (a : Int)
    (h : ∀ k : Nat, k < 3 → a ≠ dx * 4 + dy * stride + (k : Int)) :
    ((plot_writes format stride dx dy blue green red).foldl store buf) a = buf a := by
  rw [plot_writes_buf format h32]
  have h0 := h 0 (by decide)
  have h1 := h 1 (by decide)
  have h2 := h 2 (by decide)
  simp only [Nat.cast_zero, Nat.cast_one, Nat.cast_ofNat] at h0 h1 h2
  rw [if_neg h2, if_neg h1, if_neg h0]

/-- Two colour bytes of pixels inside a row of the viewport that share a buffer
offset are the same byte of the pixel, when the stride covers the row. -/
theorem offset_channel_unique (width stride dx1 dy1 dx2 dy2 : Int) (k1 k2 : Nat)
    (hs : 4 * width ≤ stride) (a1 : 0 ≤ dx1) (b1 : dx1 < width) (a2 : 0 ≤ dx2) (b2 : dx2 < width)
    (hk1 : k1 < 3) (hk2 : k2 < 3)
    (e : dx1 * 4 + dy1 * stride + (k1 : Int) = dx2 * 4 + dy2 * stride + (k2 : Int)) :
    k1 = k2 := by
  have hy : dy1 = dy2 := by
    rcases lt_trichotomy dy1 dy2 with h | h | h
    · exfalso
      have : (dy2 - dy1 - 1) * stride ≥ 0 := mul_nonneg (by omega) (by omega)
      nlinarith
    · exact h
    · exfalso
      have : (dy1 - dy2 - 1) * stride ≥ 0 := mul_nonneg (by omega) (by omega)
      nlinarith
  subst hy
  omega

theorem index_unique (w x y x1 y1 : Nat) (hx : x < w) (hx1 : x1 < w)
    (e : y1 * w + x1 = y * w + x) : x1 = x ∧ y1 = y := by
  have hy : y1 = y := by
    rcases lt_trichotomy y1 y with h | h | h
    · exfalso
      have : (y1 + 1) * w ≤ y * w := Nat.mul_le_mul_right w h
      rw [Nat.succ_mul] at this
      omega
    · exact h
    · exfalso
      have : (y + 1) * w ≤ y1 * w := Nat.mul_le_mul_right w h
      rw [Nat.succ_mul] at this
      omega
  subst hy
  exact ⟨by omega, rfl⟩

theorem painting_step (v : view_t) (width height blue green red : Nat) (before : Int → Nat)
    (h32 : is_32bit v.format) (hs : 4 * v.width ≤ v.stride) (n : Nat) (st : cursor_t)
    (inv : painting v width height blue green red before n st) :
    painting v width height blue green red before (n + 1)
      (pixel_body v width height (one_pixel blue green red) 0 st) := by
  obtain ⟨hn, hx, p1, p2⟩ := inv
  have hbuf : (pixel_body v width height (one_pixel blue green red) 0 st).buf =
      if plotted v height st.x st.y then
        (plot_writes v.format v.stride (v.display_x st.x) (v.display_y st.y)
          blue green red).foldl store st.buf
      else st.buf := by
    unfold pixel_body
    simp only [one_pixel, Nat.mul_zero, Nat.zero_add, List.getD_cons_zero, List.getD_cons_succ]
    split_ifs <;> rfl
  have hxy : (pixel_body v width height (one_pixel blue green red) 0 st).y * width +
      (pixel_body v width height (one_pixel blue green red) 0 st).x = n + 1 ∧
      (pixel_body v width height (one_pixel blue green red) 0 st).x < width := by
    unfold pixel_body
    simp only
    by_cases hw : st.x + 1 ≥ width
    · rw [if_pos hw]
      simp only [Nat.succ_mul, Nat.add_zero]
      omega
    · rw [if_neg hw]
      simp only
      omega
  refine ⟨hxy.1, hxy.2, ?_, ?_⟩
  · intro x y k hxw hidx hk hpl
    rw [hbuf]
    by_cases hcur : y * width + x < n
    · have old := p1 x y k hxw hcur hk hpl
      by_cases hp : plotted v height st.x st.y
      · rw [if_pos hp]
        by_cases hit : ∃ k2 : Nat, k2 < 3 ∧
            v.display_x x * 4 + v.display_y y * v.stride + (k : Int) =
              v.display_x st.x * 4 + v.display_y st.y * v.stride + (k2 : Int)
        · obtain ⟨k2, hk2, e⟩ := hit
          have ek := offset_channel_unique v.width v.stride _ _ _ _ k k2 hs hpl.2.1 hpl.2.2.1
            hp.2.1 hp.2.2.1 hk hk2 e
          subst ek
          rw [e]
          exact plot_hits v.format h32 _ _ _ _ _ _ _ k hk
        · push_neg at hit
          rw [plot_misses v.format h32 _ _ _ _ _ _ _ _ (fun k2 hk2 => hit k2 hk2)]
          exact old
      · rw [if_neg hp]
        exact old
    · have e : y * width + x = st.y * width + st.x := by omega
      obtain ⟨ex, ey⟩ := index_unique width st.x st.y x y hx hxw e
      rw [ex, ey] at hpl ⊢
      rw [if_pos hpl]
      exact plot_hits v.format h32 _ _ _ _ _ _ _ k hk
  · intro a ha
    rw [hbuf]
    have old : st.buf a = before a :=
      p2 a (fun x y k hxw hidx hk hpl => ha x y k hxw (by omega) hk hpl)
    by_cases hp : plotted v height st.x st.y
    · rw [if_pos hp, plot_misses v.format h32 _ _ _ _ _ _ _ _
        (fun k hk => ha st.x st.y k hx (by omega) hk hp)]
      exact old
    · rw [if_neg hp]
      exact old

theorem painting_iterate (v : view_t) (width height blue green red : Nat) (before : Int → Nat)
    (h32 : is_32bit v.format) (hs : 4 * v.width ≤ v.stride) (hw : 1 ≤ width) (n : Nat) :
    painting v width height blue green red before n
      ((pixel_body v width height (one_pixel blue green red) 0)^[n] ⟨0, 0, before⟩) := by
  induction n with
  | zero =>
    refine ⟨by simp, hw, ?_, ?_⟩
    · intro x y k _ h; omega
    · intro a _; rfl
  | succ n ih =>
    rw [Function.iterate_succ_apply']
    exact painting_step v width height blue green red before h32 hs n _ ih

/-- The pixel loop, fed with `width * height` pixels of one colour in reads of
whole pixels, paints the picture into a 32-bit surface. -/
theorem pixel_while_painted (v : view_t) (width height blue green red : Nat)
    (before : Int → Nat) (reads : List read_t) (h32 : is_32bit v.format)
    (hs : 4 * v.width ≤ v.stride) (hw : 1 ≤ width)
    (hsolid : ∀ r ∈ reads, solid_read blue green red r)
    (hsent : pixels_sent reads = width * height) :
    painted v width height blue green red before
      (pixel_while v width height reads ⟨0, 0, before⟩).buf := by
  rw [pixel_while_solid v width height blue green red reads _ hsolid, hsent]
  obtain ⟨_, _, p1, p2⟩ :=
    painting_iterate v width height blue green red before h32 hs hw (width * height)
  constructor
  · intro x y k hx hy hk x0 x1 y0 y1
    refine p1 x y k hx ?_ hk ⟨hy, x0, x1, y0, y1⟩
    have : (y + 1) * width ≤ height * width := Nat.mul_le_mul_right width hy
    rw [Nat.succ_mul] at this
    rw [Nat.mul_comm width height]
    omega
  · intro a ha
    exact p2 a (fun x y k hx _ hk hp => ha x y k hx hp.1 hk hp.2.1 hp.2.2.1 hp.2.2.2.1 hp.2.2.2.2)

theorem comic_render_body_of_not_handed_over (run : Nat → helper_t) (i : Nat)
    (p : ComicViewer.pass_t) (h : ¬ ComicViewer.handed_over p i) :
    ComicViewer.render_body run i p =
      { p with start_height := p.d.scale_factor.add_div p.start_height (p.c.heights.getD i 0) } := by
  unfold ComicViewer.handed_over at h
  unfold ComicViewer.render_body
  simp only [h, if_false]

theorem webtoon_render_body_of_not_handed_over (run : Nat → helper_t) (i : Nat)
    (p : WebtoonViewer.pass_t) (h : ¬ WebtoonViewer.handed_over p i) :
    WebtoonViewer.render_body run i p =
      { p with start_height := p.start_height + p.c.heights.getD i 0 } := by
  unfold WebtoonViewer.handed_over at h
  unfold WebtoonViewer.render_body
  simp only [h, if_false]

/-- C11 as stated fails.  Two images that both declare 100 x 300, in a
200 x 150 window at `offset_y = 0`: the first pass decodes image 0 only; image 1
keeps the height 0, and the total height of the pass is 300 in both viewers,
not 300 plus the fallback height. -/
theorem undecoded_image_adds_nothing_to_total_height :
    ¬ ComicViewer.handed_over
        (ComicViewer.render_loop (fun _ => ComicViewer.header_only)
          ⟨ComicViewer.blank NSFB_FMT_XRGB8888 200 150 800, ⟨2, [0, 0], 0⟩, [], 0⟩ 1) 1 ∧
    (ComicViewer.render_loop (fun _ => ComicViewer.header_only)
      ⟨ComicViewer.blank NSFB_FMT_XRGB8888 200 150 800, ⟨2, [0, 0], 0⟩, [], 0⟩ 2).c.heights
        = [300, 0] ∧
    (ComicViewer.render_loop (fun _ => ComicViewer.header_only)
      ⟨ComicViewer.blank NSFB_FMT_XRGB8888 200 150 800, ⟨2, [0, 0], 0⟩, [], 0⟩ 2).start_height
        = 300 ∧
    ¬ WebtoonViewer.handed_over
        (WebtoonViewer.render_loop (fun _ => ComicViewer.header_only)
          ⟨WebtoonViewer.blank NSFB_FMT_XRGB8888 200 150 800, ⟨2, [0, 0]⟩, [], 0⟩ 1) 1 ∧
    (WebtoonViewer.render_loop (fun _ => ComicViewer.header_only)
      ⟨WebtoonViewer.blank NSFB_FMT_XRGB8888 200 150 800, ⟨2, [0, 0]⟩, [], 0⟩ 2).c.heights
        = [300, 0] ∧
    (WebtoonViewer.render_loop (fun _ => ComicViewer.header_only)
      ⟨WebtoonViewer.blank NSFB_FMT_XRGB8888 200 150 800, ⟨2, [0, 0]⟩, [], 0⟩ 2).start_height
        = 300 := by
  decide

/-- C11 as amended.  In the layout loop of `render`, in both viewers, an
image whose height is still unresolved (`heights[i] = 0`) and that is not handed
to `render_image` in the current pass contributes 0 to `start_height`, so to the
cumulative offset of the images after it and to the total height of the pass:
the iteration changes nothing at all.  (The fallback height is stored only
after a failed `render_image`, see C10.) -/
theorem undecoded_image_contributes_zero (run : Nat → helper_t) (i : Nat) :
    (∀ p : ComicViewer.pass_t, 0 < p.d.scale_factor.num → p.c.heights.getD i 0 = 0 →
      ¬ ComicViewer.handed_over p i → ComicViewer.render_body run i p = p) ∧
    (∀ p : WebtoonViewer.pass_t, p.c.heights.getD i 0 = 0 →
      ¬ WebtoonViewer.handed_over p i → WebtoonViewer.render_body run i p = p) := by
  constructor
  · intro p hn h0 hv
    rw [comic_render_body_of_not_handed_over run i p hv, h0]
    have e : p.d.scale_factor.add_div p.start_height 0 = p.start_height := by
      unfold ComicViewer.float_t.add_div
      rw [zero_mul, add_zero]
      exact Int.mul_tdiv_cancel _ (by exact_mod_cast (Nat.pos_iff_ne_zero.mp hn))
    rw [e]
  · intro p h0 hv
    rw [webtoon_render_body_of_not_handed_over run i p hv, h0, add_zero]

/-- Witness of C11 as amended: the second of two images, not yet decoded, after
the first one (100 x 300) was decoded in a 200 x 150 window. -/
theorem undecoded_image_contributes_zero_witness :
    (ComicViewer.render_body (fun _ => ComicViewer.header_only) 1
        (ComicViewer.render_loop (fun _ => ComicViewer.header_only)
          ⟨ComicViewer.blank NSFB_FMT_XRGB8888 200 150 800, ⟨2, [0, 0], 0⟩, [], 0⟩ 1)).start_height
      = 300 ∧
    (WebtoonViewer.render_body (fun _ => ComicViewer.header_only) 1
        (WebtoonViewer.render_loop (fun _ => ComicViewer.header_only)
          ⟨WebtoonViewer.blank NSFB_FMT_XRGB8888 200 150 800, ⟨2, [0, 0]⟩, [], 0⟩ 1)).start_height
      = 300 :=
  ⟨by
      rw [(undecoded_image_contributes_zero (fun _ => ComicViewer.header_only) 1).1 _
        (by decide) (by decide) (by decide)]
      decide,
    by
      rw [(undecoded_image_contributes_zero (fun _ => ComicViewer.header_only) 1).2 _
        (by decide) (by decide)]
      decide⟩

theorem comic_mem_render_calls (run : Nat → helper_t) (p0 : ComicViewer.pass_t) (n i : Nat) :
    i ∈ ComicViewer.render_calls run p0 n ↔
      i < n ∧ ComicViewer.handed_over (ComicViewer.render_loop run p0 i) i := by
  induction n with
  | zero => simp [ComicViewer.render_calls]
  | succ n ih =>
    rw [ComicViewer.render_calls, List.mem_append, ih]
    by_cases hn : ComicViewer.handed_over (ComicViewer.render_loop run p0 n) n
    · rw [if_pos hn, List.mem_singleton]
      constructor
      · rintro (⟨a, b⟩ | rfl)
        · exact ⟨Nat.lt_succ_of_lt a, b⟩
        · exact ⟨Nat.lt_succ_self _, hn⟩
      · rintro ⟨a, b⟩
        rcases Nat.lt_succ_iff_lt_or_eq.mp a with h | h
        · exact Or.inl ⟨h, b⟩
        · exact Or.inr h
    · rw [if_neg hn]
      constructor
      · rintro (⟨a, b⟩ | h)
        · exact ⟨Nat.lt_succ_of_lt a, b⟩
        · exact absurd h (List.not_mem_nil _)
      · rintro ⟨a, b⟩
        rcases Nat.lt_succ_iff_lt_or_eq.mp a with h | h
        · exact Or.inl ⟨h, b⟩
        · subst h; exact absurd b hn

theorem comic_render_calls_increasing (run : Nat → helper_t) (p0 : ComicViewer.pass_t)
    (n : Nat) : (ComicViewer.render_calls run p0 n).Pairwise (fun a b => a < b) := by
  induction n with
  | zero => simp [ComicViewer.render_calls]
  | succ n ih =>
    rw [ComicViewer.render_calls, List.pairwise_append]
    refine ⟨ih, ?_, ?_⟩
    · split_ifs <;> simp
    · intro a ha b hb
      have ha1 := ((comic_mem_render_calls run p0 n a).mp ha).1
      split_ifs at hb
      · rw [List.mem_singleton] at hb; omega
      · exact absurd hb (List.not_mem_nil _)

theorem webtoon_mem_render_calls (run : Nat → helper_t) (p0 : WebtoonViewer.pass_t) (n i : Nat) :
    i ∈ WebtoonViewer.render_calls run p0 n ↔
      i < n ∧ WebtoonViewer.handed_over (WebtoonViewer.render_loop run p0 i) i := by
  induction n with
  | zero => simp [WebtoonViewer.render_calls]
  | succ n ih =>
    rw [WebtoonViewer.render_calls, List.mem_append, ih]
    by_cases hn : WebtoonViewer.handed_over (WebtoonViewer.render_loop run p0 n) n
    · rw [if_pos hn, List.mem_singleton]
      constructor
      · rintro (⟨a, b⟩ | rfl)
        · exact ⟨Nat.lt_succ_of_lt a, b⟩
        · exact ⟨Nat.lt_succ_self _, hn⟩
      · rintro ⟨a, b⟩
        rcases Nat.lt_succ_iff_lt_or_eq.mp a with h | h
        · exact Or.inl ⟨h, b⟩
        · exact Or.inr h
    · rw [if_neg hn]
      constructor
      · rintro (⟨a, b⟩ | h)
        · exact ⟨Nat.lt_succ_of_lt a, b⟩
        · exact absurd h (List.not_mem_nil _)
      · rintro ⟨a, b⟩
        rcases Nat.lt_succ_iff_lt_or_eq.mp a with h | h
        · exact Or.inl ⟨h, b⟩
        · subst h; exact absurd b hn

theorem webtoon_render_calls_increasing (run : Nat → helper_t) (p0 : WebtoonViewer.pass_t)
    (n : Nat) : (WebtoonViewer.render_calls run p0 n).Pairwise (fun a b => a < b) := by
  induction n with
  | zero => simp [WebtoonViewer.render_calls]
  | succ n ih =>
    rw [WebtoonViewer.render_calls, List.pairwise_append]
    refine ⟨ih, ?_, ?_⟩
    · split_ifs <;> simp
    · intro a ha b hb
      have ha1 := ((webtoon_mem_render_calls run p0 n a).mp ha).1
      split_ifs at hb
      · rw [List.mem_singleton] at hb; omega
      · exact absurd hb (List.not_mem_nil _)

/-- The test of comic-viewer's layout loop, in exact arithmetic. -/
theorem comic_handed_over_iff (p : ComicViewer.pass_t) (i : Nat)
    (hn : 0 < p.d.scale_factor.num) (hd : 0 < p.d.scale_factor.den) :
    ComicViewer.handed_over p i ↔
      ((p.start_height : ℚ) + ((p.c.heights.getD i 0 : Int) : ℚ) / p.d.scale_factor.value ≥
          (p.d.offset_y : ℚ) ∧
        (p.start_height : ℚ) < (p.d.offset_y : ℚ) + (p.d.height : ℚ)) := by
  unfold ComicViewer.handed_over ComicViewer.float_t.add_div_ge ComicViewer.float_t.value
  have hn1 : (0 : ℚ) < (p.d.scale_factor.num : ℚ) := by exact_mod_cast hn
  have hd1 : (0 : ℚ) < (p.d.scale_factor.den : ℚ) := by exact_mod_cast hd
  have e : (p.start_height : ℚ) + ((p.c.heights.getD i 0 : Int) : ℚ) /
        ((p.d.scale_factor.num : ℚ) / (p.d.scale_factor.den : ℚ)) =
      ((p.start_height * (p.d.scale_factor.num : Int) +
        p.c.heights.getD i 0 * (p.d.scale_factor.den : Int) : Int) : ℚ) /
          (p.d.scale_factor.num : ℚ) := by
    push_cast
    field_simp
  rw [e, ge_iff_le, ge_iff_le, le_div_iff₀ hn1]
  constructor
  · rintro ⟨a, b⟩
    refine ⟨?_, ?_⟩
    · have : ((p.d.offset_y * (p.d.scale_factor.num : Int) : Int) : ℚ) ≤
          ((p.start_height * (p.d.scale_factor.num : Int) +
            p.c.heights.getD i 0 * (p.d.scale_factor.den : Int) : Int) : ℚ) := by
        exact_mod_cast a
      push_cast at this ⊢
      linarith
    · have : ((p.start_height - p.d.height : Int) : ℚ) < ((p.d.offset_y : Int) : ℚ) := by
        exact_mod_cast b
      push_cast at this
      linarith
  · rintro ⟨a, b⟩
    refine ⟨?_, ?_⟩
    · have : ((p.d.offset_y * (p.d.scale_factor.num : Int) : Int) : ℚ) ≤
          ((p.start_height * (p.d.scale_factor.num : Int) +
            p.c.heights.getD i 0 * (p.d.scale_factor.den : Int) : Int) : ℚ) := by
        push_cast at a ⊢
        linarith
      exact_mod_cast this
    · have : ((p.start_height - p.d.height : Int) : ℚ) < ((p.d.offset_y : Int) : ℚ) := by
        push_cast
        linarith
      exact_mod_cast this

set_option maxRecDepth 100000

theorem foldl_range_getD (f : Int → Int → Int) :
    ∀ (l : List Int) (b : Int),
      (List.range l.length).foldl (fun a i => f a (l.getD i 0)) b = l.foldl f b := by
  intro l
  induction l with
  | nil => intro b; rfl
  | cons x t ih =>
    intro b
    rw [List.length_cons, List.range_succ_eq_map, List.foldl_cons, List.foldl_map]
    simp only [List.getD_cons_zero, Nat.succ_eq_add_one, List.getD_cons_succ, List.foldl_cons]
    exact ih (f b x)

/-- A fraction whose value is an integer below `2^p` is a value of the format:
rounding leaves it as it is. -/
theorem round_exact (p : Nat) (emin : Int) (n d k : Nat) (hd : 0 < d)
    (hk : (n : ℚ) / (d : ℚ) = (k : ℚ)) (hk2 : k < 2 ^ p) (he : emin ≤ 0) :
    (ComicViewer.float_t.round p emin n d).value = (k : ℚ) := by
  have hd0 : (0 : ℚ) < (d : ℚ) := by exact_mod_cast hd
  by_cases h0 : n = 0
  · subst h0
    rw [round_zero p emin d hd]
    simp only [Nat.cast_zero, zero_div] at hk
    exact hk
  have hn0 : 0 < n := by omega
  obtain ⟨_, hv, hm⟩ := round_spec p emin n d hd
  obtain ⟨lo, _⟩ := ilog2_spec n d hn0 hd
  have hq : ComicViewer.float_t.quantum p emin n d ≤ 0 := by
    have h1 : (2 : ℚ) ^ (ComicViewer.ilog2 n d) < (2 : ℚ) ^ ((p : Nat) : Int) := by
      rw [zpow_natCast]
      have : ((k : Nat) : ℚ) < (2 : ℚ) ^ p := by exact_mod_cast hk2
      rw [hk] at lo
      linarith
    have h2 := (zpow_lt_zpow_iff_right₀ (by norm_num : (1 : ℚ) < 2)).mp h1
    unfold ComicViewer.float_t.quantum
    exact max_le (by omega) he
  obtain ⟨ek, kpos⟩ := zpow_nonpos_eq _ hq
  have kp : (0 : ℚ) < ((2 ^ (-(ComicViewer.float_t.quantum p emin n d)).toNat : Nat) : ℚ) := by
    exact_mod_cast kpos
  rw [ek, hk] at hm
  rw [ek] at hv
  have e : ((k : Nat) : ℚ) /
      (1 / ((2 ^ (-(ComicViewer.float_t.quantum p emin n d)).toNat : Nat) : ℚ)) =
      (((k * 2 ^ (-(ComicViewer.float_t.quantum p emin n d)).toNat : Nat) : Int) : ℚ) := by
    push_cast
    field_simp
  rw [e] at hm
  have hm2 : |(((k * 2 ^ (-(ComicViewer.float_t.quantum p emin n d)).toNat : Nat) : Int) : ℚ) -
      (((ComicViewer.float_t.significand p emin n d : Nat) : Int) : ℚ)| ≤ 1 / 2 := by
    exact_mod_cast hm
  have h := int_of_near _ _ hm2
  have h3 : ComicViewer.float_t.significand p emin n d =
      k * 2 ^ (-(ComicViewer.float_t.quantum p emin n d)).toNat := by
    exact_mod_cast h.symm
  rw [hv, h3]
  push_cast
  field_simp

/-- One step `start_height += heights[i] / scale_factor` of the layout loop as
the program computes it in binary32, for a scale factor of at least 1 and
values below `2^24` with `a + b / s <= 2^19`: the new value is the integer part
of a sum that is within `1/8` of `a + b / s`. -/
theorem add_div_binary32_bounds (s : ComicViewer.float_t) (a b : Int) (hd : 0 < s.den)
    (hs : s.den ≤ s.num) (ha : 0 ≤ a) (hb : 0 ≤ b) (ha2 : a < 2 ^ 24) (hb2 : b < 2 ^ 24)
    (hsum : (a : ℚ) + (b : ℚ) / s.value ≤ 524288) :
    0 ≤ s.add_div_binary32 a b ∧
      ((s.add_div_binary32 a b : Int) : ℚ) ≤ (a : ℚ) + (b : ℚ) / s.value + 1 / 8 ∧
      (a : ℚ) + (b : ℚ) / s.value - 9 / 8 < ((s.add_div_binary32 a b : Int) : ℚ) := by
  have hsn : 0 < s.num := lt_of_lt_of_le hd hs
  have sd0 : (0 : ℚ) < (s.den : ℚ) := by exact_mod_cast hd
  have sn0 : (0 : ℚ) < (s.num : ℚ) := by exact_mod_cast hsn
  have a0 : (0 : ℚ) ≤ (a : ℚ) := by exact_mod_cast ha
  have b0 : (0 : ℚ) ≤ (b : ℚ) := by exact_mod_cast hb
  have bs0 : (0 : ℚ) ≤ (b : ℚ) / s.value := by
    unfold ComicViewer.float_t.value
    positivity
  unfold ComicViewer.float_t.add_div_binary32
  simp only
  -- the conversions of `b` and `a`
  obtain ⟨x1, x2, x3⟩ := round_signed_value 24 (-149) b 1 hb
  obtain ⟨y1, y2, y3⟩ := round_signed_value 24 (-149) a 1 ha
  rw [x1, x2, y1, y2]
  have hbn : b.natAbs < 2 ^ 24 := by
    have : ((b.natAbs : Nat) : Int) < 2 ^ 24 := by rw [Int.natAbs_of_nonneg hb]; exact hb2
    exact_mod_cast this
  have han : a.natAbs < 2 ^ 24 := by
    have : ((a.natAbs : Nat) : Int) < 2 ^ 24 := by rw [Int.natAbs_of_nonneg ha]; exact ha2
    exact_mod_cast this
  have hB := round_of_int 24 (-149) b.natAbs hbn (by decide)
  have hBd := (round_spec 24 (-149) b.natAbs 1 Nat.one_pos).1
  have hA := round_of_int 24 (-149) a.natAbs han (by decide)
  have hAd := (round_spec 24 (-149) a.natAbs 1 Nat.one_pos).1
  rw [x3] at hB
  rw [y3] at hA
  generalize ComicViewer.float_t.round 24 (-149) b.natAbs 1 = B at hB hBd ⊢
  generalize ComicViewer.float_t.round 24 (-149) a.natAbs 1 = A at hA hAd ⊢
  have Ad0 : (0 : ℚ) < (A.den : ℚ) := by exact_mod_cast hAd
  have Bd0 : (0 : ℚ) < (B.den : ℚ) := by exact_mod_cast hBd
  -- the quotient
  have hn1 : (0 : Int) ≤ (B.num : Int) * (s.den : Int) := by positivity
  obtain ⟨q1, q2, q3⟩ := round_signed_value 24 (-149) ((B.num : Int) * (s.den : Int))
    (B.den * s.num) hn1
  rw [q1, q2]
  have hd1 : 0 < B.den * s.num := Nat.mul_pos hBd hsn
  have qd := (round_spec 24 (-149) ((B.num : Int) * (s.den : Int)).natAbs (B.den * s.num) hd1).1
  have qe := round_error 24 (-149) ((B.num : Int) * (s.den : Int)).natAbs (B.den * s.num) hd1
  rw [q3] at qe
  have ey : ((((B.num : Int) * (s.den : Int) : Int)) : ℚ) / ((B.den * s.num : Nat) : ℚ) =
      (b : ℚ) / s.value := by
    rw [← hB]
    unfold ComicViewer.float_t.value
    push_cast
    field_simp
  rw [ey] at qe
  generalize ComicViewer.float_t.round 24 (-149) ((B.num : Int) * (s.den : Int)).natAbs
    (B.den * s.num) = Q at qd qe ⊢
  have Qd0 : (0 : ℚ) < (Q.den : ℚ) := by exact_mod_cast qd
  -- the sum
  have hn2 : (0 : Int) ≤ (A.num : Int) * (Q.den : Int) + (Q.num : Int) * (A.den : Int) := by
    positivity
  obtain ⟨z1, z2, z3⟩ := round_signed_value 24 (-149)
    ((A.num : Int) * (Q.den : Int) + (Q.num : Int) * (A.den : Int)) (A.den * Q.den) hn2
  rw [z1, z2]
  have hd2 : 0 < A.den * Q.den := Nat.mul_pos hAd qd
  have zd := (round_spec 24 (-149)
    ((A.num : Int) * (Q.den : Int) + (Q.num : Int) * (A.den : Int)).natAbs (A.den * Q.den) hd2).1
  have ze := round_error 24 (-149)
    ((A.num : Int) * (Q.den : Int) + (Q.num : Int) * (A.den : Int)).natAbs (A.den * Q.den) hd2
  rw [z3] at ze
  have ez : ((((A.num : Int) * (Q.den : Int) + (Q.num : Int) * (A.den : Int) : Int)) : ℚ) /
      ((A.den * Q.den : Nat) : ℚ) = (a : ℚ) + Q.value := by
    rw [← hA]
    unfold ComicViewer.float_t.value
    push_cast
    field_simp
  rw [ez] at ze
  generalize ComicViewer.float_t.round 24 (-149)
    ((A.num : Int) * (Q.den : Int) + (Q.num : Int) * (A.den : Int)).natAbs (A.den * Q.den) = Z
    at zd ze ⊢
  obtain ⟨f1, f2, f3⟩ := tdiv_floor (Z.num : Int) Z.den (by positivity) zd
  rw [Int.cast_natCast] at f1 f2
  have t1 := tiny_le (-149 - 1) (by norm_num)
  have u1 : (2 : ℚ) ^ (-((24 : Nat) : Int)) = 1 / 16777216 := by norm_num
  rw [u1, abs_le] at qe ze
  have zv : Z.value = (Z.num : ℚ) / (Z.den : ℚ) := rfl
  have hq1 : Q.value ≤ (b : ℚ) / s.value + (b : ℚ) / s.value * (1 / 16777216) +
      1 / 9007199254740992 := by linarith [qe.1]
  have hq2 : (b : ℚ) / s.value - (b : ℚ) / s.value * (1 / 16777216) -
      1 / 9007199254740992 ≤ Q.value := by linarith [qe.2]
  have hz1 : Z.value ≤ (a : ℚ) + Q.value + ((a : ℚ) + Q.value) * (1 / 16777216) +
      1 / 9007199254740992 := by linarith [ze.1]
  have hz2 : (a : ℚ) + Q.value - ((a : ℚ) + Q.value) * (1 / 16777216) -
      1 / 9007199254740992 ≤ Z.value := by linarith [ze.2]
  refine ⟨f3, ?_, ?_⟩
  · linarith
  · linarith

/-- At scale 1 the step is exact as long as the sum is below `2^24`. -/
theorem add_div_binary32_one (s : ComicViewer.float_t) (a b : Int) (hd : 0 < s.den)
    (hs : s.num = s.den) (ha : 0 ≤ a) (hb : 0 ≤ b) (hab : a + b < 2 ^ 24) :
    s.add_div_binary32 a b = a + b := by
  have hsn : 0 < s.num := by omega
  have sd0 : (0 : ℚ) < (s.den : ℚ) := by exact_mod_cast hd
  have sn0 : (0 : ℚ) < (s.num : ℚ) := by exact_mod_cast hsn
  have sv : (s.num : ℚ) = (s.den : ℚ) := by exact_mod_cast hs
  unfold ComicViewer.float_t.add_div_binary32
  simp only
  obtain ⟨x1, x2, x3⟩ := round_signed_value 24 (-149) b 1 hb
  obtain ⟨y1, y2, y3⟩ := round_signed_value 24 (-149) a 1 ha
  rw [x1, x2, y1, y2]
  have hbn : b.natAbs < 2 ^ 24 := by
    have : ((b.natAbs : Nat) : Int) < 2 ^ 24 := by rw [Int.natAbs_of_nonneg hb]; omega
    exact_mod_cast this
  have han : a.natAbs < 2 ^ 24 := by
    have : ((a.natAbs : Nat) : Int) < 2 ^ 24 := by rw [Int.natAbs_of_nonneg ha]; omega
    exact_mod_cast this
  have hB := round_of_int 24 (-149) b.natAbs hbn (by decide)
  have hBd := (round_spec 24 (-149) b.natAbs 1 Nat.one_pos).1
  have hA := round_of_int 24 (-149) a.natAbs han (by decide)
  have hAd := (round_spec 24 (-149) a.natAbs 1 Nat.one_pos).1
  generalize ComicViewer.float_t.round 24 (-149) b.natAbs 1 = B at hB hBd ⊢
  generalize ComicViewer.float_t.round 24 (-149) a.natAbs 1 = A at hA hAd ⊢
  have Ad0 : (0 : ℚ) < (A.den : ℚ) := by exact_mod_cast hAd
  have Bd0 : (0 : ℚ) < (B.den : ℚ) := by exact_mod_cast hBd
  have hn1 : (0 : Int) ≤ (B.num : Int) * (s.den : Int) := by positivity
  obtain ⟨q1, q2, q3⟩ := round_signed_value 24 (-149) ((B.num : Int) * (s.den : Int))
    (B.den * s.num) hn1
  rw [q1, q2]
  have hd1 : 0 < B.den * s.num := Nat.mul_pos hBd hsn
  have qd := (round_spec 24 (-149) ((B.num : Int) * (s.den : Int)).natAbs (B.den * s.num) hd1).1
  have ey : ((((B.num : Int) * (s.den : Int)).natAbs : Nat) : ℚ) / ((B.den * s.num : Nat) : ℚ) =
      ((b.natAbs : Nat) : ℚ) := by
    rw [q3, ← hB]
    unfold ComicViewer.float_t.value
    push_cast
    rw [sv]
    field_simp
    ring
  have hQ := round_exact 24 (-149) ((B.num : Int) * (s.den : Int)).natAbs (B.den * s.num)
    b.natAbs hd1 ey hbn (by decide)
  generalize ComicViewer.float_t.round 24 (-149) ((B.num : Int) * (s.den : Int)).natAbs
    (B.den * s.num) = Q at qd hQ ⊢
  have Qd0 : (0 : ℚ) < (Q.den : ℚ) := by exact_mod_cast qd
  have hn2 : (0 : Int) ≤ (A.num : Int) * (Q.den : Int) + (Q.num : Int) * (A.den : Int) := by
    positivity
  obtain ⟨z1, z2, z3⟩ := round_signed_value 24 (-149)
    ((A.num : Int) * (Q.den : Int) + (Q.num : Int) * (A.den : Int)) (A.den * Q.den) hn2
  rw [z1, z2]
  have hd2 : 0 < A.den * Q.den := Nat.mul_pos hAd qd
  have zd := (round_spec 24 (-149)
    ((A.num : Int) * (Q.den : Int) + (Q.num : Int) * (A.den : Int)).natAbs (A.den * Q.den) hd2).1
  have hk : (a + b).toNat < 2 ^ 24 := by
    have : (((a + b).toNat : Nat) : Int) < 2 ^ 24 := by
      rw [Int.toNat_of_nonneg (by omega)]; exact hab
    exact_mod_cast this
  have hkv : (((a + b).toNat : Nat) : ℚ) = (a : ℚ) + (b : ℚ) := by
    have : (((a + b).toNat : Nat) : Int) = a + b := Int.toNat_of_nonneg (by omega)
    exact_mod_cast this
  have ez : ((((A.num : Int) * (Q.den : Int) + (Q.num : Int) * (A.den : Int)).natAbs : Nat) : ℚ) /
      ((A.den * Q.den : Nat) : ℚ) = (((a + b).toNat : Nat) : ℚ) := by
    rw [z3, hkv, ← x3, ← y3, ← hA, ← hQ]
    unfold ComicViewer.float_t.value
    push_cast
    field_simp
  have hZ := round_exact 24 (-149)
    ((A.num : Int) * (Q.den : Int) + (Q.num : Int) * (A.den : Int)).natAbs (A.den * Q.den)
    (a + b).toNat hd2 ez hk (by decide)
  generalize ComicViewer.float_t.round 24 (-149)
    ((A.num : Int) * (Q.den : Int) + (Q.num : Int) * (A.den : Int)).natAbs (A.den * Q.den) = Z
    at zd hZ ⊢
  obtain ⟨f1, f2, _⟩ := tdiv_floor (Z.num : Int) Z.den (by positivity) zd
  rw [Int.cast_natCast] at f1 f2
  have zv : Z.value = (Z.num : ℚ) / (Z.den : ℚ) := rfl
  rw [← zv, hZ, hkv] at f1 f2
  have g1 : ((Int.tdiv (Z.num : Int) (Z.den : Int) : Int) : ℚ) ≤ ((a + b : Int) : ℚ) := by
    push_cast; exact f1
  have g2 : ((a + b : Int) : ℚ) < ((Int.tdiv (Z.num : Int) (Z.den : Int) + 1 : Int) : ℚ) := by
    push_cast; exact f2
  have g3 := Int.cast_le.mp g1
  have g4 := Int.cast_lt.mp g2
  omega

theorem total_height_binary32_eq_foldl (s : ComicViewer.float_t) (l : List Int) :
    ComicViewer.total_height_binary32 s l.length l =
      l.foldl (fun a h => s.add_div_binary32 a h) 0 := by
  unfold ComicViewer.total_height_binary32
  exact foldl_range_getD (fun a h => s.add_div_binary32 a h) l 0

theorem render_fallback_binary32_frame (i : Nat) (p : ComicViewer.pass_t) :
    ComicViewer.same_frame p.d (ComicViewer.render_fallback_binary32 i p).d p.c
        (ComicViewer.render_fallback_binary32 i p).c i ∧
      (ComicViewer.render_fallback_binary32 i p).start_height = p.start_height := by
  unfold ComicViewer.render_fallback_binary32 ComicViewer.same_frame
  simp only [true_and, and_true]
  split_ifs
  · refine ⟨rfl, ?_⟩
    intro j hj
    exact getD_set_ne _ _ _ _ hj
  · simp

theorem render_body_binary32_frame (run : Nat → helper_t) (i : Nat) (p : ComicViewer.pass_t) :
    ComicViewer.same_frame p.d (ComicViewer.render_body_binary32 run i p).d p.c
        (ComicViewer.render_body_binary32 run i p).c i ∧
      (ComicViewer.render_body_binary32 run i p).start_height =
        p.d.scale_factor.add_div_binary32 p.start_height
          ((ComicViewer.render_body_binary32 run i p).c.heights.getD i 0) := by
  unfold ComicViewer.render_body_binary32
  have hr := ComicViewer.render_image_frame (run i) p.d p.c i (p.start_height - p.d.offset_y)
  simp only
  split_ifs with hvis hok
  · obtain ⟨r1, r2, r3, r4, r5, r6, r7, r8, r9⟩ := hr
    exact ⟨⟨r1, r2, r3, r4, r5, r6, r7, r8, r9⟩, by simp only [r3]⟩
  · have hf := render_fallback_binary32_frame i
      { p with d := (ComicViewer.render_image (run i) p.d p.c i (p.start_height - p.d.offset_y)).d,
               c := (ComicViewer.render_image (run i) p.d p.c i (p.start_height - p.d.offset_y)).c,
               stderr := p.stderr ++ (ComicViewer.render_image (run i) p.d p.c i
                  (p.start_height - p.d.offset_y)).err }
    obtain ⟨⟨f1, f2, f3, f4, f5, f6, f7, f8, f9⟩, fs⟩ := hf
    obtain ⟨r1, r2, r3, r4, r5, r6, r7, r8, r9⟩ := hr
    simp only at f1 f2 f3 f4 f5 f6 f7 f8 f9 fs
    refine ⟨⟨f1.trans r1, f2.trans r2, f3.trans r3, f4.trans r4, f5.trans r5, f6.trans r6,
      f7.trans r7, f8.trans r8, fun j hj => (f9 j hj).trans (r9 j hj)⟩, ?_⟩
    simp only [fs, f3, r3]
  · exact ⟨⟨rfl, rfl, rfl, rfl, rfl, rfl, rfl, rfl, fun _ _ => rfl⟩, rfl⟩

theorem total_height_binary32_congr (s : ComicViewer.float_t) (n : Nat) (hs hs1 : List Int)
    (h : ∀ j, j < n → hs1.getD j 0 = hs.getD j 0) :
    ComicViewer.total_height_binary32 s n hs1 = ComicViewer.total_height_binary32 s n hs := by
  unfold ComicViewer.total_height_binary32
  apply List.foldl_ext
  intro a i hi
  rw [h i (List.mem_range.mp hi)]

theorem total_height_binary32_succ (s : ComicViewer.float_t) (n : Nat) (hs : List Int) :
    ComicViewer.total_height_binary32 s (n + 1) hs =
      s.add_div_binary32 (ComicViewer.total_height_binary32 s n hs) (hs.getD n 0) := by
  unfold ComicViewer.total_height_binary32
  rw [foldl_range_succ]

theorem render_loop_binary32_succ (run : Nat → helper_t) (p0 : ComicViewer.pass_t) (n : Nat) :
    ComicViewer.render_loop_binary32 run p0 (n + 1) =
      ComicViewer.render_body_binary32 run n (ComicViewer.render_loop_binary32 run p0 n) := by
  unfold ComicViewer.render_loop_binary32
  rw [foldl_range_succ]

/-- After the layout loop in binary32 has run over the first `n` images from
`start_height = 0`, the scale factor and the image count are as before, and
`start_height` is the binary32 total height of the first `n` images for the
heights as the loop leaves them. -/
theorem render_loop_binary32_spec (run : Nat → helper_t) (p0 : ComicViewer.pass_t)
    (h0 : p0.start_height = 0) (n : Nat) :
    (ComicViewer.render_loop_binary32 run p0 n).d.scale_factor = p0.d.scale_factor ∧
    (ComicViewer.render_loop_binary32 run p0 n).c.image_count = p0.c.image_count ∧
    (ComicViewer.render_loop_binary32 run p0 n).start_height =
      ComicViewer.total_height_binary32 p0.d.scale_factor n
        (ComicViewer.render_loop_binary32 run p0 n).c.heights := by
  induction n with
  | zero =>
    exact ⟨rfl, rfl, by
      simp [ComicViewer.render_loop_binary32, ComicViewer.total_height_binary32, h0]⟩
  | succ n ih =>
    obtain ⟨i3, i6, i7⟩ := ih
    obtain ⟨⟨_, _, b3, _, _, _, _, b8, b9⟩, bs⟩ :=
      render_body_binary32_frame run n (ComicViewer.render_loop_binary32 run p0 n)
    rw [render_loop_binary32_succ]
    refine ⟨b3.trans i3, b8.trans i6, ?_⟩
    have hc := total_height_binary32_congr p0.d.scale_factor n
      (ComicViewer.render_loop_binary32 run p0 n).c.heights
      (ComicViewer.render_body_binary32 run n
        (ComicViewer.render_loop_binary32 run p0 n)).c.heights
      (fun j hj => b9 j (Nat.ne_of_lt hj))
    rw [bs, total_height_binary32_succ, i3, i7, hc]

/-- The value `start_height` at the end of a pass in binary32 is the binary32
total height of the heights the pass leaves. -/
theorem render_pass_binary32_spec (run : Nat → helper_t) (v : ComicViewer.viewer_t) :
    (ComicViewer.render_pass_binary32 run v).start_height =
      ComicViewer.total_height_binary32 v.d.scale_factor v.c.image_count
        (ComicViewer.render_pass_binary32 run v).c.heights :=
  (render_loop_binary32_spec run _ rfl v.c.image_count).2.2

/-- The layout loop in binary32 over heights that are not negative and below
`2^24`, from a start value that is not negative, while the scaled sum plus an
eighth for every image stays within `2^19`: the result is not negative, at most
an eighth for every image above the scaled sum and less than nine eighths for
every image below it. -/
theorem foldl_add_div_binary32_bounds (s : ComicViewer.float_t) (hd : 0 < s.den)
    (hs : s.den ≤ s.num) :
    ∀ (l : List Int) (start : Int), 0 ≤ start → (∀ h ∈ l, 0 ≤ h ∧ h < 2 ^ 24) →
      (start : ℚ) + ((l.sum : Int) : ℚ) / s.value + (l.length : ℚ) / 8 ≤ 524288 →
      0 ≤ l.foldl (fun a h => s.add_div_binary32 a h) start ∧
      ((l.foldl (fun a h => s.add_div_binary32 a h) start : Int) : ℚ) ≤
        (start : ℚ) + ((l.sum : Int) : ℚ) / s.value + (l.length : ℚ) / 8 ∧
      (start : ℚ) + ((l.sum : Int) : ℚ) / s.value - 9 * (l.length : ℚ) / 8 ≤
        ((l.foldl (fun a h => s.add_div_binary32 a h) start : Int) : ℚ) ∧
      (l ≠ [] →
        (start : ℚ) + ((l.sum : Int) : ℚ) / s.value - 9 * (l.length : ℚ) / 8 <
          ((l.foldl (fun a h => s.add_div_binary32 a h) start : Int) : ℚ)) := by
  have hsn : 0 < s.num := lt_of_lt_of_le hd hs
  have sv0 : (0 : ℚ) < s.value := by
    unfold ComicViewer.float_t.value
    have a : (0 : ℚ) < (s.num : ℚ) := by exact_mod_cast hsn
    have b : (0 : ℚ) < (s.den : ℚ) := by exact_mod_cast hd
    positivity
  intro l
  induction l with
  | nil =>
    intro start h0 _ _
    simp only [List.foldl_nil, List.sum_nil, Int.cast_zero, zero_div, add_zero, List.length_nil,
      Nat.cast_zero, mul_zero, sub_zero, le_refl, ne_eq, not_true_eq_false, false_implies,
      and_true]
    exact h0
  | cons x t ih =>
    intro start h0 hl hsum
    have hx := hl x (List.mem_cons_self _ _)
    have ht : ∀ h ∈ t, 0 ≤ h ∧ h < 2 ^ 24 := fun h hh => hl h (List.mem_cons_of_mem _ hh)
    have tsum : (0 : Int) ≤ t.sum := List.sum_nonneg (fun h hh => (ht h hh).1)
    have tsum0 : (0 : ℚ) ≤ ((t.sum : Int) : ℚ) / s.value := by
      have : (0 : ℚ) ≤ ((t.sum : Int) : ℚ) := by exact_mod_cast tsum
      positivity
    have x0 : (0 : ℚ) ≤ (x : ℚ) / s.value := by
      have : (0 : ℚ) ≤ (x : ℚ) := by exact_mod_cast hx.1
      positivity
    have s0 : (0 : ℚ) ≤ (start : ℚ) := by exact_mod_cast h0
    have tl0 : (0 : ℚ) ≤ (t.length : ℚ) := Nat.cast_nonneg _
    have e : (((x :: t).sum : Int) : ℚ) / s.value =
        (x : ℚ) / s.value + ((t.sum : Int) : ℚ) / s.value := by
      rw [List.sum_cons]
      push_cast
      ring
    have el : (((x :: t).length : Nat) : ℚ) = (t.length : ℚ) + 1 := by
      rw [List.length_cons]
      push_cast
      ring
    rw [e, el] at hsum ⊢
    have hstart : start < 2 ^ 24 := by
      have : (start : ℚ) < ((2 ^ 24 : Int) : ℚ) := by
        push_cast
        linarith
      exact Int.cast_lt.mp this
    obtain ⟨b0, b1, b2⟩ := add_div_binary32_bounds s start x hd hs h0 hx.1 hstart hx.2
      (by linarith)
    obtain ⟨i0, i1, i2, _⟩ := ih (s.add_div_binary32 start x) b0 ht (by linarith)
    rw [List.foldl_cons]
    refine ⟨i0, by linarith, by linarith, fun _ => by linarith⟩

/-- The layout loop in binary32 at scale 1 adds the heights up exactly while the
sum stays below `2^24`. -/
theorem foldl_add_div_binary32_one (s : ComicViewer.float_t) (hd : 0 < s.den)
    (h1 : s.num = s.den) :
    ∀ (l : List Int) (start : Int), 0 ≤ start → (∀ h ∈ l, 0 ≤ h) →
      start + l.sum < 2 ^ 24 →
      l.foldl (fun a h => s.add_div_binary32 a h) start = start + l.sum := by
  intro l
  induction l with
  | nil => intro start _ _ _; simp
  | cons x t ih =>
    intro start h0 hl hsum
    have hx := hl x (List.mem_cons_self _ _)
    have ht : ∀ h ∈ t, 0 ≤ h := fun h hh => hl h (List.mem_cons_of_mem _ hh)
    have tsum : (0 : Int) ≤ t.sum := List.sum_nonneg ht
    rw [List.sum_cons] at hsum
    have e := add_div_binary32_one s start x hd h1 h0 hx (by omega)
    rw [List.foldl_cons, e, ih (start + x) (by omega) ht (by omega), List.sum_cons]
    ring

/-- C13 as stated fails.  Two images of height 1 at `scale_factor = 2`, both
already known and left unchanged by the pass (the helper cannot be started):
the pass computes the total height 0 (every step is exact in binary32: 0 + 0.5
is 0.5, converted to the `int` 0), while the sum of the heights divided by the
scale factor is 1; the two differ by 1, not by less than 1.  And at
`scale_factor = 1` the total height is not always the sum: for two known
images of heights `2^24` and 1 the binary32 sum `16777216 + 1` rounds to
`16777216`, so the pass computes 16777216 and not 16777217. -/
theorem total_height_rounds_at_every_image :
    (ComicViewer.render_pass_binary32 (fun _ => helper_not_started) two_thin_images).c.heights =
      two_thin_images.c.heights ∧
    (ComicViewer.render_pass_binary32 (fun _ => helper_not_started)
      two_thin_images).start_height = 0 ∧
    (ComicViewer.render_pass (fun _ => helper_not_started) two_thin_images).start_height = 0 ∧
    ((two_thin_images.c.heights.sum : Int) : ℚ) / two_thin_images.d.scale_factor.value = 1 ∧
    ¬ (|((two_thin_images.c.heights.sum : Int) : ℚ) / two_thin_images.d.scale_factor.value -
        (((ComicViewer.render_pass_binary32 (fun _ => helper_not_started)
          two_thin_images).start_height : Int) : ℚ)| < 1) ∧
    tall_and_thin_image.d.scale_factor = ⟨1, 1⟩ ∧
    (ComicViewer.render_pass_binary32 (fun _ => helper_not_started)
      tall_and_thin_image).c.heights = tall_and_thin_image.c.heights ∧
    tall_and_thin_image.c.heights.sum = 16777217 ∧
    (ComicViewer.render_pass_binary32 (fun _ => helper_not_started)
      tall_and_thin_image).start_height = 16777216 := by
  have e1 : (ComicViewer.render_pass_binary32 (fun _ => helper_not_started)
      two_thin_images).start_height = 0 := by decide
  have e2 : ((two_thin_images.c.heights.sum : Int) : ℚ) /
      two_thin_images.d.scale_factor.value = 1 := by
    norm_num [two_thin_images, ComicViewer.float_t.value, ComicViewer.blank]
  refine ⟨by decide, e1, by decide, e2, ?_, by decide, by decide, by decide, by decide⟩
  rw [e1, e2]
  norm_num

/-- C13 as amended.  For a document of `N` images whose heights are known
(not negative, below `2^24`) and unchanged by the pass, and a scale factor
`s >= 1` with `(h_1 + ... + h_N) / s + N / 8 <= 2^19`, the total height that
comic-viewer's `render` computes (`start_height` after the layout loop, every
step rounded to binary32 and converted to `int`) is not negative, is at most
`N / 8` above the sum of the heights divided by `s` and less than `9 N / 8`
below it; for `s = 1` and a sum below `2^24` it is the sum exactly. -/
theorem total_height_within_image_count_of_scaled_sum (run : Nat → helper_t)
    (v : ComicViewer.viewer_t) (hd : 0 < v.d.scale_factor.den)
    (hs : v.d.scale_factor.den ≤ v.d.scale_factor.num)
    (hcount : v.c.image_count = v.c.heights.length)
    (hknown : ∀ h ∈ v.c.heights, 0 ≤ h ∧ h < 2 ^ 24)
    (hsame : (ComicViewer.render_pass_binary32 run v).c.heights = v.c.heights) :
    (((v.c.heights.sum : Int) : ℚ) / v.d.scale_factor.value + (v.c.image_count : ℚ) / 8 ≤
        524288 →
      0 ≤ (ComicViewer.render_pass_binary32 run v).start_height ∧
      (((ComicViewer.render_pass_binary32 run v).start_height : Int) : ℚ) ≤
        ((v.c.heights.sum : Int) : ℚ) / v.d.scale_factor.value + (v.c.image_count : ℚ) / 8 ∧
      (0 < v.c.image_count →
        ((v.c.heights.sum : Int) : ℚ) / v.d.scale_factor.value -
            9 * (v.c.image_count : ℚ) / 8 <
          (((ComicViewer.render_pass_binary32 run v).start_height : Int) : ℚ))) ∧
    (v.d.scale_factor.num = v.d.scale_factor.den → v.c.heights.sum < 2 ^ 24 →
      (ComicViewer.render_pass_binary32 run v).start_height = v.c.heights.sum) := by
  rw [render_pass_binary32_spec, hsame, hcount, total_height_binary32_eq_foldl]
  refine ⟨fun hsum => ?_, fun h1 hsum => ?_⟩
  · obtain ⟨b0, b1, _, b3⟩ := foldl_add_div_binary32_bounds v.d.scale_factor hd hs v.c.heights 0
      (le_refl _) hknown (by simpa using hsum)
    refine ⟨b0, by simpa using b1, fun hpos => ?_⟩
    have hne : v.c.heights ≠ [] := by
      intro h; rw [h] at hpos; simp at hpos
    simpa using b3 hne
  · rw [foldl_add_div_binary32_one v.d.scale_factor hd h1 v.c.heights 0 (le_refl _)
      (fun h hh => (hknown h hh).1) (by omega)]
    simp

/-- Witness of C13 as amended: two known images of heights 800 and 700 at the
`float` scale factor nearest to 8/5.  The pass leaves the heights as they are
and computes the total height 937: the first step gives `800 / s = 500` in
binary32 although `800 / s` is below 500, the second adds `700 / s`, which is
`437.49999...`; 937 is within `2 / 8` above `1500 / s = 937.49998...`. -/
theorem total_height_within_image_count_of_scaled_sum_witness :
    0 < two_pages_zoomed_out.d.scale_factor.den ∧
    two_pages_zoomed_out.d.scale_factor.den ≤ two_pages_zoomed_out.d.scale_factor.num ∧
    two_pages_zoomed_out.c.image_count = two_pages_zoomed_out.c.heights.length ∧
    (∀ h ∈ two_pages_zoomed_out.c.heights, 0 ≤ h ∧ h < 2 ^ 24) ∧
    (ComicViewer.render_pass_binary32 (fun _ => helper_not_started)
      two_pages_zoomed_out).c.heights = two_pages_zoomed_out.c.heights ∧
    ((two_pages_zoomed_out.c.heights.sum : Int) : ℚ) /
        two_pages_zoomed_out.d.scale_factor.value +
      (two_pages_zoomed_out.c.image_count : ℚ) / 8 ≤ 524288 ∧
    ComicViewer.total_height_binary32 two_pages_zoomed_out.d.scale_factor 1
      two_pages_zoomed_out.c.heights = 500 ∧
    (ComicViewer.render_pass_binary32 (fun _ => helper_not_started)
      two_pages_zoomed_out).start_height = 937 ∧
    (((ComicViewer.render_pass_binary32 (fun _ => helper_not_started)
        two_pages_zoomed_out).start_height : Int) : ℚ) ≤
      ((two_pages_zoomed_out.c.heights.sum : Int) : ℚ) /
          two_pages_zoomed_out.d.scale_factor.value +
        (two_pages_zoomed_out.c.image_count : ℚ) / 8 :=
  ⟨by decide, by decide, by decide, by decide, by decide,
    by norm_num [two_pages_zoomed_out, ComicViewer.float_t.value, ComicViewer.blank],
    by decide, by decide,
    ((total_height_within_image_count_of_scaled_sum (fun _ => helper_not_started)
      two_pages_zoomed_out (by decide) (by decide) (by decide) (by decide) (by decide)).1
        (by norm_num [two_pages_zoomed_out, ComicViewer.float_t.value, ComicViewer.blank])).2.1⟩

/-! ## comic-viewer.c: what `render` leaves alone, and the scale factor -/

/-- The function `render` leaves neither offset larger, and leaves the visible
size, the scaling factor and the image count as they are. -/
theorem comic_render_frame (run : Nat → helper_t) (v : ComicViewer.viewer_t) :
    (ComicViewer.render run v).d.offset_y ≤ v.d.offset_y ∧
    (ComicViewer.render run v).d.offset_x ≤ v.d.offset_x ∧
    (ComicViewer.render run v).d.width = v.d.width ∧
    (ComicViewer.render run v).d.height = v.d.height ∧
    (ComicViewer.render run v).d.scale_factor = v.d.scale_factor ∧
    (ComicViewer.render run v).c.image_count = v.c.image_count := by
  obtain ⟨v1, h1, r⟩ := ComicViewer.render_fuel_returns run
    (v.d.offset_y.toNat + v.d.offset_x.toNat + 1) v (Nat.lt_succ_self _)
  have e := ComicViewer.render_fuel_eq_render run
    (v.d.offset_y.toNat + v.d.offset_x.toNat + 1) v (Nat.lt_succ_self _)
  rw [h1] at e
  injection e with e
  rw [← e]
  exact r

theorem handle_event_scale_factor (e : ComicViewer.event_t) (v : ComicViewer.viewer_t)
    (hd : 0 < v.d.scale_factor.den) (hs : v.d.scale_factor.den ≤ v.d.scale_factor.num)
    (hw : 0 < (ComicViewer.handle_event e v).d.width) :
    0 < (ComicViewer.handle_event e v).d.scale_factor.den ∧
      (ComicViewer.handle_event e v).d.scale_factor.den ≤
        (ComicViewer.handle_event e v).d.scale_factor.num := by
  cases e <;> simp only [ComicViewer.handle_event] at hw ⊢
  case key_equals =>
    refine ⟨?_, (clamp_scale _).2⟩
    split_ifs
    · exact Nat.one_pos
    · exact mul_double_den_pos _ hd
  case key_kp_plus =>
    refine ⟨?_, (clamp_scale _).2⟩
    split_ifs
    · exact Nat.one_pos
    · exact mul_double_den_pos _ hd
  case key_minus =>
    obtain ⟨_, a, b⟩ := div_double_scale v.d.scale_factor (lt_of_lt_of_le hd hs) hs
    exact ⟨b hd, a⟩
  case key_f =>
    refine ⟨?_, (clamp_scale _).2⟩
    split_ifs
    · exact Nat.one_pos
    · apply fit_den_pos
      omega
  all_goals exact ⟨hd, hs⟩

/-- C14 (comic-viewer).  In every state `main` is in after a call of `render`
has returned, for any finite sequence of zoom-in, zoom-out, fit-to-width,
scroll, home and resize events with a window width above 0, the scale factor is
at least 1 (a fraction with `0 < den <= num`); no number of zoom-in keys takes
it below 1. -/
theorem scale_factor_at_least_one (run : Nat → helper_t) (image_count : Nat)
    (v : ComicViewer.viewer_t) (h : ComicViewer.Reachable run image_count v) :
    0 < v.d.scale_factor.den ∧ v.d.scale_factor.den ≤ v.d.scale_factor.num ∧
      1 ≤ v.d.scale_factor.value := by
  have key : 0 < v.d.scale_factor.den ∧ v.d.scale_factor.den ≤ v.d.scale_factor.num := by
    induction h with
    | start width height format buf stride _ _ =>
      rw [(comic_render_frame run _).2.2.2.2.1]
      exact ⟨Nat.one_pos, le_refl _⟩
    | event v e _ hw _ ih =>
      rw [(comic_render_frame run _).2.2.2.2.1]
      exact handle_event_scale_factor e v ih.1 ih.2 hw
  refine ⟨key.1, key.2, ?_⟩
  unfold ComicViewer.float_t.value
  rw [one_le_div (by exact_mod_cast key.1)]
  exact_mod_cast key.2

/-- Witness of C14: one image in a 200 x 150 window, after the first `render`, a
zoom-out key and a zoom-in key. -/
theorem scale_factor_at_least_one_witness :
    ComicViewer.Reachable (fun _ => ComicViewer.header_only) 1 after_zoom_out_and_in ∧
    (0 < after_zoom_out_and_in.d.scale_factor.den ∧
      after_zoom_out_and_in.d.scale_factor.den ≤ after_zoom_out_and_in.d.scale_factor.num ∧
      1 ≤ after_zoom_out_and_in.d.scale_factor.value) :=
  have hr : ComicViewer.Reachable (fun _ => ComicViewer.header_only) 1 after_zoom_out_and_in :=
    ComicViewer.Reachable.event _ ComicViewer.event_t.key_equals
      (ComicViewer.Reachable.event _ ComicViewer.event_t.key_minus
        (ComicViewer.Reachable.start 200 150 NSFB_FMT_XRGB8888 (fun _ => 0) 800
          (by decide) (by decide))
        (by decide) (by decide))
      (by decide) (by decide)
  ⟨hr, scale_factor_at_least_one _ 1 _ hr⟩

/-! ## comic-viewer.c: the clamping of `offset_x` -/

/-- Whenever `render` returns, from a state with `offset_x >= 0`, it leaves
`offset_x` between 0 and the `max_offset_x` of the state it leaves. -/
theorem render_fuel_offset_x_clamped (run : Nat → helper_t) (fuel : Nat) :
    ∀ v v1 : ComicViewer.viewer_t, 0 ≤ v.d.offset_x →
      ComicViewer.render_fuel run fuel v = some v1 →
      0 ≤ v1.d.offset_x ∧
        v1.d.offset_x ≤ ComicViewer.not_below_zero
          (v1.d.scale_factor.add_div (- v1.d.width) v1.c.max_width) := by
  induction fuel with
  | zero => intro v v1 _ h; simp [ComicViewer.render_fuel] at h
  | succ fuel ih =>
    intro v v1 hx h
    obtain ⟨_, p2, _, _, _, _, _⟩ := ComicViewer.render_pass_spec run v
    rw [ComicViewer.render_fuel] at h
    simp only at h
    split at h
    · exact absurd h (by simp)
    · rename_i w hw
      have hw0 : 0 ≤ w.d.offset_x := by
        by_cases hc : (ComicViewer.render_pass run v).d.offset_y >
            ComicViewer.not_below_zero ((ComicViewer.render_pass run v).start_height -
              (ComicViewer.render_pass run v).d.height)
        · rw [if_pos hc] at hw
          refine (ih _ w ?_ hw).1
          simp only
          omega
        · rw [if_neg hc] at hw
          injection hw with hw
          subst hw
          simp only
          omega
      split at h
      · exact absurd h (by simp)
      · rename_i w2 hw2
        injection h with h
        subst h
        by_cases hc : w.d.offset_x >
            ComicViewer.not_below_zero (w.d.scale_factor.add_div (- w.d.width) w.c.max_width)
        · rw [if_pos hc] at hw2
          refine ih _ w2 ?_ hw2
          exact ComicViewer.not_below_zero_nonneg _
        · rw [if_neg hc] at hw2
          injection hw2 with hw2
          subst hw2
          exact ⟨hw0, not_lt.mp hc⟩

theorem tdiv_mul_le (a n : Int) (ha : 0 ≤ a) : Int.tdiv a n * n ≤ a := by
  have h2 := Int.tdiv_add_tmod a n
  have h3 := Int.tmod_nonneg n ha
  rw [mul_comm]
  omega

theorem tdiv_nonpos_of_nonpos (a n : Int) (ha : a ≤ 0) (hn : 0 ≤ n) : Int.tdiv a n ≤ 0 := by
  have h1 : Int.tdiv (-a) n = -Int.tdiv a n := Int.neg_tdiv a n
  have h2 : 0 ≤ Int.tdiv (-a) n := Int.tdiv_nonneg (by omega) hn
  omega

/-- The clamped `max_offset_x` that `render` computes is at most the exact
value of `max(0, max_width / scale_factor - width)`. -/
theorem max_offset_x_le_exact (s : ComicViewer.float_t) (width max_width : Int)
    (hn : 0 < s.num) (hd : 0 < s.den) :
    ((ComicViewer.not_below_zero (s.add_div (- width) max_width) : Int) : ℚ) ≤
      max 0 ((max_width : ℚ) / s.value - (width : ℚ)) := by
  have hn0 : (0 : Int) < (s.num : Int) := by exact_mod_cast hn
  have hn1 : (0 : ℚ) < (s.num : ℚ) := by exact_mod_cast hn
  have hd1 : (0 : ℚ) < (s.den : ℚ) := by exact_mod_cast hd
  have e : (max_width : ℚ) / s.value - (width : ℚ) =
      ((-width * (s.num : Int) + max_width * (s.den : Int) : Int) : ℚ) / (s.num : ℚ) := by
    unfold ComicViewer.float_t.value
    push_cast
    field_simp
    ring
  unfold ComicViewer.not_below_zero ComicViewer.float_t.add_div
  split_ifs with hneg
  · simp
  · by_cases ha : 0 ≤ -width * (s.num : Int) + max_width * (s.den : Int)
    · apply le_max_of_le_right
      rw [e, le_div_iff₀ hn1]
      exact_mod_cast tdiv_mul_le _ _ ha
    · have := tdiv_nonpos_of_nonpos (-width * (s.num : Int) + max_width * (s.den : Int))
        (s.num : Int) (by omega) (le_of_lt hn0)
      have h0 : Int.tdiv (-width * (s.num : Int) + max_width * (s.den : Int)) (s.num : Int) = 0 := by
        omega
      rw [h0]
      simp

/-- The clamped `max_offset_x` of `render` is 0 when `max_width / scale_factor`
is below `width + 1`. -/
theorem add_div_fit (s : ComicViewer.float_t) (mw w : Int) (hsn : 0 < s.num) (hsd : 0 < s.den)
    (h : (mw : ℚ) / s.value < (w : ℚ) + 1) :
    ComicViewer.not_below_zero (s.add_div (- w) mw) = 0 := by
  have hle : s.add_div (- w) mw ≤ 0 := by
    unfold ComicViewer.float_t.add_div
    by_cases hneg : - w * (s.num : Int) + mw * (s.den : Int) ≤ 0
    · exact tdiv_le_zero_of_nonpos _ _ hneg
    · obtain ⟨f1, _, _⟩ := tdiv_floor (- w * (s.num : Int) + mw * (s.den : Int)) s.num
        (by omega) hsn
      have sn0 : (0 : ℚ) < (s.num : ℚ) := by exact_mod_cast hsn
      have sd0 : (0 : ℚ) < (s.den : ℚ) := by exact_mod_cast hsd
      have e : (((- w * (s.num : Int) + mw * (s.den : Int) : Int)) : ℚ) / (s.num : ℚ) =
          (mw : ℚ) / s.value - (w : ℚ) := by
        unfold ComicViewer.float_t.value
        push_cast
        field_simp
        ring
      rw [e] at f1
      have hlt : ((Int.tdiv (- w * (s.num : Int) + mw * (s.den : Int)) (s.num : Int) : Int) : ℚ) <
          ((1 : Int) : ℚ) := by
        push_cast
        linarith
      have := Int.cast_lt.mp hlt
      omega
  unfold ComicViewer.not_below_zero
  split_ifs <;> omega

/-- C20 as stated fails.  An image 105 wide in a window 100 wide: the
fit-to-width key stores the binary32 quotient `105 / 100`, which is
`1.0499999523162842` (8808038 / 2^23), below 1.05; `max_width / scale_factor` is
then above the width 100, as an exact quotient and as the binary32 quotient
`100.00000762939453` (13107201 / 2^17) that the program computes; `max_width` is
unchanged by the `render` that follows. -/
theorem fit_to_width_quotient_exceeds_width :
    ComicViewer.slightly_wide.c.max_width = 105 ∧ ComicViewer.slightly_wide.d.width = 100 ∧
    (ComicViewer.render (fun _ => ComicViewer.header_only)
      (ComicViewer.handle_event ComicViewer.event_t.key_f
        ComicViewer.slightly_wide)).c.max_width = 105 ∧
    (ComicViewer.render (fun _ => ComicViewer.header_only)
      (ComicViewer.handle_event ComicViewer.event_t.key_f
        ComicViewer.slightly_wide)).d.scale_factor = ⟨8808038, 8388608⟩ ∧
    ¬ ((105 : ℚ) / (ComicViewer.render (fun _ => ComicViewer.header_only)
        (ComicViewer.handle_event ComicViewer.event_t.key_f
          ComicViewer.slightly_wide)).d.scale_factor.value ≤ 100) ∧
    (ComicViewer.float_t.of_int 105).div (ComicViewer.render (fun _ => ComicViewer.header_only)
      (ComicViewer.handle_event ComicViewer.event_t.key_f
        ComicViewer.slightly_wide)).d.scale_factor = ⟨13107201, 131072⟩ ∧
    ¬ ((13107201 : ℚ) / 131072 ≤ 100) := by
  have e : (ComicViewer.render (fun _ => ComicViewer.header_only)
      (ComicViewer.handle_event ComicViewer.event_t.key_f
        ComicViewer.slightly_wide)).d.scale_factor = ⟨8808038, 8388608⟩ := by decide
  refine ⟨by decide, by decide, by decide, e, ?_, ?_, by norm_num⟩
  · rw [e]
    norm_num [ComicViewer.float_t.value]
  · rw [e]
    decide

/-- C20 as amended (comic-viewer).  For every `0 <= max_width < 2^24`, window
width `0 < width < 2^22` and `offset_x >= 0`: the fit-to-width key stores the
binary32 quotient `max_width / width`, or 1 when that is at most 1; after the
`render` that follows, if `max_width` is what it was before, the scale factor
is at least 1, `max_width / scale_factor` is at most `width / (1 - 2^-24)` and
so below `width + 1` (it can be above `width`), the value
`(int)(max_width / scale_factor - width)` that the program computes in binary32
is not above 0, and `offset_x = 0`. -/
theorem fit_to_width_fits_and_resets_offset_x (run : Nat → helper_t)
    (v : ComicViewer.viewer_t) (hw : 0 < v.d.width) (hw2 : v.d.width < 2 ^ 22)
    (hm : 0 ≤ v.c.max_width) (hm2 : v.c.max_width < 2 ^ 24) (hx : 0 ≤ v.d.offset_x)
    (hsame : (ComicViewer.render run
        (ComicViewer.handle_event ComicViewer.event_t.key_f v)).c.max_width = v.c.max_width) :
    (ComicViewer.render run
        (ComicViewer.handle_event ComicViewer.event_t.key_f v)).d.offset_x = 0 ∧
    (ComicViewer.render run
        (ComicViewer.handle_event ComicViewer.event_t.key_f v)).d.scale_factor =
      (if ((ComicViewer.float_t.of_int v.c.max_width.toNat).div
            (ComicViewer.float_t.of_int v.d.width.toNat)).le_one then ⟨1, 1⟩
        else (ComicViewer.float_t.of_int v.c.max_width.toNat).div
            (ComicViewer.float_t.of_int v.d.width.toNat)) ∧
    1 ≤ (ComicViewer.render run
        (ComicViewer.handle_event ComicViewer.event_t.key_f v)).d.scale_factor.value ∧
    (v.c.max_width : ℚ) /
        (ComicViewer.render run
          (ComicViewer.handle_event ComicViewer.event_t.key_f v)).d.scale_factor.value ≤
      (v.d.width : ℚ) * (16777216 / 16777215) ∧
    (v.c.max_width : ℚ) /
        (ComicViewer.render run
          (ComicViewer.handle_event ComicViewer.event_t.key_f v)).d.scale_factor.value <
      (v.d.width : ℚ) + 1 ∧
    (ComicViewer.render run
        (ComicViewer.handle_event ComicViewer.event_t.key_f v)).d.scale_factor.div_sub_binary32
      v.c.max_width v.d.width ≤ 0 := by
  obtain ⟨_, _, fw, _, fs, _⟩ :=
    comic_render_frame run (ComicViewer.handle_event ComicViewer.event_t.key_f v)
  have hsf : (ComicViewer.handle_event ComicViewer.event_t.key_f v).d.scale_factor =
      (if ((ComicViewer.float_t.of_int v.c.max_width.toNat).div
            (ComicViewer.float_t.of_int v.d.width.toNat)).le_one then ⟨1, 1⟩
        else (ComicViewer.float_t.of_int v.c.max_width.toNat).div
            (ComicViewer.float_t.of_int v.d.width.toNat)) := rfl
  have hwd : (ComicViewer.handle_event ComicViewer.event_t.key_f v).d.width = v.d.width := rfl
  have hox : (ComicViewer.handle_event ComicViewer.event_t.key_f v).d.offset_x =
      v.d.offset_x := rfl
  obtain ⟨a, b⟩ := render_fuel_offset_x_clamped run _
    (ComicViewer.handle_event ComicViewer.event_t.key_f v) _ (by rw [hox]; exact hx)
    (ComicViewer.render_fuel_eq_render run _ _ (Nat.lt_succ_self _))
  rw [fs, fw, hsame, hwd] at b
  have hmw : ((v.c.max_width.toNat : Nat) : Int) = v.c.max_width := Int.toNat_of_nonneg hm
  have hwn : ((v.d.width.toNat : Nat) : Int) = v.d.width := Int.toNat_of_nonneg (le_of_lt hw)
  have c1 : ((v.c.max_width.toNat : Nat) : ℚ) = (v.c.max_width : ℚ) := by exact_mod_cast hmw
  have c2 : ((v.d.width.toNat : Nat) : ℚ) = (v.d.width : ℚ) := by exact_mod_cast hwn
  have n1 : v.d.width.toNat < 2 ^ 22 := by
    have : ((v.d.width.toNat : Nat) : Int) < 2 ^ 22 := by rw [hwn]; exact hw2
    exact_mod_cast this
  have n2 : v.c.max_width.toNat < 2 ^ 24 := by
    have : ((v.c.max_width.toNat : Nat) : Int) < 2 ^ 24 := by rw [hmw]; exact hm2
    exact_mod_cast this
  have n3 : 0 < v.d.width.toNat := by
    have : (0 : Int) < ((v.d.width.toNat : Nat) : Int) := by rw [hwn]; exact hw
    exact_mod_cast this
  obtain ⟨sd, sb⟩ := fit_scale_bound v.c.max_width.toNat v.d.width.toNat n3
    (lt_trans n1 (by norm_num)) n2
  obtain ⟨sn, sle⟩ := clamp_scale ((ComicViewer.float_t.of_int v.c.max_width.toNat).div
    (ComicViewer.float_t.of_int v.d.width.toNat))
  rw [← hsf] at sd sb sn sle
  rw [c1, c2] at sb
  have w22 : (v.d.width : ℚ) < 4194304 := by
    have : v.d.width < 4194304 := by
      have : (2 : Int) ^ 22 = 4194304 := by norm_num
      omega
    exact_mod_cast this
  have w0 : (0 : ℚ) < (v.d.width : ℚ) := by exact_mod_cast hw
  have sb2 : (v.c.max_width : ℚ) /
      (ComicViewer.handle_event ComicViewer.event_t.key_f v).d.scale_factor.value <
      (v.d.width : ℚ) + 1 := by linarith
  have e0 := add_div_fit _ v.c.max_width v.d.width sn sd sb2
  rw [e0] at b
  have d3 := div_sub_binary32_fit (ComicViewer.handle_event ComicViewer.event_t.key_f
    v).d.scale_factor v.c.max_width.toNat v.d.width.toNat sd sn n1 n2 (by rw [c1, c2]; exact sb)
  rw [hmw, hwn] at d3
  rw [fs]
  refine ⟨by omega, hsf, ?_, sb, sb2, d3⟩
  unfold ComicViewer.float_t.value
  rw [one_le_div (by exact_mod_cast sd)]
  exact_mod_cast sle

/-- Witness of C20 as amended: an image 100 wide in a window 50 wide,
`offset_x = 80`: after the fit-to-width key the scale factor is 2 and
`offset_x = 0`. -/
theorem fit_to_width_fits_and_resets_offset_x_witness :
    0 < scrolled_right.d.width ∧ scrolled_right.d.width < 2 ^ 22 ∧
    0 ≤ scrolled_right.c.max_width ∧ scrolled_right.c.max_width < 2 ^ 24 ∧
    0 ≤ scrolled_right.d.offset_x ∧
    (ComicViewer.render (fun _ => ComicViewer.header_only)
      (ComicViewer.handle_event ComicViewer.event_t.key_f scrolled_right)).d.scale_factor =
        ⟨8388608, 4194304⟩ ∧
    (ComicViewer.render (fun _ => ComicViewer.header_only)
      (ComicViewer.handle_event ComicViewer.event_t.key_f scrolled_right)).d.offset_x = 0 :=
  ⟨by decide, by decide, by decide, by decide, by decide, by decide,
    (fit_to_width_fits_and_resets_offset_x (fun _ => ComicViewer.header_only) scrolled_right
      (by decide) (by decide) (by decide) (by decide) (by decide) (by decide)).1⟩

/-! ## comic-viewer.c: what a valid header records -/

theorem to_int_of_lt (n : Nat) (h : n < 2 ^ 31) : to_int n = (n : Int) := by
  unfold to_int
  have e : n % 2 ^ 32 = n := Nat.mod_eq_of_lt (by omega)
  rw [e, if_pos h]

theorem to_uint32_of_range (i : Int) (h0 : 0 ≤ i) (h1 : i < 2 ^ 31) :
    to_uint32 i = i.toNat := by
  unfold to_uint32
  have e : i % 2 ^ 32 = i := Int.emod_eq_of_lt h0 (by omega)
  rw [e]

/-- What `render_image` of comic-viewer records for a valid header whose
values fit the type `int`. -/
theorem comic_render_image_records (h : helper_t) (width height : Nat)
    (hh : read_header h = Except.ok (width, height)) (hw : width < 2 ^ 31)
    (hg : height < 2 ^ 31) (d : ComicViewer.display_t) (c : ComicViewer.content_t)
    (img : Nat) (offset : Int) (hm0 : 0 ≤ c.max_width) (hm1 : c.max_width < 2 ^ 31) :
    (ComicViewer.render_image h d c img offset).c.heights = c.heights.set img (height : Int) ∧
    (ComicViewer.render_image h d c img offset).c.max_width = max c.max_width (width : Int) := by
  rw [comic_render_image_of_ok h width height hh]
  simp only
  rw [to_int_of_lt height hg, to_int_of_lt width hw, to_uint32_of_range c.max_width hm0 hm1]
  refine ⟨rfl, ?_⟩
  by_cases hc : c.max_width.toNat < width
  · rw [if_pos hc]
    have : c.max_width < (width : Int) := by omega
    exact (max_eq_right (le_of_lt this)).symm
  · rw [if_neg hc]
    have : (width : Int) ≤ c.max_width := by omega
    exact (max_eq_left this).symm

theorem comic_render_image_max_width_mono (h : helper_t) (hf : header_fits_int h)
    (d : ComicViewer.display_t) (c : ComicViewer.content_t) (img : Nat) (offset : Int)
    (hm0 : 0 ≤ c.max_width) (hm1 : c.max_width < 2 ^ 31) :
    c.max_width ≤ (ComicViewer.render_image h d c img offset).c.max_width ∧
      (ComicViewer.render_image h d c img offset).c.max_width < 2 ^ 31 := by
  cases hr : read_header h with
  | error m =>
    rw [comic_render_image_of_error h m hr]
    exact ⟨le_refl _, hm1⟩
  | ok wh =>
    obtain ⟨width, height⟩ := wh
    obtain ⟨hw, hg⟩ := hf width height hr
    rw [(comic_render_image_records h width height hr hw hg d c img offset hm0 hm1).2]
    refine ⟨le_max_left _ _, max_lt hm1 ?_⟩
    exact_mod_cast hw

theorem decode_all_max_width_mono :
    ∀ (steps : List (helper_t × Nat × Int))
      (dc : ComicViewer.display_t × ComicViewer.content_t),
      (∀ s ∈ steps, header_fits_int s.1) → 0 ≤ dc.2.max_width → dc.2.max_width < 2 ^ 31 →
      dc.2.max_width ≤ (ComicViewer.decode_all steps dc).2.max_width := by
  intro steps
  induction steps with
  | nil => intro dc _ _ _; exact le_refl _
  | cons s rest ih =>
    intro dc hf hm0 hm1
    obtain ⟨h, img, offset⟩ := s
    obtain ⟨a, b⟩ := comic_render_image_max_width_mono h (hf _ (List.mem_cons_self _ _))
      dc.1 dc.2 img offset hm0 hm1
    rw [ComicViewer.decode_all]
    exact le_trans a (ih _ (fun s hs => hf s (List.mem_cons_of_mem _ hs)) (le_trans hm0 a) b)

/-- C17 as stated fails.  A header that declares the width `2^31` and the
height `2^32 - 1` is valid, but these values do not fit the `int` variables
`max_width` and `heights[img]`: `render_image` leaves `max_width = -2^31`, below
the 0 it was, and `heights[0] = -1`. -/
theorem header_values_beyond_int_wrap :
    read_header huge_header = Except.ok (2147483648, 4294967295) ∧
    (ComicViewer.render_image huge_header (ComicViewer.blank NSFB_FMT_XRGB8888 4 4 16)
      ComicViewer.one_image 0 0).c.max_width = -2147483648 ∧
    ComicViewer.one_image.max_width = 0 ∧
    (ComicViewer.render_image huge_header (ComicViewer.blank NSFB_FMT_XRGB8888 4 4 16)
      ComicViewer.one_image 0 0).c.heights = [-1] := by
  refine ⟨rfl, by decide, rfl, by decide⟩

/-- C17 as amended.  In comic-viewer, once `render_image` has read a valid
header `(width, height)` for image `img` whose values fit the type `int` (both
below `2^31`), with `max_width` a value of that type that is not negative:
`heights[img]` is the declared height, `max_width` is
`max(old max_width, width)`, and `heights[j]` is unchanged for every other `j`.
Hence `max_width` never decreases over any sequence of decodes with such
headers, also when an image is decoded again with a smaller width. -/
theorem valid_header_records_height_and_max_width :
    (∀ (h : helper_t) (width height : Nat) (d : ComicViewer.display_t)
      (c : ComicViewer.content_t) (img : Nat) (offset : Int),
      read_header h = Except.ok (width, height) → width < 2 ^ 31 → height < 2 ^ 31 →
      0 ≤ c.max_width → c.max_width < 2 ^ 31 → img < c.heights.length →
      (ComicViewer.render_image h d c img offset).c.heights.getD img 0 = (height : Int) ∧
      (ComicViewer.render_image h d c img offset).c.max_width = max c.max_width (width : Int) ∧
      (∀ j, j ≠ img →
        (ComicViewer.render_image h d c img offset).c.heights.getD j 0 = c.heights.getD j 0)) ∧
    (∀ (steps : List (helper_t × Nat × Int))
      (dc : ComicViewer.display_t × ComicViewer.content_t),
      (∀ s ∈ steps, header_fits_int s.1) → 0 ≤ dc.2.max_width → dc.2.max_width < 2 ^ 31 →
      dc.2.max_width ≤ (ComicViewer.decode_all steps dc).2.max_width) := by
  refine ⟨?_, decode_all_max_width_mono⟩
  intro h width height d c img offset hh hw hg hm0 hm1 hi
  obtain ⟨a, b⟩ := comic_render_image_records h width height hh hw hg d c img offset hm0 hm1
  refine ⟨?_, b, ?_⟩
  · rw [a]; exact getD_set_self _ _ _ hi
  · intro j hj
    rw [a]; exact getD_set_ne _ _ _ _ hj

/-- Witness of C17 as amended: an image that declares 100 x 300 decoded when
`max_width` is 0, then decoded again when `max_width` is 500. -/
theorem valid_header_records_height_and_max_width_witness :
    read_header ComicViewer.header_only = Except.ok (100, 300) ∧
    (ComicViewer.render_image ComicViewer.header_only
      (ComicViewer.blank NSFB_FMT_XRGB8888 4 4 16) ComicViewer.one_image 0 0).c.max_width
        = max ComicViewer.one_image.max_width 100 ∧
    (500 : Int) ≤ (ComicViewer.decode_all [(ComicViewer.header_only, 0, 0)]
      (ComicViewer.blank NSFB_FMT_XRGB8888 4 4 16, ⟨1, [300], 500⟩)).2.max_width :=
  ⟨rfl,
    (valid_header_records_height_and_max_width.1 ComicViewer.header_only 100 300
      (ComicViewer.blank NSFB_FMT_XRGB8888 4 4 16) ComicViewer.one_image 0 0 rfl (by decide)
      (by decide) (by decide) (by decide) (by decide)).2.1,
    valid_header_records_height_and_max_width.2 [(ComicViewer.header_only, 0, 0)]
      (ComicViewer.blank NSFB_FMT_XRGB8888 4 4 16, ⟨1, [300], 500⟩)
      (by
        intro s hs
        rw [List.mem_singleton] at hs
        subst hs
        intro width height e
        have e2 : read_header ComicViewer.header_only = Except.ok (100, 300) := rfl
        simp only at e
        rw [e2] at e
        injection e with e
        injection e with e1 e2
        subst e1; subst e2
        decide)
      (by decide) (by decide)⟩

/-! ## html-extract.c: `process_token` -/

theorem strlen_of_no_nul (s : List Nat) (h : ∀ c ∈ s, c ≠ 0) : HtmlExtract.strlen s = s.length := by
  unfold HtmlExtract.strlen
  have : s.takeWhile (fun c => c != 0) = s := by
    rw [List.takeWhile_eq_self_iff]
    intro c hc
    simpa using h c hc
  rw [this]

theorem strncmp_eq_zero_iff :
    ∀ (a s : List Nat), (∀ c ∈ s, c ≠ 0) → s.length = a.length →
      (HtmlExtract.strncmp a s a.length = 0 ↔ a = s) := by
  intro a
  induction a with
  | nil =>
    intro s _ hl
    have : s = [] := List.length_eq_zero.mp hl
    subst this
    simp [HtmlExtract.strncmp]
  | cons x t ih =>
    intro s hs hl
    cases s with
    | nil => simp at hl
    | cons y u =>
      have hy : y ≠ 0 := hs y (List.mem_cons_self _ _)
      have hu : ∀ c ∈ u, c ≠ 0 := fun c hc => hs c (List.mem_cons_of_mem _ hc)
      have hlu : u.length = t.length := by simpa using hl
      rw [List.length_cons, HtmlExtract.strncmp]
      simp only [List.headD_cons, List.tail_cons]
      by_cases hxy : x = y
      · subst hxy
        simp only [ne_eq, not_true_eq_false, if_false, hy]
        rw [ih u hu hlu]
        simp
      · simp only [ne_eq, hxy, not_false_eq_true, if_true]
        constructor
        · intro h
          exact absurd (by omega : x = y) hxy
        · intro h
          injection h with h1 h2
          exact absurd h1 hxy

theorem string_equal_iff (h : HtmlExtract.hubbub_string) (s : List Nat)
    (hs : ∀ c ∈ s, c ≠ 0) : HtmlExtract.string_equal h s = true ↔ h.ptr = s := by
  unfold HtmlExtract.string_equal HtmlExtract.hubbub_string.len
  rw [strlen_of_no_nul s hs]
  simp only [Bool.and_eq_true, decide_eq_true_eq]
  constructor
  · rintro ⟨a, b⟩
    exact (strncmp_eq_zero_iff h.ptr s hs a).mp b
  · intro e
    have a : s.length = h.ptr.length := by rw [e]
    exact ⟨a, (strncmp_eq_zero_iff h.ptr s hs a).mpr e⟩

theorem print_link_eq (h : HtmlExtract.hubbub_string) (stdout : List Nat) :
    HtmlExtract.print_link h stdout =
      stdout ++ (h.ptr.filter (fun c => !HtmlExtract.isspace c) ++ [10]) := by
  unfold HtmlExtract.print_link
  have key : ∀ (l out : List Nat),
      l.foldl (fun out c => if HtmlExtract.isspace c then out else out ++ [c]) out =
        out ++ l.filter (fun c => !HtmlExtract.isspace c) := by
    intro l
    induction l with
    | nil => intro out; simp
    | cons c t ih =>
      intro out
      rw [List.foldl_cons, ih, List.filter_cons]
      by_cases hc : HtmlExtract.isspace c = true
      · simp [hc]
      · simp [hc]
  rw [key, List.append_assoc]

theorem process_attributes_eq :
    ∀ (attributes : List HtmlExtract.hubbub_attribute) (stdout : List Nat),
      attributes.foldl
        (fun out a =>
          if HtmlExtract.string_equal a.name HtmlExtract.HREF then
            HtmlExtract.print_link a.value out
          else out) stdout = stdout ++ HtmlExtract.links attributes := by
  intro attributes
  induction attributes with
  | nil => intro stdout; simp [HtmlExtract.links]
  | cons a t ih =>
    intro stdout
    have hiff := string_equal_iff a.name HtmlExtract.HREF (by decide)
    rw [List.foldl_cons, ih]
    unfold HtmlExtract.links
    rw [List.flatMap_cons]
    by_cases he : a.name.ptr = HtmlExtract.HREF
    · rw [if_pos (hiff.mpr he), if_pos he, print_link_eq, List.append_assoc]
    · have : ¬ HtmlExtract.string_equal a.name HtmlExtract.HREF = true := fun h => he (hiff.mp h)
      rw [if_neg this, if_neg he, List.nil_append]

/-- C19 (html-extract).  The function `string_equal` holds for the string
"href" exactly when the attribute name has the same length and the same bytes,
also when the name contains a NUL byte.  For every token and whatever was
written before, `process_token` returns `HUBBUB_OK`; for a start tag it writes,
for each attribute whose name is "href", in attribute order, the value without
its whitespace characters and then one newline; for any other token type it
writes nothing. -/
theorem process_token_prints_href_values (token : HtmlExtract.hubbub_token)
    (stdout : List Nat) :
    (∀ h : HtmlExtract.hubbub_string,
      HtmlExtract.string_equal h HtmlExtract.HREF = true ↔ h.ptr = HtmlExtract.HREF) ∧
    (HtmlExtract.process_token token stdout).1 = HtmlExtract.hubbub_error.HUBBUB_OK ∧
    (HtmlExtract.process_token token stdout).2 =
      stdout ++
        (if token.type = HtmlExtract.hubbub_token_type.HUBBUB_TOKEN_START_TAG then
          HtmlExtract.links token.attributes
        else []) := by
  refine ⟨fun h => string_equal_iff h HtmlExtract.HREF (by decide), rfl, ?_⟩
  unfold HtmlExtract.process_token
  simp only
  split_ifs
  · exact process_attributes_eq token.attributes stdout
  · simp

/-- The start tag `anchor` prints `ab` and a newline: the value of its "href"
attribute without the spaces and the tab, and nothing for the attribute named
`hre` plus a NUL byte. -/
theorem process_token_on_anchor :
    HtmlExtract.process_token HtmlExtract.anchor [] =
      (HtmlExtract.hubbub_error.HUBBUB_OK, [97, 98, 10]) := by
  decide

/-! ## comic-viewer.c: the passes of `render` under a fixed decoder -/

theorem tdiv_mono (a b n : Int) (hab : a ≤ b) (hn : 0 < n) : Int.tdiv a n ≤ Int.tdiv b n := by
  by_cases ha : 0 ≤ a
  · rw [Int.tdiv_eq_ediv ha (le_of_lt hn), Int.tdiv_eq_ediv (le_trans ha hab) (le_of_lt hn)]
    exact Int.ediv_le_ediv hn hab
  · by_cases hb : 0 ≤ b
    · have h1 := tdiv_nonpos_of_nonpos a n (by omega) (le_of_lt hn)
      have h2 := Int.tdiv_nonneg hb (le_of_lt hn)
      omega
    · have e1 : Int.tdiv (-a) n = -Int.tdiv a n := Int.neg_tdiv a n
      have e2 : Int.tdiv (-b) n = -Int.tdiv b n := Int.neg_tdiv b n
      have h1 : Int.tdiv (-b) n ≤ Int.tdiv (-a) n := by
        rw [Int.tdiv_eq_ediv (by omega) (le_of_lt hn), Int.tdiv_eq_ediv (by omega) (le_of_lt hn)]
        exact Int.ediv_le_ediv hn (by omega)
      omega

theorem add_div_mono (s : ComicViewer.float_t) (hn : 0 < s.num) (a a1 b b1 : Int)
    (ha : a ≤ a1) (hb : b ≤ b1) : s.add_div a b ≤ s.add_div a1 b1 := by
  unfold ComicViewer.float_t.add_div
  apply tdiv_mono _ _ _ _ (by exact_mod_cast hn)
  have h1 : a * (s.num : Int) ≤ a1 * (s.num : Int) :=
    mul_le_mul_of_nonneg_right ha (by positivity)
  have h2 : b * (s.den : Int) ≤ b1 * (s.den : Int) :=
    mul_le_mul_of_nonneg_right hb (by positivity)
  omega

theorem total_height_mono (s : ComicViewer.float_t) (hn : 0 < s.num) (hs hs1 : List Int)
    (n : Nat) (h : ∀ j, hs.getD j 0 ≤ hs1.getD j 0) :
    ComicViewer.total_height s n hs ≤ ComicViewer.total_height s n hs1 := by
  induction n with
  | zero => exact le_refl _
  | succ n ih =>
    rw [ComicViewer.total_height_succ, ComicViewer.total_height_succ]
    exact add_div_mono s hn _ _ _ _ ih (h n)

theorem not_below_zero_mono (a b : Int) (h : a ≤ b) :
    ComicViewer.not_below_zero a ≤ ComicViewer.not_below_zero b := by
  unfold ComicViewer.not_below_zero
  split_ifs <;> omega

theorem getD_set (l : List Int) (i j : Nat) (a : Int) :
    (l.set i a).getD j 0 = if j = i ∧ i < l.length then a else l.getD j 0 := by
  by_cases hj : j = i
  · subst hj
    by_cases hl : j < l.length
    · rw [if_pos ⟨rfl, hl⟩]
      exact getD_set_self l j a hl
    · rw [if_neg (fun h => hl h.2), List.set_eq_of_length_le (not_lt.mp hl)]
  · rw [if_neg (fun h => hj h.1)]
    exact getD_set_ne l i j a hj

theorem settled_height_nonneg (run : Nat → helper_t) (hrun : ∀ i, header_fits_int (run i))
    (i : Nat) : 0 ≤ ComicViewer.settled_height run i := by
  unfold ComicViewer.settled_height
  cases hr : read_header (run i) with
  | error m => simp [ComicViewer.FALLBACK_HEIGHT]
  | ok wh =>
    obtain ⟨width, height⟩ := wh
    simp only
    rw [to_int_of_lt height (hrun i width height hr).2]
    positivity

theorem countP_claim_append_fill (l : List nsfb_call) (rect : nsfb_bbox_t) (colour : Nat) :
    (l ++ [nsfb_call.plot_rectangle_fill rect colour]).countP (fun c => match c with
      | nsfb_call.claim _ => true
      | _ => false) =
    l.countP (fun c => match c with
      | nsfb_call.claim _ => true
      | _ => false) := by
  rw [List.countP_append]
  simp [List.countP_cons]

/-- One iteration of the layout loop under a fixed decoder: no height gets
smaller, every height is still 0 or settled, `max_width` does not get smaller
and stays a value of the type `int`, and no pass is started. -/
theorem comic_render_body_decoded (run : Nat → helper_t) (hrun : ∀ i, header_fits_int (run i))
    (i : Nat) (p : ComicViewer.pass_t)
    (hc : ∀ j, p.c.heights.getD j 0 = 0 ∨ p.c.heights.getD j 0 = ComicViewer.settled_height run j)
    (hm0 : 0 ≤ p.c.max_width) (hm1 : p.c.max_width < 2 ^ 31) :
    (∀ j, p.c.heights.getD j 0 ≤ (ComicViewer.render_body run i p).c.heights.getD j 0) ∧
    (∀ j, (ComicViewer.render_body run i p).c.heights.getD j 0 = 0 ∨
      (ComicViewer.render_body run i p).c.heights.getD j 0 = ComicViewer.settled_height run j) ∧
    p.c.max_width ≤ (ComicViewer.render_body run i p).c.max_width ∧
    (ComicViewer.render_body run i p).c.max_width < 2 ^ 31 ∧
    ComicViewer.passes (ComicViewer.render_body run i p).d = ComicViewer.passes p.d := by
  have hsn := settled_height_nonneg run hrun
  by_cases hv : ComicViewer.handed_over p i
  swap
  · rw [comic_render_body_of_not_handed_over run i p hv]
    exact ⟨fun j => le_refl _, hc, le_refl _, hm1, rfl⟩
  · have hv1 := hv
    unfold ComicViewer.handed_over at hv1
    unfold ComicViewer.render_body
    simp only [hv1, and_self, if_true]
    cases hr : read_header (run i) with
    | ok wh =>
      obtain ⟨width, height⟩ := wh
      obtain ⟨hw, hg⟩ := hrun i width height hr
      have hset : ComicViewer.settled_height run i = (height : Int) := by
        unfold ComicViewer.settled_height
        rw [hr]
        exact to_int_of_lt height hg
      obtain ⟨e1, e2⟩ := comic_render_image_records (run i) width height hr hw hg p.d p.c i
        (p.start_height - p.d.offset_y) hm0 hm1
      have eok : (ComicViewer.render_image (run i) p.d p.c i
          (p.start_height - p.d.offset_y)).ok = true := by
        rw [comic_render_image_of_ok _ width height hr]
      have ed : (ComicViewer.render_image (run i) p.d p.c i
          (p.start_height - p.d.offset_y)).d.nsfb = p.d.nsfb := by
        rw [comic_render_image_of_ok _ width height hr]
      simp only [eok, not_true_eq_false, if_false, e1, e2]
      refine ⟨?_, ?_, le_max_left _ _, max_lt hm1 (by exact_mod_cast hw), ?_⟩
      · intro j
        rw [getD_set]
        split_ifs with h
        · obtain ⟨rfl, _⟩ := h
          rcases hc j with h0 | h0
          · rw [h0]; positivity
          · rw [h0, hset]
        · exact le_refl _
      · intro j
        rw [getD_set]
        split_ifs with h
        · obtain ⟨rfl, _⟩ := h
          exact Or.inr hset.symm
        · exact hc j
      · unfold ComicViewer.passes
        rw [ed]
    | error m =>
      have hset : ComicViewer.settled_height run i = 200 := by
        unfold ComicViewer.settled_height
        rw [hr]
        rfl
      rw [comic_render_image_of_error (run i) m hr]
      simp only [Bool.false_eq_true, not_false_eq_true, if_true]
      unfold ComicViewer.render_fallback
      simp only
      by_cases h0 : p.c.heights.getD i 0 = 0
      · simp only [h0, if_true, ComicViewer.FALLBACK_HEIGHT]
        refine ⟨?_, ?_, le_refl _, hm1, ?_⟩
        · intro j
          rw [getD_set]
          split_ifs with h
          · obtain ⟨rfl, _⟩ := h
            rw [h0]; decide
          · exact le_refl _
        · intro j
          rw [getD_set]
          split_ifs with h
          · obtain ⟨rfl, _⟩ := h
            exact Or.inr hset.symm
          · exact hc j
        · unfold ComicViewer.passes
          exact countP_claim_append_fill _ _ _
      · simp only [h0, if_false]
        refine ⟨fun j => le_refl _, hc, le_refl _, hm1, ?_⟩
        unfold ComicViewer.passes
        exact countP_claim_append_fill _ _ _

theorem comic_render_loop_decoded (run : Nat → helper_t) (hrun : ∀ i, header_fits_int (run i))
    (p0 : ComicViewer.pass_t)
    (hc : ∀ j, p0.c.heights.getD j 0 = 0 ∨
      p0.c.heights.getD j 0 = ComicViewer.settled_height run j)
    (hm0 : 0 ≤ p0.c.max_width) (hm1 : p0.c.max_width < 2 ^ 31) (n : Nat) :
    (∀ j, p0.c.heights.getD j 0 ≤ (ComicViewer.render_loop run p0 n).c.heights.getD j 0) ∧
    (∀ j, (ComicViewer.render_loop run p0 n).c.heights.getD j 0 = 0 ∨
      (ComicViewer.render_loop run p0 n).c.heights.getD j 0 =
        ComicViewer.settled_height run j) ∧
    p0.c.max_width ≤ (ComicViewer.render_loop run p0 n).c.max_width ∧
    (ComicViewer.render_loop run p0 n).c.max_width < 2 ^ 31 ∧
    ComicViewer.passes (ComicViewer.render_loop run p0 n).d = ComicViewer.passes p0.d := by
  induction n with
  | zero => exact ⟨fun j => le_refl _, hc, le_refl _, hm1, rfl⟩
  | succ n ih =>
    obtain ⟨i1, i2, i3, i4, i5⟩ := ih
    obtain ⟨b1, b2, b3, b4, b5⟩ := comic_render_body_decoded run hrun n
      (ComicViewer.render_loop run p0 n) i2 (le_trans hm0 i3) i4
    rw [ComicViewer.render_loop_succ]
    exact ⟨fun j => le_trans (i1 j) (b1 j), b2, le_trans i3 b3, b4, b5.trans i5⟩

/-- One pass of `render` under a fixed decoder: the offsets, the visible size
and the scale factor are as before, the content is still what the decoder left,
neither `max_offset_y` nor `max_offset_x` got smaller, and one more pass is
recorded. -/
theorem comic_pass_viewer_facts (run : Nat → helper_t) (hrun : ∀ i, header_fits_int (run i))
    (v : ComicViewer.viewer_t) (hv : ComicViewer.decoded_by run v) :
    ComicViewer.decoded_by run (ComicViewer.pass_viewer run v) ∧
    (ComicViewer.pass_viewer run v).d.offset_y = v.d.offset_y ∧
    (ComicViewer.pass_viewer run v).d.offset_x = v.d.offset_x ∧
    (ComicViewer.pass_viewer run v).d.width = v.d.width ∧
    (ComicViewer.pass_viewer run v).d.height = v.d.height ∧
    (ComicViewer.pass_viewer run v).d.scale_factor = v.d.scale_factor ∧
    (ComicViewer.pass_viewer run v).c.image_count = v.c.image_count ∧
    ComicViewer.max_offset_y v ≤ ComicViewer.max_offset_y (ComicViewer.pass_viewer run v) ∧
    ComicViewer.max_offset_x v ≤ ComicViewer.max_offset_x (ComicViewer.pass_viewer run v) ∧
    ComicViewer.passes (ComicViewer.pass_viewer run v).d = ComicViewer.passes v.d + 1 ∧
    ComicViewer.not_below_zero ((ComicViewer.render_pass run v).start_height -
        (ComicViewer.render_pass run v).d.height) =
      ComicViewer.max_offset_y (ComicViewer.pass_viewer run v) := by
  obtain ⟨hc, hm0, hm1, hn⟩ := hv
  obtain ⟨p1, p2, p3, p4, p5, p6, p7⟩ := ComicViewer.render_pass_spec run v
  have hloop := comic_render_loop_decoded run hrun
    ⟨{ v.d with nsfb := v.d.nsfb ++ [nsfb_call.claim ⟨0, 0, v.d.width, v.d.height⟩,
        nsfb_call.plot_clg BACKGROUND_COLOUR] }, v.c, v.stderr, 0⟩ hc hm0 hm1 v.c.image_count
  have hrp : ComicViewer.render_loop run
      ⟨{ v.d with nsfb := v.d.nsfb ++ [nsfb_call.claim ⟨0, 0, v.d.width, v.d.height⟩,
        nsfb_call.plot_clg BACKGROUND_COLOUR] }, v.c, v.stderr, 0⟩ v.c.image_count =
      ComicViewer.render_pass run v := rfl
  rw [hrp] at hloop
  obtain ⟨l1, l2, l3, l4, l5⟩ := hloop
  simp only at l1 l3 l5
  unfold ComicViewer.pass_viewer ComicViewer.decoded_by ComicViewer.max_offset_y
    ComicViewer.max_offset_x
  simp only
  refine ⟨⟨l2, le_trans hm0 l3, l4, by rw [p3]; exact hn⟩, p1, p2, p4, p5, p3, p6, ?_, ?_, ?_, ?_⟩
  · rw [p3, p5, p6]
    apply not_below_zero_mono
    have := total_height_mono v.d.scale_factor hn.1 v.c.heights
      (ComicViewer.render_pass run v).c.heights v.c.image_count l1
    omega
  · rw [p3, p4]
    apply not_below_zero_mono
    exact add_div_mono v.d.scale_factor hn.1 _ _ _ _ (le_refl _) l3
  · rw [l5]
    unfold ComicViewer.passes
    simp only
    rw [List.countP_append]
    simp [List.countP_cons]
  · rw [p7, p3, p6]

theorem countP_claim_append_update (l : List nsfb_call) (box : nsfb_bbox_t) :
    (l ++ [nsfb_call.update box]).countP (fun c => match c with
      | nsfb_call.claim _ => true
      | _ => false) =
    l.countP (fun c => match c with
      | nsfb_call.claim _ => true
      | _ => false) := by
  rw [List.countP_append]
  simp [List.countP_cons]

/-- From a state whose offsets are within their bounds, `render` makes one pass
and no recursive call. -/
theorem comic_render_of_settled (run : Nat → helper_t) (hrun : ∀ i, header_fits_int (run i))
    (v : ComicViewer.viewer_t) (hs : ComicViewer.settled run v) (fuel : Nat) :
    ∃ r, ComicViewer.render_fuel run (fuel + 1) v = some r ∧ ComicViewer.settled run r ∧
      r.d.offset_y = v.d.offset_y ∧ r.d.offset_x = v.d.offset_x ∧
      ComicViewer.passes r.d = ComicViewer.passes v.d + 1 ∧
      r.d.width = v.d.width ∧ r.d.height = v.d.height ∧
      r.d.scale_factor = v.d.scale_factor ∧ r.c.image_count = v.c.image_count := by
  obtain ⟨hv, hy, hx⟩ := hs
  obtain ⟨f0, f1, f2, f3, f4, f5, f6, f7, f8, f9, f10⟩ := comic_pass_viewer_facts run hrun v hv
  rw [ComicViewer.render_fuel]
  simp only
  have c1 : ¬ (ComicViewer.render_pass run v).d.offset_y >
      ComicViewer.not_below_zero ((ComicViewer.render_pass run v).start_height -
        (ComicViewer.render_pass run v).d.height) := by
    rw [f10]
    have : (ComicViewer.render_pass run v).d.offset_y = v.d.offset_y := f1
    omega
  rw [if_neg c1]
  simp only
  have c2 : ¬ (ComicViewer.render_pass run v).d.offset_x >
      ComicViewer.not_below_zero ((ComicViewer.render_pass run v).d.scale_factor.add_div
        (- (ComicViewer.render_pass run v).d.width) (ComicViewer.render_pass run v).c.max_width) := by
    have e1 : (ComicViewer.render_pass run v).d.offset_x = v.d.offset_x := f2
    have e2 : ComicViewer.not_below_zero ((ComicViewer.render_pass run v).d.scale_factor.add_div
        (- (ComicViewer.render_pass run v).d.width) (ComicViewer.render_pass run v).c.max_width) =
        ComicViewer.max_offset_x (ComicViewer.pass_viewer run v) := rfl
    rw [e2]
    omega
  rw [if_neg c2]
  refine ⟨_, rfl, ⟨f0, ?_, ?_⟩, f1, f2, ?_, f3, f4, f5, f6⟩
  · have : (ComicViewer.render_pass run v).d.offset_y ≤
        ComicViewer.max_offset_y (ComicViewer.pass_viewer run v) := by
      have e1 : (ComicViewer.render_pass run v).d.offset_y = v.d.offset_y := f1
      omega
    exact this
  · exact not_lt.mp c2
  · have := countP_claim_append_update (ComicViewer.render_pass run v).d.nsfb
      ⟨0, 0, v.d.width, v.d.height⟩
    unfold ComicViewer.passes
    simp only
    rw [this]
    exact f9

/-- The closing `update` call of `render` is not a pass. -/
theorem passes_append_update (d : ComicViewer.display_t) (box : nsfb_bbox_t) :
    ComicViewer.passes { d with nsfb := d.nsfb ++ [nsfb_call.update box] } =
      ComicViewer.passes d :=
  countP_claim_append_update d.nsfb box

/-- From a state whose `offset_y` is within its bound, `render` makes one pass,
and one more if and only if `offset_x` has to be clamped. -/
theorem comic_render_of_offset_y_settled (run : Nat → helper_t)
    (hrun : ∀ i, header_fits_int (run i)) (v : ComicViewer.viewer_t)
    (hv : ComicViewer.decoded_by run v) (hy : v.d.offset_y ≤ ComicViewer.max_offset_y v)
    (fuel : Nat) :
    ∃ r, ComicViewer.render_fuel run (fuel + 2) v = some r ∧ ComicViewer.settled run r ∧
      r.d.offset_y = v.d.offset_y ∧ r.d.offset_x ≤ v.d.offset_x ∧
      ComicViewer.passes r.d =
        ComicViewer.passes v.d + 1 + (if r.d.offset_x < v.d.offset_x then 1 else 0) ∧
      r.d.width = v.d.width ∧ r.d.height = v.d.height ∧
      r.d.scale_factor = v.d.scale_factor ∧ r.c.image_count = v.c.image_count := by
  obtain ⟨f0, f1, f2, f3, f4, f5, f6, f7, f8, f9, f10⟩ := comic_pass_viewer_facts run hrun v hv
  rw [ComicViewer.render_fuel]
  simp only
  have e1 : (ComicViewer.render_pass run v).d.offset_y = v.d.offset_y := f1
  have e2 : (ComicViewer.render_pass run v).d.offset_x = v.d.offset_x := f2
  have c1 : ¬ (ComicViewer.render_pass run v).d.offset_y >
      ComicViewer.not_below_zero ((ComicViewer.render_pass run v).start_height -
        (ComicViewer.render_pass run v).d.height) := by
    rw [f10]; omega
  rw [if_neg c1]
  simp only
  have hyw : (ComicViewer.render_pass run v).d.offset_y ≤
      ComicViewer.max_offset_y (ComicViewer.pass_viewer run v) := by omega
  have e3 : ComicViewer.not_below_zero ((ComicViewer.render_pass run v).d.scale_factor.add_div
      (- (ComicViewer.render_pass run v).d.width) (ComicViewer.render_pass run v).c.max_width) =
      ComicViewer.max_offset_x (ComicViewer.pass_viewer run v) := rfl
  by_cases c2 : (ComicViewer.render_pass run v).d.offset_x >
      ComicViewer.not_below_zero ((ComicViewer.render_pass run v).d.scale_factor.add_div
        (- (ComicViewer.render_pass run v).d.width) (ComicViewer.render_pass run v).c.max_width)
  · rw [if_pos c2]
    have hsa : ComicViewer.settled run
        { d := { (ComicViewer.render_pass run v).d with
                  offset_x := (ComicViewer.not_below_zero
                    ((ComicViewer.render_pass run v).d.scale_factor.add_div
                      (- (ComicViewer.render_pass run v).d.width)
                      (ComicViewer.render_pass run v).c.max_width)) },
          c := (ComicViewer.render_pass run v).c,
          stderr := (ComicViewer.render_pass run v).stderr } :=
      ⟨f0, hyw, le_refl _⟩
    obtain ⟨r, hr, rs, r1, r2, r3, r4, r5, r6, r7⟩ :=
      comic_render_of_settled run hrun _ hsa fuel
    simp only at r1 r2 r3 r4 r5 r6 r7
    rw [hr]
    simp only
    refine ⟨_, rfl, rs, r1.trans f1, ?_, ?_, r4.trans f3, r5.trans f4, r6.trans f5,
      r7.trans f6⟩
    · simp only
      rw [r2]
      omega
    · have g1 : ComicViewer.passes r.d =
          ComicViewer.passes (ComicViewer.pass_viewer run v).d + 1 := r3
      have hlt : r.d.offset_x < v.d.offset_x := by rw [r2]; omega
      show ComicViewer.passes
          { r.d with nsfb := r.d.nsfb ++ [nsfb_call.update ⟨0, 0, v.d.width, v.d.height⟩] } =
        ComicViewer.passes v.d + 1 + (if r.d.offset_x < v.d.offset_x then 1 else 0)
      rw [passes_append_update, g1, f9, if_pos hlt]
  · rw [if_neg c2]
    refine ⟨_, rfl, ⟨f0, hyw, not_lt.mp c2⟩, f1, le_of_eq f2, ?_, f3, f4, f5, f6⟩
    have hlt : ¬ (ComicViewer.pass_viewer run v).d.offset_x < v.d.offset_x := by omega
    show ComicViewer.passes
        { (ComicViewer.pass_viewer run v).d with
          nsfb := (ComicViewer.pass_viewer run v).d.nsfb ++
            [nsfb_call.update ⟨0, 0, v.d.width, v.d.height⟩] } =
      ComicViewer.passes v.d + 1 +
        (if (ComicViewer.pass_viewer run v).d.offset_x < v.d.offset_x then 1 else 0)
    rw [passes_append_update, f9, if_neg hlt]

/-- Under a fixed decoder, `render` makes one pass, a second one if and only if
`offset_y` has to be clamped, and one more if and only if `offset_x` has to be
clamped; it leaves `offset_y` at the smaller of its value and the
`max_offset_y` of the first pass. -/
theorem comic_render_of_decoded (run : Nat → helper_t) (hrun : ∀ i, header_fits_int (run i))
    (v : ComicViewer.viewer_t) (hv : ComicViewer.decoded_by run v) (fuel : Nat) :
    ∃ r, ComicViewer.render_fuel run (fuel + 3) v = some r ∧ ComicViewer.settled run r ∧
      r.d.offset_y = min v.d.offset_y (ComicViewer.max_offset_y (ComicViewer.pass_viewer run v)) ∧
      r.d.offset_x ≤ v.d.offset_x ∧
      ComicViewer.passes r.d =
        ComicViewer.passes v.d + 1 + (if r.d.offset_y < v.d.offset_y then 1 else 0) +
          (if r.d.offset_x < v.d.offset_x then 1 else 0) ∧
      r.d.width = v.d.width ∧ r.d.height = v.d.height ∧
      r.d.scale_factor = v.d.scale_factor ∧ r.c.image_count = v.c.image_count := by
  obtain ⟨f0, f1, f2, f3, f4, f5, f6, f7, f8, f9, f10⟩ := comic_pass_viewer_facts run hrun v hv
  rw [ComicViewer.render_fuel]
  simp only
  have e1 : (ComicViewer.render_pass run v).d.offset_y = v.d.offset_y := f1
  have e2 : (ComicViewer.render_pass run v).d.offset_x = v.d.offset_x := f2
  by_cases c1 : (ComicViewer.render_pass run v).d.offset_y >
      ComicViewer.not_below_zero ((ComicViewer.render_pass run v).start_height -
        (ComicViewer.render_pass run v).d.height)
  · rw [if_pos c1]
    have hda : ComicViewer.decoded_by run
        ⟨{ (ComicViewer.render_pass run v).d with
            offset_y := ComicViewer.not_below_zero
              ((ComicViewer.render_pass run v).start_height -
                (ComicViewer.render_pass run v).d.height) },
          (ComicViewer.render_pass run v).c, (ComicViewer.render_pass run v).stderr⟩ := f0
    have hya : ComicViewer.not_below_zero ((ComicViewer.render_pass run v).start_height -
          (ComicViewer.render_pass run v).d.height) ≤
        ComicViewer.max_offset_y
          ⟨{ (ComicViewer.render_pass run v).d with
              offset_y := ComicViewer.not_below_zero
                ((ComicViewer.render_pass run v).start_height -
                  (ComicViewer.render_pass run v).d.height) },
            (ComicViewer.render_pass run v).c, (ComicViewer.render_pass run v).stderr⟩ := by
      rw [f10]
      exact le_refl _
    obtain ⟨r, hr, rs, r1, r2, r3, r4, r5, r6, r7⟩ :=
      comic_render_of_offset_y_settled run hrun _ hda hya fuel
    simp only at r1 r2 r3 r4 r5 r6 r7
    rw [hr]
    simp only
    have c2 : ¬ r.d.offset_x >
        ComicViewer.not_below_zero (r.d.scale_factor.add_div (- r.d.width) r.c.max_width) :=
      not_lt.mpr rs.2.2
    rw [if_neg c2]
    rw [f10] at r1 c1
    refine ⟨_, rfl, rs, ?_, by simp only; omega, ?_, r4.trans f3, r5.trans f4, r6.trans f5,
      r7.trans f6⟩
    · simp only
      rw [r1, min_eq_right (by omega)]
    · have hlt : r.d.offset_y < v.d.offset_y := by omega
      have g1 : ComicViewer.passes r.d =
          ComicViewer.passes (ComicViewer.pass_viewer run v).d + 1 +
            (if r.d.offset_x < v.d.offset_x then 1 else 0) := by
        rw [r3, e2]
        rfl
      show ComicViewer.passes
          { r.d with nsfb := r.d.nsfb ++ [nsfb_call.update ⟨0, 0, v.d.width, v.d.height⟩] } =
        ComicViewer.passes v.d + 1 + (if r.d.offset_y < v.d.offset_y then 1 else 0) +
          (if r.d.offset_x < v.d.offset_x then 1 else 0)
      rw [passes_append_update, g1, f9, if_pos hlt]
  · rw [if_neg c1]
    simp only
    rw [f10] at c1
    have hyw : (ComicViewer.render_pass run v).d.offset_y ≤
        ComicViewer.max_offset_y (ComicViewer.pass_viewer run v) := not_lt.mp c1
    have hmin : v.d.offset_y =
        min v.d.offset_y (ComicViewer.max_offset_y (ComicViewer.pass_viewer run v)) := by
      rw [min_eq_left (by omega)]
    by_cases c2 : (ComicViewer.render_pass run v).d.offset_x >
        ComicViewer.not_below_zero ((ComicViewer.render_pass run v).d.scale_factor.add_div
          (- (ComicViewer.render_pass run v).d.width) (ComicViewer.render_pass run v).c.max_width)
    · rw [if_pos c2]
      have hsa : ComicViewer.settled run
          { d := { (ComicViewer.render_pass run v).d with
                    offset_x := (ComicViewer.not_below_zero
                      ((ComicViewer.render_pass run v).d.scale_factor.add_div
                        (- (ComicViewer.render_pass run v).d.width)
                        (ComicViewer.render_pass run v).c.max_width)) },
            c := (ComicViewer.render_pass run v).c,
            stderr := (ComicViewer.render_pass run v).stderr } :=
        ⟨f0, hyw, le_refl _⟩
      obtain ⟨r, hr, rs, r1, r2, r3, r4, r5, r6, r7⟩ :=
        comic_render_of_settled run hrun _ hsa (fuel + 1)
      simp only at r1 r2 r3 r4 r5 r6 r7
      rw [hr]
      simp only
      refine ⟨_, rfl, rs, ?_, by simp only; omega, ?_, r4.trans f3, r5.trans f4, r6.trans f5,
        r7.trans f6⟩
      · simp only
        rw [r1, e1]
        exact hmin
      · have hlt : r.d.offset_x < v.d.offset_x := by omega
        have hnl : ¬ r.d.offset_y < v.d.offset_y := by omega
        have g1 : ComicViewer.passes r.d =
            ComicViewer.passes (ComicViewer.pass_viewer run v).d + 1 := r3
        show ComicViewer.passes
            { r.d with nsfb := r.d.nsfb ++ [nsfb_call.update ⟨0, 0, v.d.width, v.d.height⟩] } =
          ComicViewer.passes v.d + 1 + (if r.d.offset_y < v.d.offset_y then 1 else 0) +
            (if r.d.offset_x < v.d.offset_x then 1 else 0)
        rw [passes_append_update, g1, f9, if_pos hlt, if_neg hnl]
    · rw [if_neg c2]
      refine ⟨_, rfl, ⟨f0, hyw, not_lt.mp c2⟩, ?_, le_of_eq f2, ?_, f3, f4, f5, f6⟩
      · simp only
        rw [e1]
        exact hmin
      · have hl1 : ¬ (ComicViewer.pass_viewer run v).d.offset_x < v.d.offset_x := by omega
        have hl2 : ¬ (ComicViewer.pass_viewer run v).d.offset_y < v.d.offset_y := by omega
        show ComicViewer.passes
            { (ComicViewer.pass_viewer run v).d with
              nsfb := (ComicViewer.pass_viewer run v).d.nsfb ++
                [nsfb_call.update ⟨0, 0, v.d.width, v.d.height⟩] } =
          ComicViewer.passes v.d + 1 +
            (if (ComicViewer.pass_viewer run v).d.offset_y < v.d.offset_y then 1 else 0) +
            (if (ComicViewer.pass_viewer run v).d.offset_x < v.d.offset_x then 1 else 0)
        rw [passes_append_update, f9, if_neg hl1, if_neg hl2]

/-- For a fixed decoder whose headers fit `int`, `render` returns within a
recursion depth of 3, in a state where both offsets are within their bounds. -/
theorem comic_render_eq_of_decoded (run : Nat → helper_t) (hrun : ∀ i, header_fits_int (run i))
    (v : ComicViewer.viewer_t) (hv : ComicViewer.decoded_by run v) :
    (∀ fuel, ComicViewer.render_fuel run (fuel + 3) v = some (ComicViewer.render run v)) ∧
    ComicViewer.settled run (ComicViewer.render run v) ∧
    (ComicViewer.render run v).d.offset_y =
      min v.d.offset_y (ComicViewer.max_offset_y (ComicViewer.pass_viewer run v)) ∧
    ComicViewer.passes (ComicViewer.render run v).d =
      ComicViewer.passes v.d + 1 +
        (if (ComicViewer.render run v).d.offset_y < v.d.offset_y then 1 else 0) +
        (if (ComicViewer.render run v).d.offset_x < v.d.offset_x then 1 else 0) := by
  obtain ⟨r, hr, rs, r1, _, r3, _⟩ :=
    comic_render_of_decoded run hrun v hv (v.d.offset_y.toNat + v.d.offset_x.toNat)
  have he := ComicViewer.render_fuel_eq_render run
    (v.d.offset_y.toNat + v.d.offset_x.toNat + 3) v (by omega)
  rw [hr] at he
  injection he with he
  subst he
  refine ⟨?_, rs, r1, r3⟩
  intro fuel
  obtain ⟨r2, hr2, _⟩ := comic_render_of_decoded run hrun v hv fuel
  have h3 := ComicViewer.render_fuel_mono run (fuel + 3)
    (v.d.offset_y.toNat + v.d.offset_x.toNat) v r2 hr2
  have h4 := ComicViewer.render_fuel_mono run (v.d.offset_y.toNat + v.d.offset_x.toNat + 3)
    fuel v _ hr
  have e : fuel + 3 + (v.d.offset_y.toNat + v.d.offset_x.toNat) =
      v.d.offset_y.toNat + v.d.offset_x.toNat + 3 + fuel := by omega
  rw [e, h4] at h3
  rw [hr2, h3]

theorem comic_initial_decoded (run : Nat → helper_t) (image_count : Nat) (width height : Int)
    (format : nsfb_format_e) (buf : Int → Nat) (stride : Int) :
    ComicViewer.decoded_by run
      (ComicViewer.initial image_count width height format buf stride) := by
  refine ⟨?_, le_refl _, ?_, ?_⟩
  rotate_left
  · show (0 : Int) < 2 ^ 31
    norm_num
  · exact ⟨Nat.one_pos, le_refl _⟩
  intro i
  left
  show (List.replicate image_count (0 : Int)).getD i 0 = 0
  rw [List.getD_eq_getElem?_getD]
  by_cases h : i < image_count
  · rw [List.getElem?_replicate]
    simp [h]
  · rw [List.getElem?_eq_none (by simpa using h)]
    rfl

theorem comic_handle_event_decoded (run : Nat → helper_t) (e : ComicViewer.event_t)
    (v : ComicViewer.viewer_t) (hv : ComicViewer.decoded_by run v) :
    ComicViewer.decoded_by run (ComicViewer.handle_event e v) := by
  obtain ⟨h1, h2, h3, h4⟩ := hv
  have hc : (ComicViewer.handle_event e v).c = v.c := by cases e <;> rfl
  refine ⟨?_, ?_, ?_, ?_⟩
  · rw [hc]; exact h1
  · rw [hc]; exact h2
  · rw [hc]; exact h3
  · cases e
    case key_equals => exact clamp_scale _
    case key_kp_plus => exact clamp_scale _
    case key_minus =>
      obtain ⟨a, b, _⟩ := div_double_scale v.d.scale_factor h4.1 h4.2
      exact ⟨a, b⟩
    case key_f => exact clamp_scale _
    all_goals exact h4

/-- Every state on which `main` calls `render` holds heights that are 0 or the
height the fixed decoder gives. -/
theorem comic_render_called_on_decoded (run : Nat → helper_t)
    (hrun : ∀ i, header_fits_int (run i)) (image_count : Nat) (v : ComicViewer.viewer_t)
    (hv : ComicViewer.render_called_on run image_count v) : ComicViewer.decoded_by run v := by
  induction hv with
  | first width height format buf stride =>
    exact comic_initial_decoded run image_count width height format buf stride
  | next v e _ ih =>
    exact comic_handle_event_decoded run e _ (comic_render_eq_of_decoded run hrun v ih).2.1.1

theorem header_only_fits_int : header_fits_int ComicViewer.header_only := by
  intro width height e
  have e2 : read_header ComicViewer.header_only = Except.ok (100, 300) := rfl
  rw [e2] at e
  injection e with e
  injection e with e1 e2
  subst e1; subst e2
  decide

/-! ## C15: the number of passes of `render` -/

set_option maxRecDepth 100000

theorem not_below_zero_eq_max (m : Int) : ComicViewer.not_below_zero m = max 0 m := by
  unfold ComicViewer.not_below_zero
  split_ifs with h
  · rw [max_eq_left (le_of_lt h)]
  · rw [max_eq_right (not_lt.mp h)]

/-- The pixels of a 100 x 300 image that the first pass plots in a window
200 x 150 at scale 1, not scrolled: those of the source rows `y < 150`. -/
theorem first_page_rows_plotted (x y : Nat) (hx : x < 100) (hy : y < 300) :
    plotted (ComicViewer.view
      (ComicViewer.initial 1 200 150 nsfb_format_e.NSFB_FMT_XRGB8888 (fun _ => 0) 800).d 0)
      300 x y ↔ y < 150 := by
  simp only [plotted, ComicViewer.view, ComicViewer.initial, ComicViewer.float_t.add_div,
    Nat.cast_one, mul_one, Int.tdiv_one, neg_zero, zero_add]
  omega

theorem webtoon_settled_height_nonneg (run : Nat → helper_t)
    (hrun : ∀ i, header_fits_int (run i)) (i : Nat) :
    0 ≤ WebtoonViewer.settled_height run i := by
  unfold WebtoonViewer.settled_height
  cases hr : read_header (run i) with
  | error m => simp
  | ok wh =>
    obtain ⟨width, height⟩ := wh
    simp only
    rw [to_int_of_lt height (hrun i width height hr).2]
    positivity

/-- One iteration of the layout loop of webtoon-viewer under a fixed decoder:
no height gets smaller, every height is still 0 or settled, only `heights[i]`
may change, `start_height` grows by the new `heights[i]`, no pass is started and
the offsets and the visible size are as before. -/
theorem webtoon_render_body_decoded (run : Nat → helper_t)
    (hrun : ∀ i, header_fits_int (run i)) (i : Nat) (p : WebtoonViewer.pass_t)
    (hc : ∀ j, p.c.heights.getD j 0 = 0 ∨
      p.c.heights.getD j 0 = WebtoonViewer.settled_height run j) :
    (∀ j, p.c.heights.getD j 0 ≤ (WebtoonViewer.render_body run i p).c.heights.getD j 0) ∧
    (∀ j, (WebtoonViewer.render_body run i p).c.heights.getD j 0 = 0 ∨
      (WebtoonViewer.render_body run i p).c.heights.getD j 0 =
        WebtoonViewer.settled_height run j) ∧
    (∀ j, j ≠ i →
      (WebtoonViewer.render_body run i p).c.heights.getD j 0 = p.c.heights.getD j 0) ∧
    (WebtoonViewer.render_body run i p).start_height =
      p.start_height + (WebtoonViewer.render_body run i p).c.heights.getD i 0 ∧
    WebtoonViewer.passes (WebtoonViewer.render_body run i p).d = WebtoonViewer.passes p.d ∧
    (WebtoonViewer.render_body run i p).d.offset_y = p.d.offset_y ∧
    (WebtoonViewer.render_body run i p).d.offset_x = p.d.offset_x ∧
    (WebtoonViewer.render_body run i p).d.width = p.d.width ∧
    (WebtoonViewer.render_body run i p).d.height = p.d.height ∧
    (WebtoonViewer.render_body run i p).c.image_count = p.c.image_count := by
  have hsn := webtoon_settled_height_nonneg run hrun
  by_cases hv : WebtoonViewer.handed_over p i
  swap
  · rw [webtoon_render_body_of_not_handed_over run i p hv]
    exact ⟨fun j => le_refl _, hc, fun j _ => rfl, rfl, rfl, rfl, rfl, rfl, rfl, rfl⟩
  · have hv1 := hv
    unfold WebtoonViewer.handed_over at hv1
    unfold WebtoonViewer.render_body
    simp only [hv1, and_self, if_true]
    cases hr : read_header (run i) with
    | ok wh =>
      obtain ⟨width, height⟩ := wh
      obtain ⟨hw, hg⟩ := hrun i width height hr
      have hset : WebtoonViewer.settled_height run i = (height : Int) := by
        unfold WebtoonViewer.settled_height
        rw [hr]
        exact to_int_of_lt height hg
      rw [webtoon_render_image_of_ok _ width height hr]
      simp only [not_true_eq_false, if_false, to_int_of_lt height hg]
      refine ⟨?_, ?_, ?_, ?_, ?_, ?_, ?_, ?_, ?_, ?_⟩
      · intro j
        rw [getD_set]
        split_ifs with h
        · obtain ⟨rfl, _⟩ := h
          rcases hc j with h0 | h0
          · rw [h0]; positivity
          · rw [h0, hset]
        · exact le_refl _
      · intro j
        rw [getD_set]
        split_ifs with h
        · obtain ⟨rfl, _⟩ := h
          exact Or.inr hset.symm
        · exact hc j
      · intro j hj
        exact getD_set_ne _ _ _ _ hj
      all_goals trivial
    | error m =>
      have hset : WebtoonViewer.settled_height run i = 500 := by
        unfold WebtoonViewer.settled_height
        rw [hr]
      rw [webtoon_render_image_of_error (run i) m hr]
      simp only [Bool.false_eq_true, not_false_eq_true, if_true]
      unfold WebtoonViewer.render_fallback
      simp only
      by_cases h0 : p.c.heights.getD i 0 = 0
      · simp only [h0, if_true]
        refine ⟨?_, ?_, ?_, ?_, ?_, ?_, ?_, ?_, ?_, ?_⟩
        · intro j
          rw [getD_set]
          split_ifs with h
          · obtain ⟨rfl, _⟩ := h
            rw [h0]; decide
          · exact le_refl _
        · intro j
          rw [getD_set]
          split_ifs with h
          · obtain ⟨rfl, _⟩ := h
            exact Or.inr hset.symm
          · exact hc j
        · intro j hj
          exact getD_set_ne _ _ _ _ hj
        all_goals first
          | trivial
          | rfl
          | exact countP_claim_append_fill _ _ _
      · simp only [h0, if_false]
        refine ⟨fun j => le_refl _, hc, fun j _ => ?_, ?_, ?_, ?_, ?_, ?_, ?_, ?_⟩
        all_goals first
          | trivial
          | rfl
          | exact countP_claim_append_fill _ _ _

theorem webtoon_total_height_succ (n : Nat) (hs : List Int) :
    WebtoonViewer.total_height (n + 1) hs = WebtoonViewer.total_height n hs + hs.getD n 0 := by
  unfold WebtoonViewer.total_height
  rw [foldl_range_succ]

theorem webtoon_total_height_congr (n : Nat) (hs hs1 : List Int)
    (h : ∀ j, j < n → hs1.getD j 0 = hs.getD j 0) :
    WebtoonViewer.total_height n hs1 = WebtoonViewer.total_height n hs := by
  unfold WebtoonViewer.total_height
  apply List.foldl_ext
  intro a i hi
  rw [h i (List.mem_range.mp hi)]

theorem webtoon_total_height_mono (hs hs1 : List Int) (n : Nat)
    (h : ∀ j, hs.getD j 0 ≤ hs1.getD j 0) :
    WebtoonViewer.total_height n hs ≤ WebtoonViewer.total_height n hs1 := by
  induction n with
  | zero => exact le_refl _
  | succ n ih =>
    rw [webtoon_total_height_succ, webtoon_total_height_succ]
    exact add_le_add ih (h n)

theorem webtoon_render_loop_succ (run : Nat → helper_t) (p0 : WebtoonViewer.pass_t) (n : Nat) :
    WebtoonViewer.render_loop run p0 (n + 1) =
      WebtoonViewer.render_body run n (WebtoonViewer.render_loop run p0 n) := by
  unfold WebtoonViewer.render_loop
  rw [foldl_range_succ]

/-- The layout loop of webtoon-viewer under a fixed decoder: no height gets
smaller, every height is still 0 or settled, `start_height` has grown by the sum
of the heights held at the end, no pass is started and the offsets and the
visible size are as before. -/
theorem webtoon_render_loop_decoded (run : Nat → helper_t)
    (hrun : ∀ i, header_fits_int (run i)) (p0 : WebtoonViewer.pass_t)
    (hc : ∀ j, p0.c.heights.getD j 0 = 0 ∨
      p0.c.heights.getD j 0 = WebtoonViewer.settled_height run j) (n : Nat) :
    (∀ j, p0.c.heights.getD j 0 ≤ (WebtoonViewer.render_loop run p0 n).c.heights.getD j 0) ∧
    (∀ j, (WebtoonViewer.render_loop run p0 n).c.heights.getD j 0 = 0 ∨
      (WebtoonViewer.render_loop run p0 n).c.heights.getD j 0 =
        WebtoonViewer.settled_height run j) ∧
    (WebtoonViewer.render_loop run p0 n).start_height =
      p0.start_height +
        WebtoonViewer.total_height n (WebtoonViewer.render_loop run p0 n).c.heights ∧
    WebtoonViewer.passes (WebtoonViewer.render_loop run p0 n).d = WebtoonViewer.passes p0.d ∧
    (WebtoonViewer.render_loop run p0 n).d.offset_y = p0.d.offset_y ∧
    (WebtoonViewer.render_loop run p0 n).d.offset_x = p0.d.offset_x ∧
    (WebtoonViewer.render_loop run p0 n).d.width = p0.d.width ∧
    (WebtoonViewer.render_loop run p0 n).d.height = p0.d.height ∧
    (WebtoonViewer.render_loop run p0 n).c.image_count = p0.c.image_count := by
  induction n with
  | zero =>
    refine ⟨fun j => le_refl _, hc, ?_, rfl, rfl, rfl, rfl, rfl, rfl⟩
    show p0.start_height = p0.start_height + 0
    rw [add_zero]
  | succ n ih =>
    obtain ⟨i1, i2, i3, i4, i5, i6, i7, i8, i9⟩ := ih
    obtain ⟨b1, b2, b3, b4, b5, b6, b7, b8, b9, b10⟩ :=
      webtoon_render_body_decoded run hrun n (WebtoonViewer.render_loop run p0 n) i2
    rw [webtoon_render_loop_succ]
    refine ⟨fun j => le_trans (i1 j) (b1 j), b2, ?_, b5.trans i4, b6.trans i5, b7.trans i6,
      b8.trans i7, b9.trans i8, b10.trans i9⟩
    rw [b4, i3, webtoon_total_height_succ, add_assoc]
    congr 2
    exact (webtoon_total_height_congr n _ _ (fun j hj => b3 j (Nat.ne_of_lt hj))).symm

/-- One pass of webtoon-viewer's `render` under a fixed decoder. -/
theorem webtoon_pass_facts (run : Nat → helper_t) (hrun : ∀ i, header_fits_int (run i))
    (v : WebtoonViewer.viewer_t) (hv : WebtoonViewer.decoded_by run v) :
    WebtoonViewer.decoded_by run
      ⟨(WebtoonViewer.render_pass run v).d, (WebtoonViewer.render_pass run v).c,
        (WebtoonViewer.render_pass run v).stderr⟩ ∧
    (WebtoonViewer.render_pass run v).start_height =
      WebtoonViewer.total_height v.c.image_count (WebtoonViewer.render_pass run v).c.heights ∧
    WebtoonViewer.total_height v.c.image_count v.c.heights ≤
      (WebtoonViewer.render_pass run v).start_height ∧
    WebtoonViewer.passes (WebtoonViewer.render_pass run v).d = WebtoonViewer.passes v.d + 1 ∧
    (WebtoonViewer.render_pass run v).d.offset_y = v.d.offset_y ∧
    (WebtoonViewer.render_pass run v).d.offset_x = v.d.offset_x ∧
    (WebtoonViewer.render_pass run v).d.width = v.d.width ∧
    (WebtoonViewer.render_pass run v).d.height = v.d.height ∧
    (WebtoonViewer.render_pass run v).c.image_count = v.c.image_count := by
  have hloop := webtoon_render_loop_decoded run hrun
    ⟨{ v.d with nsfb := v.d.nsfb ++ [nsfb_call.claim ⟨0, 0, v.d.width, v.d.height⟩,
        nsfb_call.plot_clg BACKGROUND_COLOUR] }, v.c, v.stderr, 0⟩ hv v.c.image_count
  have hrp : WebtoonViewer.render_loop run
      ⟨{ v.d with nsfb := v.d.nsfb ++ [nsfb_call.claim ⟨0, 0, v.d.width, v.d.height⟩,
        nsfb_call.plot_clg BACKGROUND_COLOUR] }, v.c, v.stderr, 0⟩ v.c.image_count =
      WebtoonViewer.render_pass run v := rfl
  rw [hrp] at hloop
  obtain ⟨l1, l2, l3, l4, l5, l6, l7, l8, l9⟩ := hloop
  have l3a : (WebtoonViewer.render_pass run v).start_height =
      WebtoonViewer.total_height v.c.image_count
        (WebtoonViewer.render_pass run v).c.heights := by
    rw [l3]
    exact zero_add _
  refine ⟨l2, l3a, ?_, ?_, l5, l6, l7, l8, l9⟩
  · rw [l3a]
    exact webtoon_total_height_mono _ _ _ l1
  · rw [l4]
    unfold WebtoonViewer.passes
    show List.countP _ (v.d.nsfb ++ [nsfb_call.claim ⟨0, 0, v.d.width, v.d.height⟩,
      nsfb_call.plot_clg BACKGROUND_COLOUR]) = _
    rw [List.countP_append]
    simp [List.countP_cons]

theorem webtoon_passes_append_update (d : WebtoonViewer.display_t) (box : nsfb_bbox_t) :
    WebtoonViewer.passes { d with nsfb := d.nsfb ++ [nsfb_call.update box] } =
      WebtoonViewer.passes d :=
  countP_claim_append_update d.nsfb box

/-- From a state of webtoon-viewer whose `offset_y` is at most the total height
less the window height, `render` makes one pass and returns. -/
theorem webtoon_render_of_settled (run : Nat → helper_t) (hrun : ∀ i, header_fits_int (run i))
    (v : WebtoonViewer.viewer_t) (hv : WebtoonViewer.decoded_by run v)
    (hy : v.d.offset_y ≤ WebtoonViewer.total_height v.c.image_count v.c.heights - v.d.height) :
    ∃ r, (∀ fuel, WebtoonViewer.render_fuel run (fuel + 1) v = some r) ∧
      WebtoonViewer.decoded_by run r ∧ r.d.offset_y = v.d.offset_y ∧
      WebtoonViewer.passes r.d = WebtoonViewer.passes v.d + 1 ∧
      r.c.image_count = v.c.image_count := by
  obtain ⟨f0, f1, f2, f3, f4, f5, f6, f7, f8⟩ := webtoon_pass_facts run hrun v hv
  have c1 : ¬ (WebtoonViewer.render_pass run v).d.offset_y >
      (WebtoonViewer.render_pass run v).start_height -
        (WebtoonViewer.render_pass run v).d.height := by
    rw [f4, f7]
    omega
  refine ⟨{ d := { (WebtoonViewer.render_pass run v).d with
                    nsfb := (WebtoonViewer.render_pass run v).d.nsfb ++
                      [nsfb_call.update ⟨0, 0, v.d.width, v.d.height⟩] },
            c := (WebtoonViewer.render_pass run v).c,
            stderr := (WebtoonViewer.render_pass run v).stderr }, ?_, f0, f4, ?_, f8⟩
  · intro fuel
    rw [WebtoonViewer.render_fuel]
    simp only
    rw [if_neg c1]
  · show WebtoonViewer.passes
        { (WebtoonViewer.render_pass run v).d with
          nsfb := (WebtoonViewer.render_pass run v).d.nsfb ++
            [nsfb_call.update ⟨0, 0, v.d.width, v.d.height⟩] } = _
    rw [webtoon_passes_append_update, f3]

/-- Under a fixed decoder, webtoon-viewer's `render` makes one pass, and a
second one if and only if `offset_y` has to be clamped. -/
theorem webtoon_render_of_decoded (run : Nat → helper_t) (hrun : ∀ i, header_fits_int (run i))
    (v : WebtoonViewer.viewer_t) (hv : WebtoonViewer.decoded_by run v) :
    ∃ r, (∀ fuel, WebtoonViewer.render_fuel run (fuel + 2) v = some r) ∧
      WebtoonViewer.decoded_by run r ∧ r.d.offset_y ≤ v.d.offset_y ∧
      WebtoonViewer.passes r.d =
        WebtoonViewer.passes v.d + 1 + (if r.d.offset_y < v.d.offset_y then 1 else 0) ∧
      r.c.image_count = v.c.image_count := by
  obtain ⟨f0, f1, f2, f3, f4, f5, f6, f7, f8⟩ := webtoon_pass_facts run hrun v hv
  by_cases c1 : (WebtoonViewer.render_pass run v).d.offset_y >
      (WebtoonViewer.render_pass run v).start_height -
        (WebtoonViewer.render_pass run v).d.height
  · have hda : WebtoonViewer.decoded_by run
        ⟨{ (WebtoonViewer.render_pass run v).d with
            offset_y := (WebtoonViewer.render_pass run v).start_height -
              (WebtoonViewer.render_pass run v).d.height },
          (WebtoonViewer.render_pass run v).c, (WebtoonViewer.render_pass run v).stderr⟩ := f0
    have hya : (WebtoonViewer.render_pass run v).start_height -
          (WebtoonViewer.render_pass run v).d.height ≤
        WebtoonViewer.total_height (WebtoonViewer.render_pass run v).c.image_count
          (WebtoonViewer.render_pass run v).c.heights -
            (WebtoonViewer.render_pass run v).d.height := by
      rw [f8, ← f1]
    obtain ⟨r, hr, rd, r1, r3, r4⟩ := webtoon_render_of_settled run hrun _ hda hya
    have r1a : r.d.offset_y = (WebtoonViewer.render_pass run v).start_height -
        (WebtoonViewer.render_pass run v).d.height := r1
    have r3a : WebtoonViewer.passes r.d =
        WebtoonViewer.passes (WebtoonViewer.render_pass run v).d + 1 := r3
    have r4a : r.c.image_count = (WebtoonViewer.render_pass run v).c.image_count := r4
    have hlt : r.d.offset_y < v.d.offset_y := by
      rw [r1a]
      rw [f4] at c1
      exact c1
    refine ⟨⟨{ r.d with nsfb := r.d.nsfb ++ [nsfb_call.update ⟨0, 0, v.d.width, v.d.height⟩] },
        r.c, r.stderr⟩,
      ?_, rd, le_of_lt hlt, ?_, r4a.trans f8⟩
    · intro fuel
      rw [WebtoonViewer.render_fuel]
      simp only
      rw [if_pos c1, hr fuel]
    · show WebtoonViewer.passes
          { r.d with nsfb := r.d.nsfb ++ [nsfb_call.update ⟨0, 0, v.d.width, v.d.height⟩] } =
        WebtoonViewer.passes v.d + 1 + (if r.d.offset_y < v.d.offset_y then 1 else 0)
      rw [webtoon_passes_append_update, r3a, f3, if_pos hlt]
  · refine ⟨{ d := { (WebtoonViewer.render_pass run v).d with
                      nsfb := (WebtoonViewer.render_pass run v).d.nsfb ++
                        [nsfb_call.update ⟨0, 0, v.d.width, v.d.height⟩] },
              c := (WebtoonViewer.render_pass run v).c,
              stderr := (WebtoonViewer.render_pass run v).stderr },
      ?_, f0, le_of_eq f4, ?_, f8⟩
    · intro fuel
      rw [WebtoonViewer.render_fuel]
      simp only
      rw [if_neg c1]
    · have hnl : ¬ (WebtoonViewer.render_pass run v).d.offset_y < v.d.offset_y := by
        rw [f4]
        exact lt_irrefl _
      show WebtoonViewer.passes
          { (WebtoonViewer.render_pass run v).d with
            nsfb := (WebtoonViewer.render_pass run v).d.nsfb ++
              [nsfb_call.update ⟨0, 0, v.d.width, v.d.height⟩] } =
        WebtoonViewer.passes v.d + 1 +
          (if (WebtoonViewer.render_pass run v).d.offset_y < v.d.offset_y then 1 else 0)
      rw [webtoon_passes_append_update, f3, if_neg hnl]

theorem webtoon_render_fuel_succ (run : Nat → helper_t) (fuel : Nat) :
    ∀ v r : WebtoonViewer.viewer_t, WebtoonViewer.render_fuel run fuel v = some r →
      WebtoonViewer.render_fuel run (fuel + 1) v = some r := by
  induction fuel with
  | zero => intro v r h; simp [WebtoonViewer.render_fuel] at h
  | succ fuel ih =>
    intro v r h
    rw [WebtoonViewer.render_fuel] at h ⊢
    simp only at h ⊢
    by_cases hc : (WebtoonViewer.render_pass run v).d.offset_y >
        (WebtoonViewer.render_pass run v).start_height -
          (WebtoonViewer.render_pass run v).d.height
    · rw [if_pos hc] at h ⊢
      cases hA : WebtoonViewer.render_fuel run fuel
          ⟨{ (WebtoonViewer.render_pass run v).d with
              offset_y := (WebtoonViewer.render_pass run v).start_height -
                (WebtoonViewer.render_pass run v).d.height },
            (WebtoonViewer.render_pass run v).c, (WebtoonViewer.render_pass run v).stderr⟩ with
      | none => rw [hA] at h; simp at h
      | some w =>
        rw [hA] at h
        rw [ih _ _ hA]
        exact h
    · rw [if_neg hc] at h ⊢
      exact h

theorem webtoon_render_fuel_mono (run : Nat → helper_t) (fuel k : Nat)
    (v r : WebtoonViewer.viewer_t) (h : WebtoonViewer.render_fuel run fuel v = some r) :
    WebtoonViewer.render_fuel run (fuel + k) v = some r := by
  induction k with
  | zero => exact h
  | succ k ih => exact webtoon_render_fuel_succ run _ _ _ ih

theorem webtoon_initial_decoded (run : Nat → helper_t) (image_count : Nat) (width height : Int)
    (format : nsfb_format_e) (buf : Int → Nat) (stride : Int) :
    WebtoonViewer.decoded_by run
      (WebtoonViewer.initial image_count width height format buf stride) := by
  intro i
  left
  show (List.replicate image_count (0 : Int)).getD i 0 = 0
  rw [List.getD_eq_getElem?_getD]
  by_cases h : i < image_count
  · rw [List.getElem?_replicate]
    simp [h]
  · rw [List.getElem?_eq_none (by simpa using h)]
    rfl

theorem webtoon_handle_event_decoded (run : Nat → helper_t) (e : WebtoonViewer.event_t)
    (v : WebtoonViewer.viewer_t) (hv : WebtoonViewer.decoded_by run v) :
    WebtoonViewer.decoded_by run (WebtoonViewer.handle_event e v) := by
  have hc : (WebtoonViewer.handle_event e v).c = v.c := by cases e <;> rfl
  intro i
  rw [hc]
  exact hv i

/-- Every state on which `main` of webtoon-viewer calls `render` holds heights
that are 0 or the height the fixed decoder gives. -/
theorem webtoon_render_called_on_decoded (run : Nat → helper_t)
    (hrun : ∀ i, header_fits_int (run i)) (image_count : Nat) (v : WebtoonViewer.viewer_t)
    (hv : WebtoonViewer.render_called_on run image_count v) :
    WebtoonViewer.decoded_by run v := by
  induction hv with
  | first width height format buf stride =>
    exact webtoon_initial_decoded run image_count width height format buf stride
  | next v r e fuel _ hr ih =>
    obtain ⟨r1, h1, hd, _⟩ := webtoon_render_of_decoded run hrun v ih
    have h2 := webtoon_render_fuel_mono run fuel 2 v r hr
    rw [h1 fuel] at h2
    injection h2 with h2
    subst h2
    exact webtoon_handle_event_decoded run e _ hd

/-! ## C15 as amended: both viewers -/

end Webutils
